import Mathlib

/-!
# Build-output parsers and the CMake build configuration of Qt Creator

A shallow embedding of

* `src/plugins/projectexplorer/xcodebuildparser.cpp`
* `src/plugins/cmakeprojectmanager/cmakeautogenparser.cpp`
* `src/plugins/cmakeprojectmanager/cmakebuildconfiguration.cpp`

Text (`QString`, `QByteArray`) is a list of characters; a length that the
program reports is its `size` in UTF-16 code units.  Parser objects are
records; a member function takes the record and returns its result together
with the updated record.
-/

namespace QtCreator

/-- Text of the program: `QString` and `QByteArray` alike. -/
abbrev QString := List Char

/-! ## Text helpers (`QChar`, `Utils::rightTrimmed`, `QRegularExpression`) -/

/-- Modelled from the spec: `QChar::isSpace` (Qt, not among the sources), the
white-space test behind "right-trimmed": the ASCII controls TAB..CR, the
space, NEL, the no-break space and the Unicode separators. -/
def isSpace (c : Char) : Bool :=
  let n := c.toNat
  n == 0x20 || (0x09 ≤ n && n ≤ 0x0d) || n == 0x85 || n == 0xa0 || n == 0x1680
    || (0x2000 ≤ n && n ≤ 0x200a) || n == 0x2028 || n == 0x2029 || n == 0x202f
    || n == 0x205f || n == 0x3000

/-- Modelled from the spec: `Utils::rightTrimmed` (utils/stringutils, not
among the sources): the text without its trailing white space. -/
def rightTrimmed (s : QString) : QString :=
  (s.reverse.dropWhile isSpace).reverse

/-- The number of UTF-16 code units of a character: a `QString` holds a
character outside the Basic Multilingual Plane as two `QChar`s. -/
def utf16Units (c : Char) : Nat :=
  if c.toNat < 0x10000 then 1 else 2

/-- `QString::size`: the length of the text in UTF-16 code units. -/
def size (s : QString) : Nat :=
  (s.map utf16Units).sum

/-- `QString::left(n)`: the leading text of `n` UTF-16 code units (the whole
characters within them). -/
def left : Nat → QString → QString
  | _, [] => []
  | n, c :: t => if utf16Units c ≤ n then c :: left (n - utf16Units c) t else []

/-- The rest of `s` after the leading text `p`, if `s` starts with `p`. -/
def stripLeading : QString → QString → Option QString
  | [], s => some s
  | _ :: _, [] => none
  | a :: p, b :: s => if a = b then stripLeading p s else none

/-- `QString::contains(needle)`: `needle` occurs somewhere in the text. -/
def contains (needle : QString) : QString → Bool
  | [] => needle.isEmpty
  | c :: s => (stripLeading needle (c :: s)).isSome || contains needle s

namespace Re

/-- The pieces the regular expressions of the parsers are made of. -/
inductive Item where
  /-- Literal text. -/
  | lit (cs : QString)
  /-- An optional literal group: `(text)?`. -/
  | optLit (cs : QString)
  /-- An alternation of literals: `(a|b|c)`. -/
  | alt (css : List QString)
  /-- Any run of characters other than the line feed: `.*`. -/
  | dotStar
  /-- A non-empty run of one character: `[c]+`. -/
  | plusChar (c : Char)
  /-- End of subject, or just before a final line feed: `$`. -/
  | eol

/-- Tries `k` on the text and, as long as no line feed is skipped, on its tails. -/
def anyTail (k : QString → Bool) : QString → Bool
  | [] => k []
  | c :: t => k (c :: t) || (c != '\n' && anyTail k t)

/-- Tries `k` on the text and on its tails while only `c` is skipped. -/
def manyChar (c : Char) (k : QString → Bool) : QString → Bool
  | [] => k []
  | d :: t => k (d :: t) || (d == c && manyChar c k t)

/-- Whether the pattern matches at the very start of the text. -/
def matchHere : List Item → QString → Bool
  | [], _ => true
  | .lit cs :: r, s =>
      match stripLeading cs s with
      | some t => matchHere r t
      | none => false
  | .optLit cs :: r, s =>
      (match stripLeading cs s with
       | some t => matchHere r t
       | none => false) || matchHere r s
  | .alt css :: r, s =>
      css.any fun cs =>
        match stripLeading cs s with
        | some t => matchHere r t
        | none => false
  | .dotStar :: r, s => anyTail (matchHere r) s
  | .plusChar c :: r, s =>
      match s with
      | [] => false
      | d :: t => d == c && manyChar c (matchHere r) t
  | .eol :: r, s => (s == [] || s == ['\n']) && matchHere r s

/-- Whether the pattern matches at some position of the text. -/
def search (items : List Item) : QString → Bool
  | [] => matchHere items []
  | c :: t => matchHere items (c :: t) || search items t

/-- The text ends with `L`, or with `L` and a final line feed. -/
def Ends (L s : QString) : Prop :=
  L <:+ s ∨ (L ++ ['\n']) <:+ s

end Re

/-- A compiled `QRegularExpression`: `anchored` stands for a leading `^`. -/
structure QRegularExpression where
  anchored : Bool
  items : List Re.Item

/-- `QRegularExpression::match(s).hasMatch()`. -/
def QRegularExpression.hasMatch (re : QRegularExpression) (s : QString) : Bool :=
  if re.anchored then Re.matchHere re.items s else Re.search re.items s

/-- `QRegularExpressionMatch::captured()` of a match of a pattern of the shape
`^...*$`: the whole subject up to the place where `$` matched. -/
def capturedAll (s : QString) : QString :=
  if s.getLast? = some '\n' then s.dropLast else s

/-- `QString::split(sep)`: the pieces between the separators, empty ones kept. -/
def split (sep : Char) : QString → List QString
  | [] => [[]]
  | c :: s =>
      if c = sep then [] :: split sep s
      else
        match split sep s with
        | [] => [[c]]
        | l :: ls => (c :: l) :: ls

/-! ## Tasks and parser results (`ProjectExplorer::Task`, `Utils::OutputLineParser`) -/

/-- Modelled from the spec: the stream tag of a line (`Utils::OutputFormat`,
not among the sources); the parsers only tell stdout from anything else. -/
inductive OutputFormat where
  | StdOutFormat
  | StdErrFormat
  deriving DecidableEq, Repr

/-- Severity of a task (`Task::TaskType`). -/
inductive TaskType where
  | Unknown
  | Error
  | Warning
  deriving DecidableEq, Repr

/-- Modelled from the spec: the `Task` record (projectexplorer/task.h is not
among the sources): severity, one-line summary, ordered detail lines and an
optional file position.  `isNull` is true for a default constructed or cleared
task and false for one built from a severity and a description. -/
structure Task where
  isNull : Bool
  type : TaskType
  summary : QString
  details : List QString
  file : QString
  line : Int
  column : Int
  deriving DecidableEq, Repr

namespace Task

/-- Modelled from the spec: the default constructed task, which is null. -/
def null : Task :=
  ⟨true, .Unknown, [], [], [], -1, 0⟩

/-- Modelled from the spec: the `Task` constructor.  A description of several
lines is split: its first line is the summary, the others are the details
(the parser tests build their expected tasks this way). -/
def create (type : TaskType) (description : QString) (file : QString) (line : Int) : Task :=
  match split '\n' description with
  | first :: second :: more => ⟨false, type, first, second :: more, file, line, 0⟩
  | _ => ⟨false, type, description, [], file, line, 0⟩

/-- Modelled from the spec: `Task::clear`, back to the null task. -/
def clear (_t : Task) : Task := null

/-- Modelled from the spec: `Task::addToDetails`, one more detail line. -/
def addToDetails (t : Task) (line : QString) : Task :=
  { t with details := t.details ++ [line] }

/-- Whether the task has detail lines (`Task::hasDetails`). -/
def hasDetails (t : Task) : Bool := !t.details.isEmpty

end Task

/-- `CompileTask(type, description, file)`: a task of the compile category. -/
def CompileTask (type : TaskType) (description : QString) (file : QString) : Task :=
  Task.create type description file (-1)

/-- `CMakeTask(type, description)`: a task of the build-system category. -/
def CMakeTask (type : TaskType) (description : QString) : Task :=
  Task.create type description [] (-1)

/-- `OutputLineParser::Status`. -/
inductive Status where
  | Done
  | InProgress
  | NotHandled
  deriving DecidableEq, Repr

/-- `OutputLineParser::LinkSpec`: a clickable span of the line. -/
structure LinkSpec where
  startPos : Nat
  length : Nat
  target : QString
  deriving DecidableEq, Repr

/-- `OutputLineParser::Result`. -/
structure Result where
  status : Status
  linkSpecs : List LinkSpec
  deriving DecidableEq, Repr

/-- A task handed to `scheduleTask` with its count of output lines and of
skipped lines. -/
structure TaskInfo where
  task : Task
  linkedLines : Nat
  skippedLines : Nat
  deriving DecidableEq, Repr

/-- The file-path services an output parser gets from its host
(`OutputLineParser::absoluteFilePath`, `FilePath::isAbsolutePath`,
`OutputLineParser::createLinkTarget`); they are not among the sources and are
a parameter of the parser. -/
structure PathHost where
  absoluteFilePath : QString → QString
  isAbsolutePath : QString → Bool
  createLinkTarget : QString → Int → Int → QString

/-- A host whose absolute paths are the ones that start with a slash. -/
def posixHost : PathHost where
  absoluteFilePath := fun p => p
  isAbsolutePath := fun p => p.head? = some '/'
  createLinkTarget := fun p _ _ => p

/-- `OutputLineParser::addLinkSpecForAbsoluteFilePath`: a link only for an
absolute file. -/
def addLinkSpecForAbsoluteFilePath (host : PathHost) (linkSpecs : List LinkSpec)
    (filePath : QString) (lineNo column : Int) (pos len : Nat) : List LinkSpec :=
  if host.isAbsolutePath filePath then
    linkSpecs ++ [⟨pos, len, host.createLinkTarget filePath lineNo column⟩]
  else linkSpecs

/-! ## `XcodebuildParser` (xcodebuildparser.cpp) -/

namespace XcodebuildParser

/-- `XcodebuildParser::XcodebuildStatus`. -/
inductive XcodebuildStatus where
  | InXcodebuild
  | OutsideXcodebuild
  | UnknownXcodebuildState
  deriving DecidableEq, Repr

/-- The text `** BUILD FAILED **`. -/
def failureText : QString := "** BUILD FAILED **".toList

/-- The text `** BUILD SUCCEEDED **`. -/
def successText : QString := "** BUILD SUCCEEDED **".toList

/-- `failureRe`: the failure text at the end. -/
def failureRe : QRegularExpression :=
  ⟨false, [.lit failureText, .eol]⟩

/-- `successRe`: the success text at the end. -/
def successRe : QRegularExpression :=
  ⟨false, [.lit successText, .eol]⟩

/-- `buildRe`: `=== BUILD (AGGREGATE )?TARGET (.*) OF PROJECT (.*) WITH .* ===$`. -/
def buildRe : QRegularExpression :=
  ⟨false, [.lit "=== BUILD ".toList, .optLit "AGGREGATE ".toList, .lit "TARGET ".toList,
    .dotStar, .lit " OF PROJECT ".toList, .dotStar, .lit " WITH ".toList, .dotStar,
    .lit " ===".toList, .eol]⟩

/-- The build-phase header of xcodebuild for a target, a project and a
configuration text, as `buildRe` reads it. -/
def headerLine (aggregate : Bool) (target project conf : QString) : QString :=
  "=== BUILD ".toList ++ ((if aggregate then "AGGREGATE ".toList else []) ++ ("TARGET ".toList
    ++ (target ++ (" OF PROJECT ".toList ++ (project ++ (" WITH ".toList
    ++ (conf ++ " ===".toList)))))))

/-- `signatureChangeEndsWithPattern`. -/
def signatureChangeEndsWithPattern : QString := ": replacing existing signature".toList

/-- `notesPatterns` of `handleLine`. -/
def notesPatterns : List QString :=
  ["note: Build preparation complete".toList,
   "note: Building targets in parallel".toList,
   "note: Planning build".toList]

/-- The parser object: its state, its fatal error counter and the tasks it has
scheduled so far. -/
structure Parser where
  m_xcodeBuildParserState : XcodebuildStatus
  m_fatalErrorCount : Nat
  scheduled : List TaskInfo
  deriving DecidableEq, Repr

/-- `scheduleTask(task, outputLines)`. -/
def scheduleTask (p : Parser) (task : Task) (outputLines : Nat) : Parser :=
  { p with scheduled := p.scheduled ++ [⟨task, outputLines, 0⟩] }

open XcodebuildStatus in
/-- `XcodebuildParser::handleLine`. -/
def handleLine (host : PathHost) (p : Parser) (line : QString) (type : OutputFormat) :
    Result × Parser :=
  let lne := rightTrimmed line
  if type = .StdOutFormat then
    if buildRe.hasMatch line || notesPatterns.contains lne then
      (⟨.Done, []⟩, { p with m_xcodeBuildParserState := InXcodebuild })
    else if p.m_xcodeBuildParserState = InXcodebuild
        ∨ p.m_xcodeBuildParserState = UnknownXcodebuildState then
      if successRe.hasMatch lne then
        (⟨.Done, []⟩, { p with m_xcodeBuildParserState := OutsideXcodebuild })
      else if signatureChangeEndsWithPattern.isSuffixOf lne then
        let filePathEndPos := size lne - size signatureChangeEndsWithPattern
        let task := CompileTask .Warning "Replacing signature".toList
          (host.absoluteFilePath (left filePathEndPos lne))
        let linkSpecs := addLinkSpecForAbsoluteFilePath host [] task.file task.line
          task.column 0 filePathEndPos
        (⟨.Done, linkSpecs⟩, scheduleTask p task 1)
      else (⟨.NotHandled, []⟩, p)
    else (⟨.NotHandled, []⟩, p)
  else
    let p1 :=
      if failureRe.hasMatch lne then
        scheduleTask
          { p with m_fatalErrorCount := p.m_fatalErrorCount + 1,
                   m_xcodeBuildParserState := UnknownXcodebuildState }
          (CompileTask .Error "Xcodebuild failed.".toList []) 1
      else p
    if p1.m_xcodeBuildParserState = OutsideXcodebuild then (⟨.NotHandled, []⟩, p1)
    else (⟨.Done, []⟩, p1)

/-- `XcodebuildParser::hasDetectedRedirection`. -/
def hasDetectedRedirection (p : Parser) : Bool :=
  p.m_xcodeBuildParserState != .OutsideXcodebuild

/-- Feeds the lines, each with its stream tag, one after the other. -/
def run (host : PathHost) (p : Parser) (lines : List (QString × OutputFormat)) : Parser :=
  lines.foldl (fun q l => (handleLine host q l.1 l.2).2) p

/-- The lines that reached the child's stdout and stderr channels. -/
structure Channels where
  stdOut : List QString
  stdErr : List QString
  deriving DecidableEq, Repr

/-- Modelled from the spec: the routing of a stdout line by the output
formatter (not among the sources): a line the parser does not handle goes on to
the stderr channel when the parser has detected a redirection and to the stdout
channel otherwise; a handled line reaches neither channel. -/
def feedStdOut (host : PathHost) (st : Parser × Channels) (line : QString) :
    Parser × Channels :=
  let r := handleLine host st.1 line .StdOutFormat
  match r.1.status with
  | .NotHandled =>
      if hasDetectedRedirection r.2 then
        (r.2, { st.2 with stdErr := st.2.stdErr ++ [line] })
      else (r.2, { st.2 with stdOut := st.2.stdOut ++ [line] })
  | _ => (r.2, st.2)

/-- Whether the stdout line is one of the markers of the parser: a build-phase
header, one of the notes, a success line or a signature replacement line. -/
def isMarker (line : QString) : Bool :=
  buildRe.hasMatch line || notesPatterns.contains (rightTrimmed line)
    || successRe.hasMatch (rightTrimmed line)
    || signatureChangeEndsWithPattern.isSuffixOf (rightTrimmed line)

end XcodebuildParser

/-! ## `CMakeAutogenParser` (cmakeautogenparser.cpp) -/

namespace CMakeAutogenParser

/-- `COMMON_ERROR_PATTERN`: `^(AutoMoc|AUTOMOC|AutoUic).*error.*$`. -/
def COMMON_ERROR_PATTERN : QRegularExpression :=
  ⟨true, [.alt ["AutoMoc".toList, "AUTOMOC".toList, "AutoUic".toList], .dotStar,
    .lit "error".toList, .dotStar, .eol]⟩

/-- `COMMON_WARNING_PATTERN`: `^(AutoMoc|AUTOMOC|AutoUic).*warning.*$`. -/
def COMMON_WARNING_PATTERN : QRegularExpression :=
  ⟨true, [.alt ["AutoMoc".toList, "AUTOMOC".toList, "AutoUic".toList], .dotStar,
    .lit "warning".toList, .dotStar, .eol]⟩

/-- `COMMON_SEPARATOR_PATTERN`: `^[-]+$`. -/
def COMMON_SEPARATOR_PATTERN : QRegularExpression :=
  ⟨true, [.plusChar '-', .eol]⟩

/-- The states of the parser (`m_expectedState`). -/
inductive ExpectedState where
  | NONE
  | LINE_SEPARATOR
  | LINE_DESCRIPTION
  deriving DecidableEq, Repr

/-- The parser object, with the tasks it has scheduled so far. -/
structure Parser where
  m_expectedState : ExpectedState
  m_lastTask : Task
  m_lines : Nat
  scheduled : List TaskInfo
  deriving DecidableEq, Repr

/-- A freshly constructed parser. -/
def fresh : Parser :=
  ⟨.NONE, Task.null, 0, []⟩

/-- `scheduleTask(task, outputLines, skippedLines)`. -/
def scheduleTask (p : Parser) (task : Task) (outputLines skippedLines : Nat) : Parser :=
  { p with scheduled := p.scheduled ++ [⟨task, outputLines, skippedLines⟩] }

/-- `CMakeAutogenParser::flush`. -/
def flush (p : Parser) : Parser :=
  if p.m_lastTask.isNull then p
  else
    let t := p.m_lastTask
    let p1 := { p with m_lastTask := p.m_lastTask.clear }
    let t1 :=
      if t.summary.isEmpty && t.hasDetails then
        { t with summary := t.details.headD [], details := t.details.tail }
      else t
    let p2 := { p1 with m_lines := p1.m_lines + t1.details.length }
    let p3 := scheduleTask p2 t1 p2.m_lines 1
    { p3 with m_lines := 0 }

/-- `CMakeAutogenParser::handleLine`; the stream tag is not looked at. -/
def handleLine (p : Parser) (line : QString) (_type : OutputFormat) : Result × Parser :=
  let trimmedLine := rightTrimmed line
  match p.m_expectedState with
  | .NONE =>
      if COMMON_ERROR_PATTERN.hasMatch trimmedLine then
        (⟨.InProgress, []⟩,
          { p with m_lastTask := CMakeTask .Error (capturedAll trimmedLine),
                   m_lines := 1, m_expectedState := .LINE_SEPARATOR })
      else if COMMON_WARNING_PATTERN.hasMatch trimmedLine then
        (⟨.InProgress, []⟩,
          { p with m_lastTask := CMakeTask .Warning (capturedAll trimmedLine),
                   m_lines := 1, m_expectedState := .LINE_SEPARATOR })
      else (⟨.NotHandled, []⟩, p)
  | .LINE_SEPARATOR =>
      let p1 := { p with m_expectedState := .LINE_DESCRIPTION }
      if !COMMON_SEPARATOR_PATTERN.hasMatch trimmedLine then
        (⟨.InProgress, []⟩, { p1 with m_lastTask := p1.m_lastTask.addToDetails trimmedLine })
      else (⟨.InProgress, []⟩, p1)
  | .LINE_DESCRIPTION =>
      if trimmedLine.isEmpty && !p.m_lastTask.isNull then
        (⟨.Done, []⟩, flush { p with m_expectedState := .NONE })
      else
        (⟨.InProgress, []⟩, { p with m_lastTask := p.m_lastTask.addToDetails trimmedLine })

/-- Feeds the lines one after the other and collects the status of each. -/
def feed (p : Parser) : List QString → List Status × Parser
  | [] => ([], p)
  | l :: ls =>
      let r := handleLine p l .StdErrFormat
      let rest := feed r.2 ls
      (r.1.status :: rest.1, rest.2)

end CMakeAutogenParser

/-! ## CMake configuration items (`CMakeConfigItem`, `CMakeConfig`) -/

/-- Modelled from the spec: the type of a cache entry (`CMakeConfigItem::Type`,
cmakeconfigitem.h is not among the sources). -/
inductive ConfigType where
  | FILEPATH
  | PATH
  | BOOL
  | STRING
  | INTERNAL
  | STATIC
  | UNINITIALIZED
  deriving DecidableEq, Repr

/-- Modelled from the spec: `CMakeConfigItem`, a typed cache entry with its
state flags (cmakeconfigitem.h is not among the sources). -/
structure CMakeConfigItem where
  key : QString
  type : ConfigType
  isAdvanced : Bool
  inCMakeCache : Bool
  isUnset : Bool
  isInitial : Bool
  value : QString
  documentation : QString
  values : List QString
  deriving DecidableEq, Repr

/-- A list of cache entries (`CMakeConfig`). -/
abbrev CMakeConfig := List CMakeConfigItem

namespace CMakeConfigItem

/-- Modelled from the spec: the default constructed item; its key is empty. -/
def null : CMakeConfigItem :=
  ⟨[], .UNINITIALIZED, false, false, false, false, [], [], []⟩

/-- Modelled from the spec: `CMakeConfigItem(key, type, value)`. -/
def create (key : QString) (type : ConfigType) (value : QString) : CMakeConfigItem :=
  { null with key := key, type := type, value := value }

/-- Modelled from the spec: an item is null when it has no key. -/
def isNull (i : CMakeConfigItem) : Bool := i.key.isEmpty

/-- Modelled from the spec: the name of a type in an argument. -/
def typeToTypeString : ConfigType → QString
  | .FILEPATH => "FILEPATH".toList
  | .PATH => "PATH".toList
  | .BOOL => "BOOL".toList
  | .STRING => "STRING".toList
  | .INTERNAL => "INTERNAL".toList
  | .STATIC => "STATIC".toList
  | .UNINITIALIZED => "UNINITIALIZED".toList

/-- Modelled from the spec: the type a type name stands for; an unknown name
is `UNINITIALIZED`. -/
def typeStringToType (t : QString) : ConfigType :=
  if t = "BOOL".toList then .BOOL
  else if t = "STRING".toList then .STRING
  else if t = "FILEPATH".toList then .FILEPATH
  else if t = "PATH".toList then .PATH
  else if t = "STATIC".toList then .STATIC
  else if t = "INTERNAL".toList then .INTERNAL
  else .UNINITIALIZED

/-- Modelled from the spec: `toArgument(item, expander?)`: `-U<k>` when unset,
else `-D<k>:<t>=<v>` with the value expanded when an expander is given. -/
def toArgumentWith (expander : Option (QString → QString)) (i : CMakeConfigItem) : QString :=
  if i.isUnset then "-U".toList ++ i.key
  else
    "-D".toList ++ i.key ++ [':'] ++ typeToTypeString i.type ++ ['=']
      ++ (match expander with
          | some f => f i.value
          | none => i.value)

/-- Modelled from the spec: `toArgument()` without expander, the raw value. -/
def toArgument (i : CMakeConfigItem) : QString :=
  toArgumentWith none i

/-- Modelled from the spec: `CMakeConfigItem::fromString`, the item written as
`KEY[:TYPE]=VALUE`: the value is what follows the first `=`, a missing type is
`UNINITIALIZED`, and a text without `=` or with an empty key gives the null
item. -/
def fromString (s : QString) : CMakeConfigItem :=
  if s.contains '=' then
    let left := s.takeWhile (· ≠ '=')
    let value := (s.dropWhile (· ≠ '=')).drop 1
    let key := left.takeWhile (· ≠ ':')
    let type := (left.dropWhile (· ≠ ':')).drop 1
    if key.isEmpty then null
    else create key (if type.isEmpty then .UNINITIALIZED else typeStringToType type) value
  else null

end CMakeConfigItem

/-- Modelled from the spec: `CMakeConfig::valueOf(key)`, the value of the
first item with that key, empty when there is none. -/
def CMakeConfig.valueOf (config : CMakeConfig) (key : QString) : QString :=
  match config.find? (fun i => i.key == key) with
  | some i => i.value
  | none => []

/-- Modelled from the spec: `CMakeConfig::stringValueOf(key)`, the value as text. -/
def CMakeConfig.stringValueOf (config : CMakeConfig) (key : QString) : QString :=
  config.valueOf key

/-! ## `CMakeBuildConfiguration` (cmakebuildconfiguration.cpp) -/

/-- `QT_QML_DEBUG_PARAM`. -/
def QT_QML_DEBUG_PARAM : QString := "-DQT_QML_DEBUG".toList

/-- `CMAKE_TOOLCHAIN_FILE`. -/
def CMAKE_TOOLCHAIN_FILE : QString := "CMAKE_TOOLCHAIN_FILE".toList

/-- `CMAKE_C_FLAGS_INIT`. -/
def CMAKE_C_FLAGS_INIT : QString := "CMAKE_C_FLAGS_INIT".toList

/-- `CMAKE_CXX_FLAGS_INIT`. -/
def CMAKE_CXX_FLAGS_INIT : QString := "CMAKE_CXX_FLAGS_INIT".toList

/-- `CMAKE_CXX_FLAGS`. -/
def CMAKE_CXX_FLAGS : QString := "CMAKE_CXX_FLAGS".toList

/-- `CMakeBuildConfiguration::hasQmlDebugging`. -/
def hasQmlDebugging (config : CMakeConfig) : Bool :=
  let cxxFlagsInit := config.stringValueOf CMAKE_CXX_FLAGS_INIT
  let cxxFlags := config.stringValueOf CMAKE_CXX_FLAGS
  contains QT_QML_DEBUG_PARAM cxxFlagsInit && contains QT_QML_DEBUG_PARAM cxxFlags

/-! ### Presets and the kit (`PresetsDetails`, `Kit`) -/

namespace PresetsDetails

/-- Modelled from the spec: the `warnings` flag cluster of a preset. -/
structure Warnings where
  dev : Option Bool
  deprecated : Option Bool
  uninitialized : Option Bool
  unusedCli : Option Bool
  systemVars : Option Bool
  deriving DecidableEq, Repr

/-- Modelled from the spec: the `errors` flag cluster of a preset. -/
structure Errors where
  dev : Option Bool
  deprecated : Option Bool
  deriving DecidableEq, Repr

/-- Modelled from the spec: the `debug` flag cluster of a preset. -/
structure Debug where
  output : Option Bool
  tryCompile : Option Bool
  find : Option Bool
  deriving DecidableEq, Repr

/-- Modelled from the spec: a configure preset (presetsparser.h is not among
the sources), with the fields the merge reads. -/
structure ConfigurePreset where
  name : QString
  toolchainFile : Option QString
  installDir : Option QString
  cacheVariables : Option CMakeConfig
  warnings : Option Warnings
  errors : Option Errors
  debug : Option Debug
  deriving DecidableEq, Repr

/-- The default constructed preset, which `findOrDefault` gives when no preset
has the name looked for. -/
def ConfigurePreset.default : ConfigurePreset :=
  ⟨[], none, none, none, none, none, none⟩

end PresetsDetails

open PresetsDetails in
/-- What the merge reads of the project: its configure presets and its
directory. -/
structure CMakeProject where
  configurePresets : List ConfigurePreset
  projectDirectory : QString

/-- What the merge reads of the kit: the preset marker item
(`CMakeConfigurationKitAspect::cmakePresetConfigItem`, null when the kit was
not made from a preset) and the macro expander of the kit. -/
structure Kit where
  cmakePresetConfigItem : CMakeConfigItem
  macroExpand : QString → QString

/-- `CMakeConfigItem::expandedValue(kit)`: the value with the macros of the kit
expanded. -/
def CMakeConfigItem.expandedValue (i : CMakeConfigItem) (k : Kit) : QString :=
  k.macroExpand i.value

/-- An environment: variables and their values. -/
abbrev Environment := List (QString × QString)

open PresetsDetails in
/-- The collaborators of the merge that are not among the sources and are a
parameter of it: the preset macros (`CMakePresets::Macros::expand`,
`updateToolchainFile`, `updateInstallDir`) and the two ways of making a file
path from text (`FilePath::fromString`, `FilePath::fromUserInput`); two file
paths are equal when these give the same text. -/
structure PresetHost where
  expand : ConfigurePreset → Environment → QString → QString → QString
  updateToolchainFile : ConfigurePreset → Environment → QString → QString → ConfigurePreset
  updateInstallDir : ConfigurePreset → Environment → QString → ConfigurePreset
  fromString : QString → QString
  fromUserInput : QString → QString

/-- The keys of `defaultKitMacroValues`. -/
def defaultKitMacroValues : List QString :=
  ["CMAKE_C_COMPILER".toList, "CMAKE_CXX_COMPILER".toList, "QT_QMAKE_EXECUTABLE".toList,
   "QT_HOST_PATH".toList, "CMAKE_PROJECT_INCLUDE_BEFORE".toList]

open PresetsDetails in
/-- The arguments appended for the `warnings`, `errors` and `debug` clusters of
the preset, in the order of `addCMakeConfigurePresetToInitialArguments`. -/
def presetFlagArguments (configurePreset : ConfigurePreset) : List QString :=
  (match configurePreset.warnings with
   | some w =>
       (match w.dev with
        | some value => [if value then "-Wdev".toList else "-Wno-dev".toList]
        | none => [])
       ++ (match w.deprecated with
        | some value => [if value then "-Wdeprecated".toList else "-Wno-deprecated".toList]
        | none => [])
       ++ (if w.uninitialized = some true then ["--warn-uninitialized".toList] else [])
       ++ (if w.unusedCli = some false then [" --no-warn-unused-cli".toList] else [])
       ++ (if w.systemVars = some true then ["--check-system-vars".toList] else [])
   | none => [])
  ++ (match configurePreset.errors with
   | some e =>
       (match e.dev with
        | some value => [if value then "-Werror=dev".toList else "-Wno-error=dev".toList]
        | none => [])
       ++ (match e.deprecated with
        | some value =>
            [if value then "-Werror=deprecated".toList else "-Wno-error=deprecated".toList]
        | none => [])
   | none => [])
  ++ (match configurePreset.debug with
   | some d =>
       (if d.find = some true then ["--debug-find".toList] else [])
       ++ (if d.tryCompile = some true then ["--debug-trycompile".toList] else [])
       ++ (if d.output = some true then ["--debug-output".toList] else [])
   | none => [])

/-- One round of the loop over the cache variables of the preset in
`addCMakeConfigurePresetToInitialArguments`: `presetItem` is the variable with
its value already expanded by the preset macros. -/
def mergePresetCacheVariable (host : PresetHost) (k : Kit) (initialArguments : List QString)
    (presetItem : CMakeConfigItem) : List QString :=
  let presetItemArg := presetItem.toArgument
  let presetItemArgNoType := presetItemArg.takeWhile (· ≠ ':')
  match initialArguments.findIdx? (fun arg => presetItemArgNoType.isPrefixOf arg) with
  | some it =>
      let arg := initialArguments.getD it []
      let argItem := CMakeConfigItem.fromString (arg.drop 2)
      if defaultKitMacroValues.contains argItem.key && "%\x7b".toList.isPrefixOf argItem.value then
        initialArguments
      else if argItem.key = "CMAKE_PREFIX_PATH".toList
          ∨ argItem.key = "CMAKE_FIND_ROOT_PATH".toList then
        let presetValueList := split ';' (presetItem.expandedValue k)
        let argItemExpandedValue := argItem.expandedValue k
        let presetValueList := presetValueList.filter fun presetPath =>
          !(split ';' argItemExpandedValue).any fun argPath =>
            host.fromString argPath == host.fromUserInput presetPath
        let argItem := { argItem with
          value := presetValueList.foldl (fun v presetPath => v ++ [';'] ++ presetPath)
            argItem.value }
        initialArguments.set it argItem.toArgument
      else if argItem.key = CMAKE_TOOLCHAIN_FILE then
        let argFilePath := host.fromString (argItem.expandedValue k)
        let presetFilePath := host.fromUserInput presetItem.value
        if argFilePath ≠ presetFilePath then initialArguments.set it presetItem.toArgument
        else initialArguments
      else if argItem.key = CMAKE_C_FLAGS_INIT ∨ argItem.key = CMAKE_CXX_FLAGS_INIT then
        if argItem.expandedValue k ≠ presetItem.value then
          let argItem := { argItem with value := argItem.value ++ [' '] ++ presetItem.value }
          initialArguments.set it argItem.toArgument
        else initialArguments
      else if argItem.expandedValue k ≠ presetItem.value then
        initialArguments.set it presetItem.toArgument
      else initialArguments
  | none => initialArguments ++ [presetItem.toArgument]

open PresetsDetails in
/-- `addCMakeConfigurePresetToInitialArguments`: the argument list after the
merge of the configure preset named by the marker of the kit. -/
def addCMakeConfigurePresetToInitialArguments (host : PresetHost)
    (initialArguments : List QString) (project : CMakeProject) (k : Kit) (env : Environment)
    (buildDirectory : QString) : List QString :=
  let presetItem := k.cmakePresetConfigItem
  if presetItem.isNull then initialArguments
  else
    let presetArgument := presetItem.toArgument
    let presetName := presetItem.expandedValue k
    let initialArguments := initialArguments.filter fun item => !(item == presetArgument)
    let configurePreset :=
      (project.configurePresets.find? fun preset => preset.name == presetName).getD
        ConfigurePreset.default
    let initialArguments := initialArguments ++ presetFlagArguments configurePreset
    let configurePreset :=
      host.updateToolchainFile configurePreset env project.projectDirectory buildDirectory
    let configurePreset := host.updateInstallDir configurePreset env project.projectDirectory
    let cache : CMakeConfig := configurePreset.cacheVariables.getD []
    cache.foldl
      (fun args presetItemRaw =>
        let presetItem := { presetItemRaw with
          value := host.expand configurePreset env project.projectDirectory presetItemRaw.value }
        mergePresetCacheVariable host k args presetItem)
      initialArguments

/-- A host that expands nothing, leaves presets as they are and takes a path
as its text. -/
def plainPresetHost : PresetHost where
  expand := fun _ _ _ value => value
  updateToolchainFile := fun preset _ _ _ => preset
  updateInstallDir := fun preset _ _ => preset
  fromString := fun path => path
  fromUserInput := fun path => path

/-- A kit made from the preset `name`: it carries the marker item
`QTC_CMAKE_PRESET` and expands no macro. -/
def presetKit (name : QString) : Kit where
  cmakePresetConfigItem := CMakeConfigItem.create "QTC_CMAKE_PRESET".toList .STRING name
  macroExpand := fun value => value

/-- A kit that was not made from a preset. -/
def plainKit : Kit where
  cmakePresetConfigItem := CMakeConfigItem.null
  macroExpand := fun value => value

open PresetsDetails in
/-- The configure preset the marker of the kit names, as
`addCMakeConfigurePresetToInitialArguments` looks it up. -/
def namedConfigurePreset (project : CMakeProject) (k : Kit) : ConfigurePreset :=
  (project.configurePresets.find? fun preset =>
      preset.name == k.cmakePresetConfigItem.expandedValue k).getD ConfigurePreset.default

/-- The cache variables that `addCMakeConfigurePresetToInitialArguments`
merges: those of the named preset after `updateToolchainFile` and
`updateInstallDir`. -/
def mergedCacheVariables (host : PresetHost) (project : CMakeProject) (k : Kit)
    (env : Environment) (buildDirectory : QString) : CMakeConfig :=
  (host.updateInstallDir
    (host.updateToolchainFile (namedConfigurePreset project k) env project.projectDirectory
      buildDirectory) env project.projectDirectory).cacheVariables.getD []

/-- The argument that one round of the cache variable loop of
`addCMakeConfigurePresetToInitialArguments` leaves in the place of the
argument `arg` it has found. -/
def mergedArgument (host : PresetHost) (k : Kit) (presetItem : CMakeConfigItem)
    (arg : QString) : QString :=
  let argItem := CMakeConfigItem.fromString (arg.drop 2)
  if defaultKitMacroValues.contains argItem.key && "%\x7b".toList.isPrefixOf argItem.value then
    arg
  else if argItem.key = "CMAKE_PREFIX_PATH".toList
      ∨ argItem.key = "CMAKE_FIND_ROOT_PATH".toList then
    let presetValueList := split ';' (presetItem.expandedValue k)
    let argItemExpandedValue := argItem.expandedValue k
    let presetValueList := presetValueList.filter fun presetPath =>
      !(split ';' argItemExpandedValue).any fun argPath =>
        host.fromString argPath == host.fromUserInput presetPath
    let argItem := { argItem with
      value := presetValueList.foldl (fun v presetPath => v ++ [';'] ++ presetPath)
        argItem.value }
    argItem.toArgument
  else if argItem.key = CMAKE_TOOLCHAIN_FILE then
    let argFilePath := host.fromString (argItem.expandedValue k)
    let presetFilePath := host.fromUserInput presetItem.value
    if argFilePath ≠ presetFilePath then presetItem.toArgument else arg
  else if argItem.key = CMAKE_C_FLAGS_INIT ∨ argItem.key = CMAKE_CXX_FLAGS_INIT then
    if argItem.expandedValue k ≠ presetItem.value then
      let argItem := { argItem with value := argItem.value ++ [' '] ++ presetItem.value }
      argItem.toArgument
    else arg
  else if argItem.expandedValue k ≠ presetItem.value then presetItem.toArgument
  else arg

/-- The keys whose branch of the cache variable loop appends to the value of
the argument it has found instead of replacing the argument. -/
def accumulatingKeys : List QString :=
  ["CMAKE_PREFIX_PATH".toList, "CMAKE_FIND_ROOT_PATH".toList, CMAKE_C_FLAGS_INIT,
    CMAKE_CXX_FLAGS_INIT]

/-- A cache variable whose argument reads back as the variable: it is no unset
item, and its key is not empty and has no `:` and no `=`. -/
def CMakeConfigItem.isPlainVariable (c : CMakeConfigItem) : Bool :=
  !c.isUnset && !c.key.isEmpty && c.key.all fun x => x != ':' && x != '='

/-- Two keys neither of which starts with the other. -/
def keysApart (a b : QString) : Bool :=
  !a.isPrefixOf b && !b.isPrefixOf a

/-- A host like `plainPresetHost` whose `FilePath::fromUserInput` cleans the
path it is given, here by taking a slash at the end off, while
`FilePath::fromString` takes the text as it is. -/
def cleaningPresetHost : PresetHost where
  expand := fun _ _ _ value => value
  updateToolchainFile := fun preset _ _ _ => preset
  updateInstallDir := fun preset _ _ => preset
  fromString := fun path => path
  fromUserInput := fun path =>
    if path.getLast? = some '/' ∧ 1 < path.length then path.dropLast else path

/-! ### The default initial command (`defaultInitialCMakeCommand`) -/

/-- What `defaultInitialCMakeCommand` reads of the kit through the kit aspects
(none of them among the sources): whether the kit has a CMake tool, the
generator arguments, whether the generator is multi-config, whether the device
is an iOS one, the sysroot, the target triple of the C++ toolchain when the
kit has one, the configuration of the kit and its additional arguments. -/
structure CommandKit where
  hasCMakeTool : Bool
  generatorArguments : List QString
  isMultiConfigGenerator : Bool
  isIos : Bool
  sysRoot : QString
  cxxToolchainTargetTriple : Option QString
  configuration : CMakeConfig
  additionalConfiguration : List QString

/-- What `defaultInitialCMakeCommand` reads of the settings: the package
manager auto setup of the project and the `Updater/MaintenanceTool` entry of
the global settings, when it is there. -/
structure CommandSettings where
  packageManagerAutoSetup : Bool
  maintenanceTool : Option QString

/-- `getPackageManagerAutoSetupParameter`, with `.qtc/package-manager` for
`Constants::PACKAGE_MANAGER_DIR`. -/
def getPackageManagerAutoSetupParameter : CMakeConfigItem :=
  CMakeConfigItem.create "CMAKE_PROJECT_INCLUDE_BEFORE".toList .FILEPATH
    "%\x7bBuildConfig:BuildDirectory:NativeFilePath\x7d/.qtc/package-manager/auto-setup.cmake".toList

/-- Modelled from the spec: `CMakeConfigurationKitAspect::toArgumentsList`,
the configuration of the kit serialized as arguments. -/
def toArgumentsList (k : CommandKit) : List QString :=
  k.configuration.map CMakeConfigItem.toArgument

/-- `defaultInitialCMakeCommand`: the arguments of the command, in order; a
kit without CMake tool gives the empty command. -/
def defaultInitialCMakeCommand (k : CommandKit) (settings : CommandSettings)
    (buildType : QString) : List QString :=
  if !k.hasCMakeTool then []
  else
    let cmd := k.generatorArguments
    let cmd :=
      if !buildType.isEmpty && !k.isMultiConfigGenerator then
        cmd ++ ["-DCMAKE_BUILD_TYPE:STRING=".toList ++ buildType]
      else cmd
    let cmd :=
      if settings.packageManagerAutoSetup then
        cmd ++ [getPackageManagerAutoSetupParameter.toArgument]
      else cmd
    let cmd :=
      if !k.isIos then
        if !k.sysRoot.isEmpty then
          let cmd := cmd ++ ["-DCMAKE_SYSROOT:PATH=".toList ++ k.sysRoot]
          match k.cxxToolchainTargetTriple with
          | some targetTriple =>
              cmd ++ ["-DCMAKE_C_COMPILER_TARGET:STRING=".toList ++ targetTriple,
                      "-DCMAKE_CXX_COMPILER_TARGET:STRING=".toList ++ targetTriple]
          | none => cmd
        else cmd
      else cmd
    let cmd := cmd ++ ["-DCMAKE_COLOR_DIAGNOSTICS:BOOL=ON".toList]
    let cmd :=
      match settings.maintenanceTool with
      | some tool => cmd ++ ["-DQT_MAINTENANCE_TOOL:FILEPATH=".toList ++ tool]
      | none => cmd
    let cmd := cmd ++ toArgumentsList k
    cmd ++ k.additionalConfiguration

/-- The command of the spec, in its words: generator arguments, the optional
build type, the package manager auto setup when enabled, the sysroot group when
the sysroot is not empty and the kit is not iOS, the colour diagnostics, the
kit configuration and the additional arguments of the kit, and nothing else. -/
def specInitialCommand (k : CommandKit) (settings : CommandSettings) (buildType : QString)
    (targetTriple : QString) : List QString :=
  k.generatorArguments
    ++ (if buildType ≠ [] ∧ k.isMultiConfigGenerator = false then
          ["-DCMAKE_BUILD_TYPE:STRING=".toList ++ buildType] else [])
    ++ (if settings.packageManagerAutoSetup then
          [getPackageManagerAutoSetupParameter.toArgument] else [])
    ++ (if k.sysRoot ≠ [] ∧ k.isIos = false then
          ["-DCMAKE_SYSROOT:PATH=".toList ++ k.sysRoot,
           "-DCMAKE_C_COMPILER_TARGET:STRING=".toList ++ targetTriple,
           "-DCMAKE_CXX_COMPILER_TARGET:STRING=".toList ++ targetTriple] else [])
    ++ ["-DCMAKE_COLOR_DIAGNOSTICS:BOOL=ON".toList]
    ++ toArgumentsList k
    ++ k.additionalConfiguration

/-- The argument a preset flag stands for in the words of the spec: one
argument when the flag is set, `whenTrue` for true and `whenFalse` for false,
and none when the flag is absent. -/
def flagArgument (flag : Option Bool) (whenTrue whenFalse : QString) : List QString :=
  match flag with
  | some true => [whenTrue]
  | some false => [whenFalse]
  | none => []

/-- The argument of a preset flag that only counts when it has the value
`wanted`. -/
def flagArgumentWhen (flag : Option Bool) (wanted : Bool) (arg : QString) : List QString :=
  if flag = some wanted then [arg] else []

/-! ### Errors of the build system (`CMakeBuildSystem::setError`, `clearError`) -/

/-- What the build system lets its surroundings know. -/
inductive Signal where
  | enabledChanged
  | taskAdded (type : TaskType) (message : QString)
  | errorOccurred (message : QString)
  deriving DecidableEq, Repr

/-- `ForceEnabledChanged`. -/
inductive ForceEnabledChanged where
  | False
  | True
  deriving DecidableEq, Repr

/-- The part of `CMakeBuildSystem` the error handling works on: the stored
error and the signals emitted so far. -/
structure CMakeBuildSystem where
  m_error : QString
  emitted : List Signal
  m_configurationChanges : CMakeConfig
  deriving DecidableEq, Repr

namespace CMakeBuildSystem

/-- `CMakeBuildSystem::clearError`. -/
def clearError (bs : CMakeBuildSystem) (fec : ForceEnabledChanged) : CMakeBuildSystem :=
  let r : CMakeBuildSystem × ForceEnabledChanged :=
    if !bs.m_error.isEmpty then ({ bs with m_error := [] }, .True) else (bs, fec)
  if r.2 = .True then { r.1 with emitted := r.1.emitted ++ [.enabledChanged] } else r.1

/-- `CMakeBuildSystem::setError`; an empty message fails the assertion and
nothing is done. -/
def setError (bs : CMakeBuildSystem) (message : QString) : CMakeBuildSystem :=
  if message.isEmpty then bs
  else
    let oldMessage := bs.m_error
    let bs1 : CMakeBuildSystem :=
      if bs.m_error ≠ message then { bs with m_error := message } else bs
    let bs2 : CMakeBuildSystem :=
      if oldMessage.isEmpty != !message.isEmpty then
        { bs1 with emitted := bs1.emitted ++ [Signal.enabledChanged] }
      else bs1
    let bs3 : CMakeBuildSystem :=
      { bs2 with emitted := bs2.emitted ++ [Signal.taskAdded TaskType.Error message] }
    { bs3 with emitted := bs3.emitted ++ [Signal.errorOccurred bs3.m_error] }

/-- `CMakeBuildSystem::configurationChangesArguments`. -/
def configurationChangesArguments (bs : CMakeBuildSystem) (initialParameters : Bool) :
    List QString :=
  let filteredInitials := bs.m_configurationChanges.filter fun ci =>
    if initialParameters then ci.isInitial else !ci.isInitial
  filteredInitials.map CMakeConfigItem.toArgument

end CMakeBuildSystem

/-! ### QML debugging flags (`CMakeBuildSettingsWidget::getQmlDebugCxxFlags`) -/

/-- `Utils::TriState`. -/
inductive TriState where
  | Enabled
  | Disabled
  | Default
  deriving DecidableEq, Repr

/-- White space of `QByteArray::trimmed`: the ASCII space and TAB..CR. -/
def isAsciiSpace (c : Char) : Bool :=
  c == ' ' || (0x09 ≤ c.toNat && c.toNat ≤ 0x0d)

/-- `QByteArray::trimmed`: without white space at both ends. -/
def trimmed (s : QString) : QString :=
  ((s.dropWhile isAsciiSpace).reverse.dropWhile isAsciiSpace).reverse

/-- `QByteArray::indexOf(needle)`: the first position where `needle` starts. -/
def indexOf (needle : QString) : QString → Option Nat
  | [] => if needle.isEmpty then some 0 else none
  | c :: s =>
      if needle.isPrefixOf (c :: s) then some 0
      else (indexOf needle s).map (· + 1)

/-- `QByteArray::remove(index, len)`. -/
def removeAt (s : QString) (index len : Nat) : QString :=
  s.take index ++ s.drop (index + len)

/-- `CMAKE_CXX_FLAGS_DEBUG`. -/
def CMAKE_CXX_FLAGS_DEBUG : QString := "CMAKE_CXX_FLAGS_DEBUG".toList

/-- `CMAKE_CXX_FLAGS_RELWITHDEBINFO`. -/
def CMAKE_CXX_FLAGS_RELWITHDEBINFO : QString := "CMAKE_CXX_FLAGS_RELWITHDEBINFO".toList

/-- `CMakeBuildSettingsWidget::getQmlDebugCxxFlags`, as a function of the QML
debugging setting, the configuration from CMake and whether the cache file of
the build directory exists. -/
def getQmlDebugCxxFlags (qmlDebuggingState : TriState) (configList : CMakeConfig)
    (cmakeCacheExists : Bool) : CMakeConfig :=
  if qmlDebuggingState = .Default then []
  else
    let enable := qmlDebuggingState = .Enabled
    let cxxFlagsPrev := [CMAKE_CXX_FLAGS, CMAKE_CXX_FLAGS_DEBUG, CMAKE_CXX_FLAGS_RELWITHDEBINFO,
      CMAKE_CXX_FLAGS_INIT]
    let cxxFlags := [CMAKE_CXX_FLAGS_INIT, CMAKE_CXX_FLAGS]
    let qmlDebug := QT_QML_DEBUG_PARAM
    if enable then
      if cmakeCacheExists then
        configList.filterMap fun item =>
          if !cxxFlags.contains item.key then none
          else if !contains qmlDebug item.value then
            some { item with value := trimmed (item.value ++ [' '] ++ qmlDebug) }
          else none
      else []
    else
      configList.filterMap fun item =>
        if !cxxFlagsPrev.contains item.key then none
        else
          match indexOf qmlDebug item.value with
          | some index =>
              some { item with value := trimmed (removeAt item.value index qmlDebug.length) }
          | none => none

/-- An argument that a cache variable of a preset can never be taken for: it
does not start with `-D` or `-U`. -/
def isFlagLike (a : QString) : Bool :=
  !("-D".toList.isPrefixOf a) && !("-U".toList.isPrefixOf a)

/-! ### Initial arguments (`InitialCMakeArgumentsAspect`, `CMakeConfig::fromArguments`) -/

/-- Modelled from the spec: the canonical form of a BOOL value (I3): one of
1, ON, YES, TRUE, Y, in any letter case, is `ON`, anything else `OFF`. -/
def canonicalBool (value : QString) : QString :=
  if ["1".toList, "ON".toList, "YES".toList, "TRUE".toList, "Y".toList].contains
      (value.map Char.toUpper) then "ON".toList else "OFF".toList

/-- Modelled from the spec: what `parseArguments` makes of one argument
(cmakeconfigitem.cpp is not among the sources): `-D<key>[:<type>]=<value>` is an
item, its value canonical when the type is BOOL; `-U<key>` is an unset item of
type STATIC; an empty key is rejected; anything else is no item. -/
def parseArgument (arg : QString) : Option CMakeConfigItem :=
  if "-D".toList.isPrefixOf arg then
    let item := CMakeConfigItem.fromString (arg.drop 2)
    if item.isNull then none
    else if item.type = .BOOL then some { item with value := canonicalBool item.value }
    else some item
  else if "-U".toList.isPrefixOf arg then
    let key := arg.drop 2
    if key.isEmpty then none
    else some { CMakeConfigItem.null with key := key, type := .STATIC, isUnset := true }
  else none

/-- Modelled from the spec: `CMakeConfig::fromArguments(list, unknownOptions)`:
the items of the recognized arguments, in order, and the other arguments,
verbatim and in order. -/
def CMakeConfig.fromArguments (list : List QString) : CMakeConfig × List QString :=
  (list.filterMap parseArgument, list.filter fun arg => (parseArgument arg).isNone)

/-- The services of the libraries that the handling of the initial arguments
uses and that are a parameter here: `ProcessArgs::splitArgs` and
`ProcessArgs::joinArgs` for the host system, and the order in which
`QHash::values()` lists what the hash table holds (given here the items in
the order in which their keys were first inserted). -/
structure ArgsHost where
  splitArgs : QString → List QString
  joinArgs : List QString → QString
  hashValues : List CMakeConfigItem → List CMakeConfigItem

/-- A host whose arguments are separated by single blanks and whose hash
table lists its items in the order of insertion. -/
def plainArgsHost : ArgsHost where
  splitArgs := fun s => (split ' ' s).filter fun a => !a.isEmpty
  joinArgs := fun l => l.foldl (fun s a => if s.isEmpty then a else s ++ [' '] ++ a) []
  hashValues := fun l => l

/-- A host like `plainArgsHost` whose hash table lists its items in the
opposite order. -/
def reversingArgsHost : ArgsHost where
  splitArgs := plainArgsHost.splitArgs
  joinArgs := plainArgsHost.joinArgs
  hashValues := fun l => l.reverse

/-- The rest of `QString::replace(before, after)` once `skip` characters of a
found `before` are still to be passed over. -/
def replaceFrom (before after : QString) : Nat → QString → QString
  | _, [] => []
  | skip + 1, _ :: t => replaceFrom before after skip t
  | 0, c :: t =>
      if before.isPrefixOf (c :: t) then after ++ replaceFrom before after (before.length - 1) t
      else c :: replaceFrom before after 0 t

/-- `QString::replace(before, after)`: every occurrence of `before`, from the
left, becomes `after`. -/
def replace (before after : QString) (s : QString) : QString :=
  replaceFrom before after 0 s

/-- The body of the loop of `setAllValues` that rewrites the generator
options of one argument. -/
def rewriteGeneratorArgument (arg : QString) : QString :=
  let arg := if "-G".toList.isPrefixOf arg then
    replace "-G".toList "-DCMAKE_GENERATOR:STRING=".toList arg else arg
  let arg := if "-A".toList.isPrefixOf arg then
    replace "-A".toList "-DCMAKE_GENERATOR_PLATFORM:STRING=".toList arg else arg
  if "-T".toList.isPrefixOf arg then
    replace "-T".toList "-DCMAKE_GENERATOR_TOOLSET:STRING=".toList arg else arg

/-- One round of the loop of `setAllValues` over the parsed items: the hash
table `uniqueConfig`, kept as the list of its items in the order in which
their keys were inserted. -/
def uniqueConfigInsert (uniqueConfig : List CMakeConfigItem) (ci : CMakeConfigItem) :
    List CMakeConfigItem :=
  let ci := { ci with isInitial := true }
  if uniqueConfig.any (fun u => u.key == ci.key) then
    uniqueConfig.map fun u =>
      if u.key == ci.key then
        if u.value ≠ ci.value then { u with value := u.value ++ " ".toList ++ ci.value } else u
      else u
  else uniqueConfig ++ [ci]

/-- `InitialCMakeArgumentsAspect`: the configuration and the value of the
aspect, the additional options as one text. -/
structure InitialCMakeArgumentsAspect where
  m_cmakeConfiguration : CMakeConfig
  value : QString
  deriving DecidableEq, Repr

namespace InitialCMakeArgumentsAspect

/-- `InitialCMakeArgumentsAspect::setAllValues` from the list of arguments on:
what follows `values.split` in the source.  The second component is
`additionalOptions`. -/
def setAllArguments (host : ArgsHost) (arguments : List QString) :
    InitialCMakeArgumentsAspect × List QString :=
  let arguments := arguments.map rewriteGeneratorArgument
  let parsed := CMakeConfig.fromArguments arguments
  let uniqueConfig := parsed.1.foldl uniqueConfigInsert []
  let additionalOptions := parsed.2
  (⟨host.hashValues uniqueConfig, host.joinArgs additionalOptions⟩, additionalOptions)

/-- `InitialCMakeArgumentsAspect::setAllValues`: the values are the arguments,
one a line, empty lines skipped. -/
def setAllValues (host : ArgsHost) (values : QString) :
    InitialCMakeArgumentsAspect × List QString :=
  setAllArguments host ((split '\n' values).filter fun arg => !arg.isEmpty)

/-- `InitialCMakeArgumentsAspect::cmakeConfiguration`. -/
def cmakeConfiguration (a : InitialCMakeArgumentsAspect) : CMakeConfig :=
  a.m_cmakeConfiguration

/-- `InitialCMakeArgumentsAspect::allValues`. -/
def allValues (host : ArgsHost) (a : InitialCMakeArgumentsAspect) : List QString :=
  a.m_cmakeConfiguration.map (CMakeConfigItem.toArgumentWith none) ++ host.splitArgs a.value

/-- `InitialCMakeArgumentsAspect::setCMakeConfiguration`. -/
def setCMakeConfiguration (a : InitialCMakeArgumentsAspect) (config : CMakeConfig) :
    InitialCMakeArgumentsAspect :=
  { a with m_cmakeConfiguration := config.map fun ci => { ci with isInitial := true } }

end InitialCMakeArgumentsAspect

/-- The keys of a list in the order of their first occurrence. -/
def firstOccurrences : List QString → List QString
  | [] => []
  | k :: ks => k :: (firstOccurrences ks).filter fun other => !(other == k)

/-- The part of `CMakeBuildConfiguration` that the additional options are
about: the aspect of the initial arguments and the additional options. -/
structure CMakeBuildConfiguration where
  initialCMakeArguments : InitialCMakeArgumentsAspect
  additionalCMakeOptions : QString
  deriving DecidableEq, Repr

namespace CMakeBuildConfiguration

/-- `CMakeBuildConfiguration::additionalCMakeArguments`. -/
def additionalCMakeArguments (host : ArgsHost) (bc : CMakeBuildConfiguration) : List QString :=
  host.splitArgs bc.additionalCMakeOptions

/-- `CMakeBuildConfiguration::filterConfigArgumentsFromAdditionalCMakeArguments`. -/
def filterConfigArgumentsFromAdditionalCMakeArguments (host : ArgsHost)
    (bc : CMakeBuildConfiguration) : CMakeBuildConfiguration :=
  let arguments := host.splitArgs bc.additionalCMakeOptions
  let unknownOptions := (CMakeConfig.fromArguments arguments).2
  { bc with additionalCMakeOptions := host.joinArgs unknownOptions }

end CMakeBuildConfiguration

/-- `CMakeBuildSettingsWidget::updatePackageManagerAutoSetup`. -/
def updatePackageManagerAutoSetup (usePackageManagerAutoSetup : Bool) (initialList : CMakeConfig) :
    CMakeConfig :=
  let autoSetupParameter := getPackageManagerAutoSetupParameter
  match initialList.findIdx? (fun item => item.key == autoSetupParameter.key) with
  | some it =>
      if !usePackageManagerAutoSetup
          && (initialList.getD it CMakeConfigItem.null).value == autoSetupParameter.value then
        initialList.eraseIdx it
      else initialList
  | none =>
      if usePackageManagerAutoSetup then initialList ++ [autoSetupParameter] else initialList

/-- One round of the loop of `updateInitialCMakeArguments` over the
configuration changes. -/
def applyInitialChange (initialList : CMakeConfig) (ci : CMakeConfigItem) : CMakeConfig :=
  if !ci.isInitial then initialList
  else
    match initialList.findIdx? (fun item => item.key == ci.key) with
    | some it =>
        let replaced := initialList.set it ci
        if ci.isUnset then replaced.eraseIdx it else replaced
    | none => if !ci.key.isEmpty then initialList ++ [ci] else initialList

/-- `CMakeBuildSettingsWidget::updateInitialCMakeArguments`: the list handed to
`setCMakeConfiguration`, as a function of the initial configuration, of
whether the settings ask for QT_QML_GENERATE_QMLLS_INI, of the maintenance
tool of the settings when it is set, of the configuration changes and of the
package manager auto setup of the settings. -/
def updateInitialCMakeArguments (initialList : CMakeConfig)
    (isGenerateQmllsSettingsEnabled : Bool) (maintenanceTool : Option QString)
    (configurationChanges : CMakeConfig) (usePackageManagerAutoSetup : Bool) : CMakeConfig :=
  let initialList :=
    if isGenerateQmllsSettingsEnabled
        && initialList.all (fun item => !(item.key == "QT_QML_GENERATE_QMLLS_INI".toList)) then
      initialList ++ [CMakeConfigItem.create "QT_QML_GENERATE_QMLLS_INI".toList .BOOL "ON".toList]
    else initialList
  let initialList :=
    match maintenanceTool with
    | some tool =>
        if initialList.all (fun item => !(item.key == "QT_MAINTENANCE_TOOL".toList)) then
          initialList ++ [CMakeConfigItem.create "QT_MAINTENANCE_TOOL".toList .FILEPATH tool]
        else initialList
    | none => initialList
  let initialList := configurationChanges.foldl applyInitialChange initialList
  updatePackageManagerAutoSetup usePackageManagerAutoSetup initialList

/-- The configuration with the items of the delta put in the place of the
items that have their keys. -/
def replaceByKey (config delta : CMakeConfig) : CMakeConfig :=
  config.map fun item => (delta.find? fun d => d.key == item.key).getD item

/-! ### Build types (`CMakeBuildConfigurationFactory`) -/

namespace BuildConfiguration

/-- `BuildConfiguration::BuildType`. -/
inductive BuildType where
  | Unknown
  | Debug
  | Profile
  | Release
  deriving DecidableEq, Repr

end BuildConfiguration

/-- The part of `BuildInfo` that `createBuildInfo` fills in; of `extraInfo` the
CMake build type that overrides the type name and the QML debugging setting. -/
structure BuildInfo where
  typeName : QString
  displayName : QString
  buildType : BuildConfiguration.BuildType
  extraCMakeBuildType : Option QString
  extraQmlDebugging : Option TriState
  deriving DecidableEq, Repr

namespace CMakeBuildConfigurationFactory

/-- `CMakeBuildConfigurationFactory::BuildType`. -/
inductive BuildType where
  | BuildTypeNone
  | BuildTypeDebug
  | BuildTypeRelease
  | BuildTypeRelWithDebInfo
  | BuildTypeProfile
  | BuildTypeMinSizeRel
  | BuildTypeLast
  deriving DecidableEq, Repr

/-- `QByteArray::toLower`. -/
def toLower (s : QString) : QString := s.map Char.toLower

/-- `CMakeBuildConfigurationFactory::buildTypeFromByteArray`. -/
def buildTypeFromByteArray (input : QString) : BuildType :=
  let bt := toLower input
  if bt = "debug".toList then .BuildTypeDebug
  else if bt = "release".toList then .BuildTypeRelease
  else if bt = "relwithdebinfo".toList then .BuildTypeRelWithDebInfo
  else if bt = "minsizerel".toList then .BuildTypeMinSizeRel
  else if bt = "profile".toList then .BuildTypeProfile
  else .BuildTypeNone

/-- `CMakeBuildConfigurationFactory::createBuildInfo`. -/
def createBuildInfo : BuildType → BuildInfo
  | .BuildTypeNone => ⟨"Build".toList, "Build".toList, .Unknown, none, none⟩
  | .BuildTypeDebug => ⟨"Debug".toList, "Debug".toList, .Debug, none, some .Enabled⟩
  | .BuildTypeRelease => ⟨"Release".toList, "Release".toList, .Release, none, none⟩
  | .BuildTypeMinSizeRel =>
      ⟨"MinSizeRel".toList, "Minimum Size Release".toList, .Release, none, none⟩
  | .BuildTypeRelWithDebInfo =>
      ⟨"RelWithDebInfo".toList, "Release with Debug Information".toList, .Profile, none, none⟩
  | .BuildTypeProfile =>
      ⟨"Profile".toList, "Profile".toList, .Profile, some "RelWithDebInfo".toList,
        some .Enabled⟩
  | .BuildTypeLast => ⟨[], [], .Unknown, none, none⟩

/-- `CMakeBuildConfigurationFactory::cmakeBuildTypeToBuildType`. -/
def cmakeBuildTypeToBuildType (input : BuildType) : BuildConfiguration.BuildType :=
  (createBuildInfo input).buildType

end CMakeBuildConfigurationFactory

/-! # Properties -/

/-! ## Text helpers -/

theorem rightTrimmed_append_of_not_isSpace (s : QString) (c : Char) (h : isSpace c = false) :
    rightTrimmed (s ++ [c]) = s ++ [c] := by
  simp [rightTrimmed, List.dropWhile_cons, h]

theorem rightTrimmed_append_of_isSpace (s : QString) (c : Char) (h : isSpace c = true) :
    rightTrimmed (s ++ [c]) = rightTrimmed s := by
  simp [rightTrimmed, List.dropWhile_cons, h]

theorem rightTrimmed_getLast (s : QString) (c : Char)
    (h : (rightTrimmed s).getLast? = some c) : isSpace c = false := by
  induction s using List.reverseRecOn with
  | nil => simp [rightTrimmed] at h
  | append_singleton s d ih =>
    cases hd : isSpace d with
    | true => rw [rightTrimmed_append_of_isSpace s d hd] at h; exact ih h
    | false =>
      rw [rightTrimmed_append_of_not_isSpace s d hd] at h
      simp at h
      rw [← h]; exact hd

theorem rightTrimmed_of_getLast (s : QString) (c : Char) (h : s.getLast? = some c)
    (hc : isSpace c = false) : rightTrimmed s = s := by
  induction s using List.reverseRecOn with
  | nil => simp at h
  | append_singleton s d _ =>
    simp at h
    subst h
    exact rightTrimmed_append_of_not_isSpace s d hc

theorem getLast_of_suffix (L s : QString) (c : Char) (hL : L.getLast? = some c)
    (h : L <:+ s) : s.getLast? = some c := by
  obtain ⟨a, rfl⟩ := h
  cases L with
  | nil => simp at hL
  | cons x L => rw [List.getLast?_append_cons]; exact hL

theorem rightTrimmed_of_suffix (L s : QString) (c : Char) (hL : L.getLast? = some c)
    (hc : isSpace c = false) (h : L <:+ s) : rightTrimmed s = s :=
  rightTrimmed_of_getLast s c (getLast_of_suffix L s c hL h) hc

theorem rightTrimmed_idem (s : QString) : rightTrimmed (rightTrimmed s) = rightTrimmed s := by
  cases h : (rightTrimmed s).getLast? with
  | none => rw [List.getLast?_eq_none_iff] at h; rw [h]; rfl
  | some c => exact rightTrimmed_of_getLast _ c h (rightTrimmed_getLast s c h)

theorem stripLeading_eq_some (p s t : QString) : stripLeading p s = some t ↔ s = p ++ t := by
  induction p generalizing s with
  | nil => simp [stripLeading, eq_comm]
  | cons a p ih =>
    cases s with
    | nil => simp [stripLeading]
    | cons b s =>
      by_cases hab : a = b
      · subst hab; simp [stripLeading, ih]
      · simp only [stripLeading, hab, if_false, List.cons_append, List.cons.injEq]
        constructor
        · intro h; cases h
        · intro h; exact absurd h.1.symm hab

theorem stripLeading_append (p t : QString) : stripLeading p (p ++ t) = some t :=
  (stripLeading_eq_some p (p ++ t) t).2 rfl

theorem contains_iff (needle s : QString) : contains needle s = true ↔ needle <:+: s := by
  induction s with
  | nil =>
    simp [contains, List.isEmpty_iff]
  | cons c s ih =>
    simp only [contains, Bool.or_eq_true, ih, Option.isSome_iff_exists, stripLeading_eq_some]
    constructor
    · rintro (⟨t, ht⟩ | h)
      · exact ⟨[], t, by simpa using ht.symm⟩
      · exact List.IsInfix.trans h (List.suffix_cons c s).isInfix
    · rintro ⟨a, b, hab⟩
      cases a with
      | nil => exact Or.inl ⟨b, by simpa using hab.symm⟩
      | cons x a =>
        simp at hab
        exact Or.inr ⟨a, b, by simpa using hab.2⟩

namespace Re

theorem anyTail_iff (k : QString → Bool) (s : QString) :
    anyTail k s = true ↔ ∃ a b, s = a ++ b ∧ (∀ c ∈ a, c ≠ '\n') ∧ k b = true := by
  induction s with
  | nil =>
    simp only [anyTail]
    constructor
    · intro h; exact ⟨[], [], rfl, by simp, h⟩
    · rintro ⟨a, b, hab, _, hk⟩
      have : b = [] := by
        have := congrArg List.length hab
        simp at this
        exact List.length_eq_zero.1 (by omega)
      rw [← this]; exact hk
  | cons c s ih =>
    simp only [anyTail, Bool.or_eq_true, Bool.and_eq_true, ih, bne_iff_ne]
    constructor
    · rintro (h | ⟨hc, a, b, hab, ha, hk⟩)
      · exact ⟨[], c :: s, rfl, by simp, h⟩
      · refine ⟨c :: a, b, by simp [hab], ?_, hk⟩
        intro d hd
        rcases List.mem_cons.1 hd with rfl | hd
        · exact hc
        · exact ha d hd
    · rintro ⟨a, b, hab, ha, hk⟩
      cases a with
      | nil => left; simp at hab; rw [hab]; exact hk
      | cons x a =>
        simp at hab
        right
        refine ⟨?_, a, b, hab.2, fun d hd => ha d (List.mem_cons_of_mem _ hd), hk⟩
        rw [hab.1]; exact ha x (List.mem_cons_self _ _)

theorem manyChar_iff (c : Char) (k : QString → Bool) (s : QString) :
    manyChar c k s = true ↔ ∃ a b, s = a ++ b ∧ (∀ d ∈ a, d = c) ∧ k b = true := by
  induction s with
  | nil =>
    simp only [manyChar]
    constructor
    · intro h; exact ⟨[], [], rfl, by simp, h⟩
    · rintro ⟨a, b, hab, _, hk⟩
      have : b = [] := by
        have := congrArg List.length hab
        simp at this
        exact List.length_eq_zero.1 (by omega)
      rw [← this]; exact hk
  | cons e s ih =>
    simp only [manyChar, Bool.or_eq_true, Bool.and_eq_true, ih, beq_iff_eq]
    constructor
    · rintro (h | ⟨hc, a, b, hab, ha, hk⟩)
      · exact ⟨[], e :: s, rfl, by simp, h⟩
      · refine ⟨e :: a, b, by simp [hab], ?_, hk⟩
        intro d hd
        rcases List.mem_cons.1 hd with rfl | hd
        · exact hc
        · exact ha d hd
    · rintro ⟨a, b, hab, ha, hk⟩
      cases a with
      | nil => left; simp at hab; rw [hab]; exact hk
      | cons x a =>
        simp at hab
        right
        refine ⟨?_, a, b, hab.2, fun d hd => ha d (List.mem_cons_of_mem _ hd), hk⟩
        rw [hab.1]; exact ha x (List.mem_cons_self _ _)

theorem search_iff (items : List Item) (s : QString) :
    search items s = true ↔ ∃ a b, s = a ++ b ∧ matchHere items b = true := by
  induction s with
  | nil =>
    simp only [search]
    constructor
    · intro h; exact ⟨[], [], rfl, h⟩
    · rintro ⟨a, b, hab, hk⟩
      have : b = [] := by
        have := congrArg List.length hab
        simp at this
        exact List.length_eq_zero.1 (by omega)
      rw [← this]; exact hk
  | cons c s ih =>
    simp only [search, Bool.or_eq_true, ih]
    constructor
    · rintro (h | ⟨a, b, hab, hk⟩)
      · exact ⟨[], c :: s, rfl, h⟩
      · exact ⟨c :: a, b, by simp [hab], hk⟩
    · rintro ⟨a, b, hab, hk⟩
      cases a with
      | nil => left; simp at hab; rw [hab]; exact hk
      | cons x a =>
        simp at hab
        exact Or.inr ⟨a, b, hab.2, hk⟩

theorem Ends.append {L b : QString} (a : QString) (h : Ends L b) : Ends L (a ++ b) := by
  rcases h with h | h
  · exact Or.inl (h.trans (List.suffix_append a b))
  · exact Or.inr (h.trans (List.suffix_append a b))

theorem matchHere_lit_eol (L s : QString) :
    matchHere [.lit L, .eol] s = true ↔ s = L ∨ s = L ++ ['\n'] := by
  simp only [matchHere]
  constructor
  · intro h
    split at h
    · rename_i t ht
      rw [stripLeading_eq_some] at ht
      simp at h
      rcases h with h | h
      · left; simp [ht, h]
      · right; simp [ht, h]
    · simp at h
  · rintro (h | h)
    · rw [h]
      have := stripLeading_append L []
      simp only [List.append_nil] at this
      simp [this]
    · rw [h]
      simp [stripLeading_append]

theorem matchHere_ends (pre : List Item) (L s : QString)
    (h : matchHere (pre ++ [.lit L, .eol]) s = true) : Ends L s := by
  induction pre generalizing s with
  | nil =>
    rcases (matchHere_lit_eol L s).1 h with h | h
    · exact Or.inl (h ▸ List.suffix_refl _)
    · exact Or.inr (h ▸ List.suffix_refl _)
  | cons it pre ih =>
    cases it with
    | lit cs =>
      simp only [List.cons_append, matchHere] at h
      split at h
      · rename_i t ht
        rw [stripLeading_eq_some] at ht
        subst ht
        exact (ih t h).append cs
      · simp at h
    | optLit cs =>
      simp only [List.cons_append, matchHere, Bool.or_eq_true] at h
      rcases h with h | h
      · split at h
        · rename_i t ht
          rw [stripLeading_eq_some] at ht
          subst ht
          exact (ih t h).append cs
        · simp at h
      · exact ih s h
    | alt css =>
      simp only [List.cons_append, matchHere, List.any_eq_true] at h
      obtain ⟨cs, _, h⟩ := h
      split at h
      · rename_i t ht
        rw [stripLeading_eq_some] at ht
        subst ht
        exact (ih t h).append cs
      · simp at h
    | dotStar =>
      simp only [List.cons_append, matchHere] at h
      obtain ⟨a, b, rfl, _, hk⟩ := (anyTail_iff _ _).1 h
      exact (ih b hk).append a
    | plusChar c =>
      simp only [List.cons_append, matchHere] at h
      cases s with
      | nil => simp at h
      | cons d t =>
        simp only [Bool.and_eq_true] at h
        obtain ⟨a, b, rfl, _, hk⟩ := (manyChar_iff _ _ _).1 h.2
        have := (ih b hk).append (d :: a)
        simpa using this
    | eol =>
      simp only [List.cons_append, matchHere, Bool.and_eq_true] at h
      exact ih s h.2

theorem search_ends (pre : List Item) (L s : QString)
    (h : search (pre ++ [.lit L, .eol]) s = true) : Ends L s := by
  obtain ⟨a, b, rfl, hb⟩ := (search_iff _ _).1 h
  exact (matchHere_ends pre L b hb).append a

theorem search_lit_eol (L s : QString) : search [.lit L, .eol] s = true ↔ Ends L s := by
  constructor
  · exact search_ends [] L s
  · intro h
    rw [search_iff]
    rcases h with ⟨a, ha⟩ | ⟨a, ha⟩
    · exact ⟨a, L, ha.symm, (matchHere_lit_eol L L).2 (Or.inl rfl)⟩
    · exact ⟨a, L ++ ['\n'], ha.symm, (matchHere_lit_eol L _).2 (Or.inr rfl)⟩

end Re

/-! ## `XcodebuildParser` -/

namespace XcodebuildParser
open XcodebuildStatus

theorem ends_trimmed_iff (L line : QString) :
    Re.Ends L (rightTrimmed line) ↔ L <:+ rightTrimmed line := by
  constructor
  · rintro (h | h)
    · exact h
    · have h1 := getLast_of_suffix (L ++ ['\n']) _ '\n' (by simp) h
      have h2 := rightTrimmed_getLast line '\n' h1
      exact absurd h2 (by decide)
  · exact Or.inl

theorem trimmed_suffix_of_suffix (L line : QString) (c : Char) (hL : L.getLast? = some c)
    (hc : isSpace c = false) (h : L <:+ line) : L <:+ rightTrimmed line := by
  rw [rightTrimmed_of_suffix L line c hL hc h]; exact h

theorem buildRe_trimmed_last (line : QString) (h : buildRe.hasMatch line = true) :
    (rightTrimmed line).getLast? = some '=' := by
  have h1 : Re.Ends " ===".toList line :=
    Re.search_ends
      [.lit "=== BUILD ".toList, .optLit "AGGREGATE ".toList, .lit "TARGET ".toList,
        .dotStar, .lit " OF PROJECT ".toList, .dotStar, .lit " WITH ".toList, .dotStar]
      " ===".toList line h
  rcases h1 with h1 | h1
  · have h2 := getLast_of_suffix _ line '=' (by decide) h1
    rw [rightTrimmed_of_getLast line '=' h2 (by decide)]; exact h2
  · obtain ⟨a, rfl⟩ := h1
    have : a ++ (" ===".toList ++ ['\n']) = (a ++ " ===".toList) ++ ['\n'] := by simp
    rw [this, rightTrimmed_append_of_isSpace _ '\n' (by decide)]
    have h2 : (a ++ " ===".toList).getLast? = some '=' :=
      getLast_of_suffix " ===".toList _ '=' (by decide) (List.suffix_append a _)
    rw [rightTrimmed_of_getLast _ '=' h2 (by decide)]; exact h2

theorem notes_trimmed_last (lne : QString) (h : notesPatterns.contains lne = true) :
    lne.getLast? = some 'e' ∨ lne.getLast? = some 'l' ∨ lne.getLast? = some 'd' := by
  simp only [notesPatterns, List.contains_cons, List.contains_nil, Bool.or_false,
    Bool.or_eq_true, beq_iff_eq] at h
  rcases h with h | h | h <;> subst h <;> decide

end XcodebuildParser

namespace XcodebuildParser
open XcodebuildStatus

theorem successRe_trimmed_iff (line : QString) :
    successRe.hasMatch (rightTrimmed line) = true ↔ successText <:+ rightTrimmed line := by
  simp only [successRe, QRegularExpression.hasMatch, Bool.false_eq_true, if_false]
  rw [Re.search_lit_eol, ends_trimmed_iff]

theorem failureRe_trimmed_iff (line : QString) :
    failureRe.hasMatch (rightTrimmed line) = true ↔ failureText <:+ rightTrimmed line := by
  simp only [failureRe, QRegularExpression.hasMatch, Bool.false_eq_true, if_false]
  rw [Re.search_lit_eol, ends_trimmed_iff]

/-- A line whose right-trimmed text ends with a star is no build-phase header and no note. -/
theorem not_header_of_star (line : QString) (h : (rightTrimmed line).getLast? = some '*') :
    (buildRe.hasMatch line || notesPatterns.contains (rightTrimmed line)) = false := by
  rw [Bool.or_eq_false_iff]
  constructor
  · cases hb : buildRe.hasMatch line with
    | false => rfl
    | true =>
      have := buildRe_trimmed_last line hb
      rw [h] at this
      exact absurd this (by decide)
  · cases hn : notesPatterns.contains (rightTrimmed line) with
    | false => rfl
    | true =>
      have := notes_trimmed_last _ hn
      rw [h] at this
      exact absurd this (by decide)

theorem handleLine_header (host : PathHost) (p : Parser) (line : QString)
    (h : (buildRe.hasMatch line || notesPatterns.contains (rightTrimmed line)) = true) :
    handleLine host p line .StdOutFormat
      = (⟨.Done, []⟩, { p with m_xcodeBuildParserState := InXcodebuild }) := by
  simp only [handleLine, h, if_true]

theorem handleLine_success (host : PathHost) (p : Parser) (line : QString)
    (h : successText <:+ rightTrimmed line) :
    (handleLine host p line .StdOutFormat).2.m_xcodeBuildParserState = OutsideXcodebuild := by
  have hl : (rightTrimmed line).getLast? = some '*' :=
    getLast_of_suffix successText _ '*' (by decide) h
  have hs := (successRe_trimmed_iff line).2 h
  simp only [handleLine, not_header_of_star line hl, if_true, hs]
  cases hst : p.m_xcodeBuildParserState <;> simp [hst]

/-- C1: for every finite sequence of lines fed to `handleLine` from any parser
state, when the last line comes on stdout and ends with `** BUILD SUCCEEDED **`
(as it stands or once right-trimmed), the state after that line is Outside. -/
theorem xcodebuild_success_ends_outside (host : PathHost) (p : Parser)
    (pre : List (QString × OutputFormat)) (line : QString)
    (h : successText <:+ line ∨ successText <:+ rightTrimmed line) :
    (run host p (pre ++ [(line, .StdOutFormat)])).m_xcodeBuildParserState
      = OutsideXcodebuild := by
  have h1 : successText <:+ rightTrimmed line := by
    rcases h with h | h
    · exact trimmed_suffix_of_suffix successText line '*' (by decide) (by decide) h
    · exact h
  simp only [run, List.foldl_append, List.foldl_cons, List.foldl_nil]
  exact handleLine_success host _ line h1

theorem xcodebuild_success_ends_outside_witness :
    (run posixHost ⟨UnknownXcodebuildState, 0, []⟩
        ([("unknown".toList, .StdOutFormat), ("in xcodebuild".toList, .StdErrFormat)]
          ++ [("** BUILD SUCCEEDED **".toList, .StdOutFormat)])).m_xcodeBuildParserState
      = OutsideXcodebuild :=
  xcodebuild_success_ends_outside posixHost ⟨UnknownXcodebuildState, 0, []⟩
    [("unknown".toList, .StdOutFormat), ("in xcodebuild".toList, .StdErrFormat)]
    "** BUILD SUCCEEDED **".toList (Or.inl (by decide))

/-- C2 (as the code has it): on stdout a `** BUILD FAILED **` line is not
looked for: from state Inside it is returned NotHandled, no task is scheduled,
the state stays Inside and the fatal error counter stays 0. -/
theorem xcodebuild_failed_on_stdout_ignored :
    handleLine posixHost ⟨InXcodebuild, 0, []⟩ "** BUILD FAILED **".toList .StdOutFormat
      = (⟨.NotHandled, []⟩, ⟨InXcodebuild, 0, []⟩) := by
  decide

/-- C2 (amended): for every parser state, `handleLine` on a line that does not
come on stdout and ends with `** BUILD FAILED **` schedules exactly one Error
task with summary `Xcodebuild failed.`, leaves the parser in state Unknown,
increases the fatal error counter by exactly one and returns Done. -/
theorem xcodebuild_failed_line (host : PathHost) (p : Parser) (line : QString)
    (type : OutputFormat) (ht : type ≠ .StdOutFormat)
    (h : failureText <:+ line ∨ failureText <:+ rightTrimmed line) :
    handleLine host p line type
      = (⟨.Done, []⟩,
         ⟨UnknownXcodebuildState, p.m_fatalErrorCount + 1,
          p.scheduled ++ [⟨⟨false, .Error, "Xcodebuild failed.".toList, [], [], -1, 0⟩, 1, 0⟩]⟩) := by
  have h1 : failureText <:+ rightTrimmed line := by
    rcases h with h | h
    · exact trimmed_suffix_of_suffix failureText line '*' (by decide) (by decide) h
    · exact h
  have hf := (failureRe_trimmed_iff line).2 h1
  have hc : CompileTask .Error "Xcodebuild failed.".toList []
      = ⟨false, .Error, "Xcodebuild failed.".toList, [], [], -1, 0⟩ := by decide
  simp only [handleLine, ht, if_false, hf, if_true, scheduleTask, hc]
  simp

theorem xcodebuild_failed_line_witness :
    handleLine posixHost ⟨OutsideXcodebuild, 0, []⟩ "** BUILD FAILED **".toList .StdErrFormat
      = (⟨.Done, []⟩,
         ⟨UnknownXcodebuildState, 0 + 1,
          [] ++ [⟨⟨false, .Error, "Xcodebuild failed.".toList, [], [], -1, 0⟩, 1, 0⟩]⟩) :=
  xcodebuild_failed_line posixHost ⟨OutsideXcodebuild, 0, []⟩ "** BUILD FAILED **".toList
    .StdErrFormat (by decide) (Or.inl (by decide))

end XcodebuildParser

namespace Re

theorem anyTail_append (k : QString → Bool) (a b : QString) (ha : ∀ c ∈ a, c ≠ '\n')
    (hk : k b = true) : anyTail k (a ++ b) = true :=
  (anyTail_iff k (a ++ b)).2 ⟨a, b, rfl, ha, hk⟩

theorem search_append (items : List Item) (a b : QString) (h : matchHere items b = true) :
    search items (a ++ b) = true :=
  (search_iff items (a ++ b)).2 ⟨a, b, rfl, h⟩

end Re

namespace XcodebuildParser
open XcodebuildStatus

theorem buildRe_matches_header (before : QString) (aggregate : Bool)
    (target project conf : QString) (ht : ∀ c ∈ target, c ≠ '\n')
    (hp : ∀ c ∈ project, c ≠ '\n') (hc : ∀ c ∈ conf, c ≠ '\n') :
    buildRe.hasMatch (before ++ headerLine aggregate target project conf) = true := by
  simp only [buildRe, QRegularExpression.hasMatch, Bool.false_eq_true, if_false]
  apply Re.search_append
  have h4 : Re.matchHere [.lit " ===".toList, .eol] " ===".toList = true :=
    (Re.matchHere_lit_eol _ _).2 (Or.inl rfl)
  have h3 : Re.matchHere [.lit " WITH ".toList, .dotStar, .lit " ===".toList, .eol]
      (" WITH ".toList ++ (conf ++ " ===".toList)) = true := by
    simp only [Re.matchHere, stripLeading_append]
    exact Re.anyTail_append _ conf _ hc h4
  have h2 : Re.matchHere [.lit " OF PROJECT ".toList, .dotStar, .lit " WITH ".toList, .dotStar,
      .lit " ===".toList, .eol]
      (" OF PROJECT ".toList ++ (project ++ (" WITH ".toList ++ (conf ++ " ===".toList))))
      = true := by
    rw [Re.matchHere, stripLeading_append]
    exact Re.anyTail_append _ project _ hp h3
  have h1 : Re.matchHere [.lit "TARGET ".toList, .dotStar, .lit " OF PROJECT ".toList, .dotStar,
      .lit " WITH ".toList, .dotStar, .lit " ===".toList, .eol]
      ("TARGET ".toList ++ (target ++ (" OF PROJECT ".toList ++ (project ++ (" WITH ".toList
        ++ (conf ++ " ===".toList)))))) = true := by
    rw [Re.matchHere, stripLeading_append]
    exact Re.anyTail_append _ target _ ht h2
  rw [headerLine, Re.matchHere, stripLeading_append]
  cases aggregate with
  | false =>
    simp only [Bool.false_eq_true, if_false, List.nil_append]
    rw [Re.matchHere, h1, Bool.or_true]
  | true =>
    simp only [if_true]
    rw [Re.matchHere, stripLeading_append]
    simp only [h1, Bool.true_or]

theorem CompileTask_warning (file : QString) :
    CompileTask .Warning "Replacing signature".toList file
      = ⟨false, .Warning, "Replacing signature".toList, [], file, -1, 0⟩ := rfl

theorem isMarker_false_iff (line : QString) :
    isMarker line = false ↔
      (buildRe.hasMatch line || notesPatterns.contains (rightTrimmed line)) = false
        ∧ successRe.hasMatch (rightTrimmed line) = false
        ∧ signatureChangeEndsWithPattern.isSuffixOf (rightTrimmed line) = false := by
  simp only [isMarker, Bool.or_eq_false_iff]
  tauto

theorem handleLine_plain (host : PathHost) (p : Parser) (line : QString)
    (h : isMarker line = false) :
    handleLine host p line .StdOutFormat = (⟨.NotHandled, []⟩, p) := by
  obtain ⟨h1, h2, h3⟩ := (isMarker_false_iff line).1 h
  simp only [handleLine, h1, h2, h3, if_true]
  simp

theorem handleLine_outside (host : PathHost) (p : Parser) (line : QString)
    (hp : p.m_xcodeBuildParserState = OutsideXcodebuild)
    (h : (buildRe.hasMatch line || notesPatterns.contains (rightTrimmed line)) = false) :
    handleLine host p line .StdOutFormat = (⟨.NotHandled, []⟩, p) := by
  simp only [handleLine, h, if_true, hp]
  simp

/-- What `handleLine` returns for a stdout line, case by case. -/
theorem handleLine_stdout_cases (host : PathHost) (p : Parser) (line : QString) :
    (handleLine host p line .StdOutFormat
        = (⟨.Done, []⟩, { p with m_xcodeBuildParserState := InXcodebuild }))
    ∨ (p.m_xcodeBuildParserState ≠ OutsideXcodebuild
        ∧ handleLine host p line .StdOutFormat
          = (⟨.Done, []⟩, { p with m_xcodeBuildParserState := OutsideXcodebuild }))
    ∨ ((handleLine host p line .StdOutFormat).1.status = .Done
        ∧ (handleLine host p line .StdOutFormat).2.m_xcodeBuildParserState
          = p.m_xcodeBuildParserState)
    ∨ handleLine host p line .StdOutFormat = (⟨.NotHandled, []⟩, p) := by
  simp only [handleLine, if_true]
  split
  · exact Or.inl rfl
  · split
    · rename_i hst
      split
      · refine Or.inr (Or.inl ⟨?_, rfl⟩)
        rcases hst with hst | hst <;> simp [hst]
      · split
        · exact Or.inr (Or.inr (Or.inl ⟨rfl, rfl⟩))
        · exact Or.inr (Or.inr (Or.inr rfl))
    · exact Or.inr (Or.inr (Or.inr rfl))

end XcodebuildParser

namespace XcodebuildParser
open XcodebuildStatus

theorem size_append (a b : QString) : size (a ++ b) = size a + size b := by
  simp [size, List.sum_append]

theorem utf16Units_pos (c : Char) : 0 < utf16Units c := by
  unfold utf16Units
  split <;> decide

theorem left_size_append (a b : QString) : left (size a) (a ++ b) = a := by
  induction a with
  | nil =>
    cases b with
    | nil => rfl
    | cons c t =>
      have := utf16Units_pos c
      simp only [size, List.map_nil, List.sum_nil, List.nil_append, left]
      rw [if_neg (by omega)]
  | cons c a ih =>
    have hs : size (c :: a) = utf16Units c + size a := by
      simp [size]
    rw [hs, List.cons_append, left, if_pos (Nat.le_add_right _ _), Nat.add_sub_cancel_left, ih]

theorem signature_line_facts (path : QString) :
    rightTrimmed (path ++ signatureChangeEndsWithPattern) = path ++ signatureChangeEndsWithPattern
    ∧ (buildRe.hasMatch (path ++ signatureChangeEndsWithPattern)
        || notesPatterns.contains (path ++ signatureChangeEndsWithPattern)) = false
    ∧ successRe.hasMatch (path ++ signatureChangeEndsWithPattern) = false
    ∧ signatureChangeEndsWithPattern.isSuffixOf (path ++ signatureChangeEndsWithPattern) = true := by
  have hsuf : signatureChangeEndsWithPattern <:+ path ++ signatureChangeEndsWithPattern :=
    List.suffix_append _ _
  have hlast : (path ++ signatureChangeEndsWithPattern).getLast? = some 'e' :=
    getLast_of_suffix _ _ 'e' (by decide) hsuf
  have htrim := rightTrimmed_of_getLast _ 'e' hlast (by decide)
  have hsufb : signatureChangeEndsWithPattern.isSuffixOf
      (path ++ signatureChangeEndsWithPattern) = true := List.isSuffixOf_iff_suffix.2 hsuf
  refine ⟨htrim, ?_, ?_, hsufb⟩
  · rw [Bool.or_eq_false_iff]
    constructor
    · cases hb : buildRe.hasMatch (path ++ signatureChangeEndsWithPattern) with
      | false => rfl
      | true =>
        have := buildRe_trimmed_last _ hb
        rw [htrim, hlast] at this
        exact absurd this (by decide)
    · cases hn : notesPatterns.contains (path ++ signatureChangeEndsWithPattern) with
      | false => rfl
      | true =>
        exfalso
        simp only [notesPatterns, List.contains_cons, List.contains_nil, Bool.or_false,
          Bool.or_eq_true, beq_iff_eq] at hn
        rcases hn with hn | hn | hn <;> rw [hn] at hsufb <;> revert hsufb <;> decide
  · cases hs : successRe.hasMatch (path ++ signatureChangeEndsWithPattern) with
    | false => rfl
    | true =>
      rw [← htrim, successRe_trimmed_iff, htrim] at hs
      have := getLast_of_suffix successText _ '*' (by decide) hs
      rw [hlast] at this
      exact absurd this (by decide)

/-- C3: a stdout line that is no marker is returned NotHandled with the parser
unchanged (same state, no task); `hasDetectedRedirection` holds exactly when
the state is not Outside, so the line goes to the stderr channel while Inside
or Unknown and to the stdout channel while Outside.  A line on which the state
changes, and every build-phase header or note, is consumed (Done) and reaches
neither channel.  From state Outside the input `outside`, the header of target
X of project Y, `inside`, `** BUILD SUCCEEDED **`, `outer` gives stdout
[outside, outer], stderr [inside], final state Outside and no task. -/
theorem xcodebuild_stdout_routing :
    (∀ (host : PathHost) (p : Parser) (ch : Channels) (line : QString),
      isMarker line = false →
        handleLine host p line .StdOutFormat = (⟨.NotHandled, []⟩, p)
        ∧ (hasDetectedRedirection p = true ↔ p.m_xcodeBuildParserState ≠ OutsideXcodebuild)
        ∧ feedStdOut host (p, ch) line
            = (p, if p.m_xcodeBuildParserState = OutsideXcodebuild
                  then { ch with stdOut := ch.stdOut ++ [line] }
                  else { ch with stdErr := ch.stdErr ++ [line] }))
    ∧ (∀ (host : PathHost) (p : Parser) (ch : Channels) (line : QString),
      ((handleLine host p line .StdOutFormat).2.m_xcodeBuildParserState
          ≠ p.m_xcodeBuildParserState
        ∨ (buildRe.hasMatch line || notesPatterns.contains (rightTrimmed line)) = true) →
        (handleLine host p line .StdOutFormat).1.status = .Done
        ∧ (handleLine host p line .StdOutFormat).2.scheduled = p.scheduled
        ∧ (feedStdOut host (p, ch) line).2 = ch)
    ∧ (["outside".toList, "=== BUILD TARGET X OF PROJECT Y WITH ... ===".toList,
          "inside".toList, "** BUILD SUCCEEDED **".toList, "outer".toList].foldl
        (feedStdOut posixHost) (⟨OutsideXcodebuild, 0, []⟩, ⟨[], []⟩)
        = (⟨OutsideXcodebuild, 0, []⟩, ⟨["outside".toList, "outer".toList], ["inside".toList]⟩)) := by
  refine ⟨?_, ?_, by decide⟩
  · intro host p ch line h
    have h1 := handleLine_plain host p line h
    refine ⟨h1, ?_, ?_⟩
    · simp [hasDetectedRedirection]
    · simp only [feedStdOut, h1, hasDetectedRedirection]
      cases hst : p.m_xcodeBuildParserState <;> simp
  · intro host p ch line h
    have key : (handleLine host p line .StdOutFormat).1.status = .Done
        ∧ (handleLine host p line .StdOutFormat).2.scheduled = p.scheduled := by
      rcases h with h | h
      · rcases handleLine_stdout_cases host p line with h1 | ⟨_, h1⟩ | ⟨_, h1⟩ | h1
        · rw [h1]; exact ⟨rfl, rfl⟩
        · rw [h1]; exact ⟨rfl, rfl⟩
        · exact absurd h1 h
        · rw [h1] at h; exact absurd rfl h
      · rw [handleLine_header host p line h]; exact ⟨rfl, rfl⟩
    refine ⟨key.1, key.2, ?_⟩
    simp only [feedStdOut, key.1]

theorem xcodebuild_stdout_routing_witness :
    handleLine posixHost ⟨InXcodebuild, 0, []⟩ "Sometext".toList .StdOutFormat
        = (⟨.NotHandled, []⟩, ⟨InXcodebuild, 0, []⟩)
    ∧ (feedStdOut posixHost (⟨InXcodebuild, 0, []⟩, ⟨[], []⟩) "** BUILD SUCCEEDED **".toList).2
        = ⟨[], []⟩ :=
  ⟨(xcodebuild_stdout_routing.1 posixHost ⟨InXcodebuild, 0, []⟩ ⟨[], []⟩ "Sometext".toList
      (by decide)).1,
   (xcodebuild_stdout_routing.2.1 posixHost ⟨InXcodebuild, 0, []⟩ ⟨[], []⟩
      "** BUILD SUCCEEDED **".toList (Or.inl (by decide))).2.2⟩

/-- C4: for every path that the host takes as absolute and leaves as it is,
`handleLine` on the stdout line `<path>: replacing existing signature` in state
Inside schedules exactly one Warning task `Replacing signature` whose file is
the path, returns Done with one link spec that starts at 0 and has the length
of the path (its `QString::size`, in UTF-16 code units), and stays Inside; in
state Outside the same line is returned NotHandled, nothing is scheduled and
the state stays Outside. -/
theorem xcodebuild_signature_line (host : PathHost) (p : Parser) (path : QString)
    (habs : host.isAbsolutePath path = true) (hfix : host.absoluteFilePath path = path) :
    (p.m_xcodeBuildParserState = InXcodebuild →
      handleLine host p (path ++ signatureChangeEndsWithPattern) .StdOutFormat
        = (⟨.Done, [⟨0, size path, host.createLinkTarget path (-1) 0⟩]⟩,
           ⟨InXcodebuild, p.m_fatalErrorCount,
            p.scheduled
              ++ [⟨⟨false, .Warning, "Replacing signature".toList, [], path, -1, 0⟩, 1, 0⟩]⟩))
    ∧ (p.m_xcodeBuildParserState = OutsideXcodebuild →
      handleLine host p (path ++ signatureChangeEndsWithPattern) .StdOutFormat
        = (⟨.NotHandled, []⟩, p)) := by
  obtain ⟨htrim, hhead, hsucc, hsuf⟩ := signature_line_facts path
  constructor
  · intro hst
    have hlen : size (path ++ signatureChangeEndsWithPattern)
        - size signatureChangeEndsWithPattern = size path := by
      rw [size_append]; omega
    have hleft : left (size path) (path ++ signatureChangeEndsWithPattern) = path :=
      left_size_append path _
    simp only [handleLine, htrim, hhead, hsucc, hsuf, hst, if_true, hlen, hleft, hfix,
      CompileTask_warning, addLinkSpecForAbsoluteFilePath, habs, scheduleTask]
    cases p
    simp_all
  · intro hst
    have hhead2 : (buildRe.hasMatch (path ++ signatureChangeEndsWithPattern)
        || notesPatterns.contains (rightTrimmed (path ++ signatureChangeEndsWithPattern)))
        = false := by
      rw [htrim]; exact hhead
    exact handleLine_outside host p _ hst hhead2

theorem xcodebuild_signature_line_witness :
    handleLine posixHost ⟨InXcodebuild, 0, []⟩
        (("/tmp/".toList ++ Char.ofNat 0x1F600 :: ".app".toList)
          ++ signatureChangeEndsWithPattern) .StdOutFormat
      = (⟨.Done, [⟨0, size ("/tmp/".toList ++ Char.ofNat 0x1F600 :: ".app".toList),
            posixHost.createLinkTarget ("/tmp/".toList ++ Char.ofNat 0x1F600 :: ".app".toList)
              (-1) 0⟩]⟩,
         ⟨InXcodebuild, 0,
          [] ++ [⟨⟨false, .Warning, "Replacing signature".toList, [],
                  "/tmp/".toList ++ Char.ofNat 0x1F600 :: ".app".toList, -1, 0⟩, 1, 0⟩]⟩)
    ∧ size ("/tmp/".toList ++ Char.ofNat 0x1F600 :: ".app".toList) = 11
    ∧ size "/somepath/somefile.app".toList = 22 :=
  ⟨(xcodebuild_signature_line posixHost ⟨InXcodebuild, 0, []⟩
      ("/tmp/".toList ++ Char.ofNat 0x1F600 :: ".app".toList) (by decide) rfl).1 rfl,
    by decide, by decide⟩

/-- C5: for every parser state, `handleLine` on a stdout line that matches the
build-phase pattern at its end, or whose right-trimmed text is one of the three
notes, sets the state to Inside, returns Done and schedules no task. -/
theorem xcodebuild_header_switches_inside (host : PathHost) (p : Parser) (line : QString)
    (h : buildRe.hasMatch line = true ∨ rightTrimmed line ∈ notesPatterns) :
    handleLine host p line .StdOutFormat
      = (⟨.Done, []⟩, ⟨InXcodebuild, p.m_fatalErrorCount, p.scheduled⟩) := by
  have h1 : (buildRe.hasMatch line || notesPatterns.contains (rightTrimmed line)) = true := by
    rcases h with h | h
    · rw [h, Bool.true_or]
    · have : notesPatterns.contains (rightTrimmed line) = true := List.elem_iff.2 h
      rw [this, Bool.or_true]
  exact handleLine_header host p line h1

theorem xcodebuild_header_switches_inside_witness :
    handleLine posixHost ⟨UnknownXcodebuildState, 2, []⟩
        ("2024-01-01 ".toList ++ headerLine true "Qt Preprocess".toList "testQQ".toList
          "THE DEFAULT CONFIGURATION (Debug)".toList) .StdOutFormat
      = (⟨.Done, []⟩, ⟨InXcodebuild, 2, []⟩) :=
  xcodebuild_header_switches_inside posixHost ⟨UnknownXcodebuildState, 2, []⟩ _
    (Or.inl (buildRe_matches_header _ true _ _ _ (by decide) (by decide) (by decide)))

end XcodebuildParser

/-! ## `CMakeAutogenParser` -/

theorem split_of_not_mem (sep : Char) (s : QString) (h : ∀ c ∈ s, c ≠ sep) :
    split sep s = [s] := by
  induction s with
  | nil => rfl
  | cons c s ih =>
    have hc : c ≠ sep := h c (List.mem_cons_self _ _)
    have hs := ih (fun d hd => h d (List.mem_cons_of_mem _ hd))
    simp [split, hc, hs]

theorem capturedAll_of_not_mem (s : QString) (h : ∀ c ∈ s, c ≠ '\n') : capturedAll s = s := by
  unfold capturedAll
  split
  · rename_i hl
    exact absurd rfl (h '\n' (List.mem_of_getLast?_eq_some hl))
  · rfl

theorem CMakeTask_of_not_mem (type : TaskType) (s : QString) (h : ∀ c ∈ s, c ≠ '\n') :
    CMakeTask type (capturedAll s) = ⟨false, type, s, [], [], -1, 0⟩ := by
  rw [capturedAll_of_not_mem s h]
  simp [CMakeTask, Task.create, split_of_not_mem '\n' s h]

namespace Re

theorem matchHere_eol (s : QString) : matchHere [.eol] s = true ↔ s = [] ∨ s = ['\n'] := by
  simp [matchHere]

theorem matchHere_header_shape (A : List QString) (E s : QString)
    (h : matchHere [.alt A, .dotStar, .lit E, .dotStar, .eol] s = true) :
    ∃ a ∈ A, ∃ x y w, s = a ++ (x ++ (E ++ (y ++ w))) ∧ (∀ c ∈ x, c ≠ '\n')
      ∧ (∀ c ∈ y, c ≠ '\n') ∧ (w = [] ∨ w = ['\n']) := by
  simp only [matchHere, List.any_eq_true] at h
  obtain ⟨a, ha, h⟩ := h
  split at h
  · rename_i t ht
    rw [stripLeading_eq_some] at ht
    obtain ⟨x, u, hxu, hx, h⟩ := (anyTail_iff _ _).1 h
    split at h
    · rename_i v hv
      rw [stripLeading_eq_some] at hv
      obtain ⟨y, w, hyw, hy, h⟩ := (anyTail_iff _ _).1 h
      refine ⟨a, ha, x, y, w, ?_, hx, hy, ?_⟩
      · rw [ht, hxu, hv, hyw]
      · simpa using h
    · simp at h
  · simp at h

theorem matchHere_header_of_shape (A : List QString) (E a x y : QString) (ha : a ∈ A)
    (hx : ∀ c ∈ x, c ≠ '\n') (hy : ∀ c ∈ y, c ≠ '\n') :
    matchHere [.alt A, .dotStar, .lit E, .dotStar, .eol] (a ++ (x ++ (E ++ y))) = true := by
  simp only [matchHere, List.any_eq_true]
  refine ⟨a, ha, ?_⟩
  rw [stripLeading_append]
  apply anyTail_append _ x _ hx
  rw [stripLeading_append]
  have := anyTail_append (fun s => (s == [] || s == ['\n']) && true) y [] hy (by decide)
  simpa using this

end Re

namespace CMakeAutogenParser

/-- A right-trimmed line that matches a header pattern has no line feed. -/
theorem header_no_linefeed (A : List QString) (E line : QString)
    (hA : ∀ a ∈ A, ∀ c ∈ a, c ≠ '\n') (hE : ∀ c ∈ E, c ≠ '\n')
    (h : Re.matchHere [.alt A, .dotStar, .lit E, .dotStar, .eol] (rightTrimmed line) = true) :
    ∀ c ∈ rightTrimmed line, c ≠ '\n' := by
  obtain ⟨a, ha, x, y, w, hs, hx, hy, hw⟩ := Re.matchHere_header_shape A E _ h
  rcases hw with hw | hw
  · subst hw
    intro c hc
    rw [hs] at hc
    simp only [List.append_nil, List.mem_append] at hc
    rcases hc with hc | hc | hc | hc
    · exact hA a ha c hc
    · exact hx c hc
    · exact hE c hc
    · exact hy c hc
  · exfalso
    subst hw
    have hl : (rightTrimmed line).getLast? = some '\n' := by
      rw [hs]
      simp [List.getLast?_append]
    exact absurd (rightTrimmed_getLast line '\n' hl) (by decide)

theorem error_no_linefeed (line : QString)
    (h : COMMON_ERROR_PATTERN.hasMatch (rightTrimmed line) = true) :
    ∀ c ∈ rightTrimmed line, c ≠ '\n' :=
  header_no_linefeed _ _ line (by decide) (by decide) h

theorem warning_no_linefeed (line : QString)
    (h : COMMON_WARNING_PATTERN.hasMatch (rightTrimmed line) = true) :
    ∀ c ∈ rightTrimmed line, c ≠ '\n' :=
  header_no_linefeed _ _ line (by decide) (by decide) h

theorem handleLine_none_error (p : Parser) (line : QString) (type : OutputFormat)
    (hs : p.m_expectedState = .NONE)
    (he : COMMON_ERROR_PATTERN.hasMatch (rightTrimmed line) = true) :
    handleLine p line type
      = (⟨.InProgress, []⟩,
         ⟨.LINE_SEPARATOR, ⟨false, .Error, rightTrimmed line, [], [], -1, 0⟩, 1,
          p.scheduled⟩) := by
  simp only [handleLine, hs, he, if_true, CMakeTask_of_not_mem _ _ (error_no_linefeed line he)]

theorem handleLine_none_warning (p : Parser) (line : QString) (type : OutputFormat)
    (hs : p.m_expectedState = .NONE)
    (he : COMMON_ERROR_PATTERN.hasMatch (rightTrimmed line) = false)
    (hw : COMMON_WARNING_PATTERN.hasMatch (rightTrimmed line) = true) :
    handleLine p line type
      = (⟨.InProgress, []⟩,
         ⟨.LINE_SEPARATOR, ⟨false, .Warning, rightTrimmed line, [], [], -1, 0⟩, 1,
          p.scheduled⟩) := by
  simp only [handleLine, hs, he, hw, if_true, Bool.false_eq_true, if_false,
    CMakeTask_of_not_mem _ _ (warning_no_linefeed line hw)]

theorem handleLine_none_other (p : Parser) (line : QString) (type : OutputFormat)
    (hs : p.m_expectedState = .NONE)
    (he : COMMON_ERROR_PATTERN.hasMatch (rightTrimmed line) = false)
    (hw : COMMON_WARNING_PATTERN.hasMatch (rightTrimmed line) = false) :
    handleLine p line type = (⟨.NotHandled, []⟩, p) := by
  simp only [handleLine, hs, he, hw, Bool.false_eq_true, if_false]

/-- C7: in state NONE, for every line and either stream, `handleLine` starts a
pending task exactly when the right-trimmed line matches the error or the
warning pattern: the result is then InProgress, the next state LINE_SEPARATOR,
the pending task an Error when the error pattern matches and otherwise a
Warning, its summary the right-trimmed line, and nothing is scheduled; every
other line is returned NotHandled and leaves the parser as it was. -/
theorem autogen_none_state (p : Parser) (line : QString) (type : OutputFormat)
    (hs : p.m_expectedState = .NONE) :
    (COMMON_ERROR_PATTERN.hasMatch (rightTrimmed line) = true →
      handleLine p line type
        = (⟨.InProgress, []⟩,
           ⟨.LINE_SEPARATOR, ⟨false, .Error, rightTrimmed line, [], [], -1, 0⟩, 1, p.scheduled⟩))
    ∧ (COMMON_ERROR_PATTERN.hasMatch (rightTrimmed line) = false →
       COMMON_WARNING_PATTERN.hasMatch (rightTrimmed line) = true →
      handleLine p line type
        = (⟨.InProgress, []⟩,
           ⟨.LINE_SEPARATOR, ⟨false, .Warning, rightTrimmed line, [], [], -1, 0⟩, 1,
            p.scheduled⟩))
    ∧ (COMMON_ERROR_PATTERN.hasMatch (rightTrimmed line) = false →
       COMMON_WARNING_PATTERN.hasMatch (rightTrimmed line) = false →
      handleLine p line type = (⟨.NotHandled, []⟩, p))
    ∧ ((handleLine p line type).1.status = .InProgress ↔
        (COMMON_ERROR_PATTERN.hasMatch (rightTrimmed line) = true
          ∨ COMMON_WARNING_PATTERN.hasMatch (rightTrimmed line) = true)) := by
  refine ⟨handleLine_none_error p line type hs, handleLine_none_warning p line type hs,
    handleLine_none_other p line type hs, ?_⟩
  cases he : COMMON_ERROR_PATTERN.hasMatch (rightTrimmed line) with
  | true => rw [handleLine_none_error p line type hs he]; simp
  | false =>
    cases hw : COMMON_WARNING_PATTERN.hasMatch (rightTrimmed line) with
    | true => rw [handleLine_none_warning p line type hs he hw]; simp
    | false => rw [handleLine_none_other p line type hs he hw]; simp

theorem autogen_none_state_witness :
    handleLine fresh "AUTOMOC: warning:  ".toList .StdErrFormat
      = (⟨.InProgress, []⟩,
         ⟨.LINE_SEPARATOR,
          ⟨false, .Warning, rightTrimmed "AUTOMOC: warning:  ".toList, [], [], -1, 0⟩, 1,
          fresh.scheduled⟩) :=
  (autogen_none_state fresh "AUTOMOC: warning:  ".toList .StdErrFormat rfl).2.1
    (by decide) (by decide)

/-- C8: `flush` finalizes a pending task: when a task is pending it is
scheduled exactly once, with its first detail line made the summary when the
summary is empty and there are details, and no task is pending afterwards;
when no task is pending nothing is scheduled; so a second `flush` right after
a `flush` schedules nothing. -/
theorem autogen_flush (p : Parser) :
    (p.m_lastTask.isNull = false →
      (∀ d ds, p.m_lastTask.summary = [] → p.m_lastTask.details = d :: ds →
        flush p = ⟨p.m_expectedState, Task.null, 0,
          p.scheduled ++ [⟨{ p.m_lastTask with summary := d, details := ds },
            p.m_lines + ds.length, 1⟩]⟩)
      ∧ ((p.m_lastTask.summary ≠ [] ∨ p.m_lastTask.details = []) →
        flush p = ⟨p.m_expectedState, Task.null, 0,
          p.scheduled ++ [⟨p.m_lastTask, p.m_lines + p.m_lastTask.details.length, 1⟩]⟩))
    ∧ (p.m_lastTask.isNull = true → flush p = p)
    ∧ (flush p).m_lastTask.isNull = true
    ∧ flush (flush p) = flush p := by
  have hnull : (flush p).m_lastTask.isNull = true := by
    unfold flush
    split
    · assumption
    · rfl
  have hidle : ∀ q : Parser, q.m_lastTask.isNull = true → flush q = q := by
    intro q hq
    simp [flush, hq]
  refine ⟨?_, hidle p, hnull, hidle _ hnull⟩
  intro hn
  constructor
  · intro d ds hsum hdet
    simp [flush, hn, hsum, hdet, Task.hasDetails, scheduleTask, Task.clear]
  · intro h
    rcases h with h | h
    · have : p.m_lastTask.summary.isEmpty = false := by
        cases hsum : p.m_lastTask.summary with
        | nil => exact absurd hsum h
        | cons _ _ => rfl
      simp [flush, hn, this, scheduleTask, Task.clear]
    · simp [flush, hn, h, Task.hasDetails, scheduleTask, Task.clear]

theorem autogen_flush_witness :
    flush ⟨.LINE_DESCRIPTION, ⟨false, .Error, [], ["a".toList, "b".toList], [], -1, 0⟩, 1, []⟩
      = ⟨.LINE_DESCRIPTION, Task.null, 0,
          [] ++ [⟨⟨false, .Error, "a".toList, ["b".toList], [], -1, 0⟩, 1 + 1, 1⟩]⟩ :=
  (autogen_flush
      ⟨.LINE_DESCRIPTION, ⟨false, .Error, [], ["a".toList, "b".toList], [], -1, 0⟩, 1, []⟩).1
    rfl |>.1 "a".toList ["b".toList] rfl rfl

end CMakeAutogenParser

namespace CMakeAutogenParser

theorem rightTrimmed_of_dashes (s : QString) (hd : ∀ c ∈ s, c = '-') : rightTrimmed s = s := by
  cases hl : s.getLast? with
  | none => rw [List.getLast?_eq_none_iff] at hl; rw [hl]; rfl
  | some c =>
    have hc : c = '-' := hd c (List.mem_of_getLast?_eq_some hl)
    exact rightTrimmed_of_getLast s c hl (by rw [hc]; decide)

theorem separator_of_dashes (s : QString) (hne : s ≠ []) (hd : ∀ c ∈ s, c = '-') :
    COMMON_SEPARATOR_PATTERN.hasMatch s = true := by
  cases s with
  | nil => exact absurd rfl hne
  | cons d t =>
    simp only [COMMON_SEPARATOR_PATTERN, QRegularExpression.hasMatch, if_true, Re.matchHere,
      Bool.and_eq_true, beq_iff_eq]
    refine ⟨hd d (List.mem_cons_self _ _), ?_⟩
    rw [Re.manyChar_iff]
    exact ⟨t, [], by simp, fun c hc => hd c (List.mem_cons_of_mem _ hc), by decide⟩

theorem dashes_of_separator (s : QString) (ht : rightTrimmed s = s)
    (h : COMMON_SEPARATOR_PATTERN.hasMatch s = true) : s ≠ [] ∧ ∀ c ∈ s, c = '-' := by
  cases s with
  | nil => exact absurd h (by decide)
  | cons d t =>
    simp only [COMMON_SEPARATOR_PATTERN, QRegularExpression.hasMatch, if_true, Re.matchHere,
      Bool.and_eq_true, beq_iff_eq] at h
    obtain ⟨hd, h⟩ := h
    rw [Re.manyChar_iff] at h
    obtain ⟨a, b, hab, ha, hb⟩ := h
    refine ⟨by simp, ?_⟩
    have hb2 : b = [] ∨ b = ['\n'] := by simpa using hb
    rcases hb2 with hb2 | hb2
    · subst hb2
      intro c hc
      rcases List.mem_cons.1 hc with rfl | hc
      · exact hd
      · rw [hab] at hc; simp at hc; exact ha c hc
    · exfalso
      subst hb2
      have hl : (rightTrimmed (d :: t)).getLast? = some '\n' := by
        rw [ht, hab]
        have : d :: (a ++ ['\n']) = (d :: a) ++ ['\n'] := rfl
        rw [this, List.getLast?_append]
        rfl
      exact absurd (rightTrimmed_getLast _ '\n' hl) (by decide)

theorem handleLine_detail (p : Parser) (d : QString) (type : OutputFormat)
    (hst : p.m_expectedState = .LINE_DESCRIPTION) (hd : d ≠ []) (ht : rightTrimmed d = d) :
    handleLine p d type
      = (⟨.InProgress, []⟩, { p with m_lastTask := p.m_lastTask.addToDetails d }) := by
  have : d.isEmpty = false := by
    cases d with
    | nil => exact absurd rfl hd
    | cons _ _ => rfl
  simp only [handleLine, hst, ht, this, Bool.false_and, Bool.false_eq_true, if_false]

theorem feed_details (p : Parser) (ds : List QString)
    (hst : p.m_expectedState = .LINE_DESCRIPTION)
    (hds : ∀ d ∈ ds, d ≠ [] ∧ rightTrimmed d = d) :
    feed p ds
      = (ds.map (fun _ => Status.InProgress),
         { p with m_lastTask := { p.m_lastTask with details := p.m_lastTask.details ++ ds } }) := by
  induction ds generalizing p with
  | nil => simp [feed]
  | cons d ds ih =>
    have hd := hds d (List.mem_cons_self _ _)
    have hrest : ∀ e ∈ ds, e ≠ [] ∧ rightTrimmed e = e :=
      fun e he => hds e (List.mem_cons_of_mem _ he)
    simp only [feed, handleLine_detail p d .StdErrFormat hst hd.1 hd.2, List.map_cons]
    rw [ih { p with m_lastTask := p.m_lastTask.addToDetails d } hst hrest]
    simp [Task.addToDetails]

theorem handleLine_separator (p : Parser) (s : QString) (type : OutputFormat)
    (hst : p.m_expectedState = .LINE_SEPARATOR) (hne : s ≠ []) (hd : ∀ c ∈ s, c = '-') :
    handleLine p s type = (⟨.InProgress, []⟩, { p with m_expectedState := .LINE_DESCRIPTION }) := by
  simp only [handleLine, hst, rightTrimmed_of_dashes s hd, separator_of_dashes s hne hd,
    Bool.not_true, Bool.false_eq_true, if_false]

theorem handleLine_first_detail (p : Parser) (d : QString) (type : OutputFormat)
    (hst : p.m_expectedState = .LINE_SEPARATOR) (ht : rightTrimmed d = d)
    (hd : COMMON_SEPARATOR_PATTERN.hasMatch d = false) :
    handleLine p d type
      = (⟨.InProgress, []⟩,
         { p with m_expectedState := .LINE_DESCRIPTION,
                  m_lastTask := p.m_lastTask.addToDetails d }) := by
  simp only [handleLine, hst, ht, hd, Bool.not_false, if_true]

theorem handleLine_empty (p : Parser) (type : OutputFormat)
    (hst : p.m_expectedState = .LINE_DESCRIPTION) (hn : p.m_lastTask.isNull = false) :
    handleLine p [] type = (⟨.Done, []⟩, flush { p with m_expectedState := .NONE }) := by
  have : rightTrimmed [] = ([] : QString) := rfl
  simp [handleLine, hst, this, hn]

end CMakeAutogenParser

namespace CMakeAutogenParser

/-- The parser after a header with summary `h` and the detail lines `ds`. -/
theorem feed_block (h : QString) (sev : TaskType) (sep : Option QString) (ds : List QString)
    (hh : rightTrimmed h = h)
    (hsev : (COMMON_ERROR_PATTERN.hasMatch h = true ∧ sev = .Error)
      ∨ (COMMON_ERROR_PATTERN.hasMatch h = false ∧ COMMON_WARNING_PATTERN.hasMatch h = true
          ∧ sev = .Warning))
    (hsep : ∀ s, sep = some s → s ≠ [] ∧ ∀ c ∈ s, c = '-')
    (hds : ∀ d ∈ ds, d ≠ [] ∧ rightTrimmed d = d)
    (hfirst : sep = none → ∀ d rest, ds = d :: rest → ¬ ∀ c ∈ d, c = '-') :
    ∃ st, feed fresh (h :: (sep.toList ++ ds))
        = ((h :: (sep.toList ++ ds)).map (fun _ => Status.InProgress),
           ⟨st, ⟨false, sev, h, ds, [], -1, 0⟩, 1, []⟩)
      ∧ ((sep ≠ none ∨ ds ≠ []) → st = .LINE_DESCRIPTION) := by
  have hfirstLine : handleLine fresh h .StdErrFormat
      = (⟨.InProgress, []⟩, ⟨.LINE_SEPARATOR, ⟨false, sev, h, [], [], -1, 0⟩, 1, []⟩) := by
    rcases hsev with ⟨he, rfl⟩ | ⟨he, hw, rfl⟩
    · have := handleLine_none_error fresh h .StdErrFormat rfl (by rw [hh]; exact he)
      rw [hh] at this; exact this
    · have := handleLine_none_warning fresh h .StdErrFormat rfl (by rw [hh]; exact he)
        (by rw [hh]; exact hw)
      rw [hh] at this; exact this
  cases sep with
  | some s =>
    obtain ⟨hne, hd⟩ := hsep s rfl
    refine ⟨.LINE_DESCRIPTION, ?_, fun _ => rfl⟩
    have h2 : handleLine ⟨.LINE_SEPARATOR, ⟨false, sev, h, [], [], -1, 0⟩, 1, []⟩ s
        .StdErrFormat
        = (⟨.InProgress, []⟩, ⟨.LINE_DESCRIPTION, ⟨false, sev, h, [], [], -1, 0⟩, 1, []⟩) :=
      handleLine_separator _ s .StdErrFormat rfl hne hd
    have h3 : feed ⟨.LINE_DESCRIPTION, ⟨false, sev, h, [], [], -1, 0⟩, 1, []⟩ ds
        = (ds.map (fun _ => Status.InProgress),
           ⟨.LINE_DESCRIPTION, ⟨false, sev, h, ds, [], -1, 0⟩, 1, []⟩) := by
      have := feed_details
        ⟨.LINE_DESCRIPTION, ⟨false, sev, h, [], [], -1, 0⟩, 1, []⟩ ds rfl hds
      simpa using this
    show feed fresh (h :: (s :: ds)) = _
    simp only [feed, hfirstLine, List.map_cons, h2, h3]
    rfl
  | none =>
    cases ds with
    | nil =>
      refine ⟨.LINE_SEPARATOR, ?_, fun hc => ?_⟩
      · show feed fresh [h] = _
        simp only [feed, hfirstLine, List.map_cons, List.map_nil]
        rfl
      · simp at hc
    | cons d rest =>
      obtain ⟨hne, ht⟩ := hds d (List.mem_cons_self _ _)
      have hnd := hfirst rfl d rest rfl
      have hno : COMMON_SEPARATOR_PATTERN.hasMatch d = false := by
        cases hm : COMMON_SEPARATOR_PATTERN.hasMatch d with
        | false => rfl
        | true => exact absurd (dashes_of_separator d ht hm).2 hnd
      have hrest : ∀ e ∈ rest, e ≠ [] ∧ rightTrimmed e = e :=
        fun e he => hds e (List.mem_cons_of_mem _ he)
      refine ⟨.LINE_DESCRIPTION, ?_, fun _ => rfl⟩
      have h2 : handleLine ⟨.LINE_SEPARATOR, ⟨false, sev, h, [], [], -1, 0⟩, 1, []⟩ d
          .StdErrFormat
          = (⟨.InProgress, []⟩,
             ⟨.LINE_DESCRIPTION, ⟨false, sev, h, [d], [], -1, 0⟩, 1, []⟩) :=
        handleLine_first_detail _ d .StdErrFormat rfl ht hno
      have h3 : feed ⟨.LINE_DESCRIPTION, ⟨false, sev, h, [d], [], -1, 0⟩, 1, []⟩ rest
          = (rest.map (fun _ => Status.InProgress),
             ⟨.LINE_DESCRIPTION, ⟨false, sev, h, d :: rest, [], -1, 0⟩, 1, []⟩) := by
        have := feed_details
          ⟨.LINE_DESCRIPTION, ⟨false, sev, h, [d], [], -1, 0⟩, 1, []⟩ rest rfl hrest
        simpa using this
      show feed fresh (h :: (d :: rest)) = _
      simp only [feed, hfirstLine, List.map_cons, h2, h3]
      rfl

/-- C6 (as the code has it): a header that matches the warning pattern and the
error pattern gives an Error task; without separator line a first detail line
of dashes is dropped; an empty line right after the header does not end the
task (nothing is scheduled, the empty line is its first detail); and the
summary of a header with trailing blanks is the header without them. -/
theorem autogen_block_exceptions :
    ((feed fresh ["AutoMoc warning: error".toList, "detail".toList, []]).2.scheduled
        = [⟨⟨false, .Error, "AutoMoc warning: error".toList, ["detail".toList], [], -1, 0⟩,
            2, 1⟩]
      ∧ COMMON_WARNING_PATTERN.hasMatch "AutoMoc warning: error".toList = true)
    ∧ (feed fresh ["AutoMoc error".toList, "--".toList, "x".toList, []]).2.scheduled
        = [⟨⟨false, .Error, "AutoMoc error".toList, ["x".toList], [], -1, 0⟩, 2, 1⟩]
    ∧ ((feed fresh ["AutoMoc error".toList, []]).2.scheduled = []
      ∧ (feed fresh ["AutoMoc error".toList, []]).2.m_lastTask.details = [[]])
    ∧ (feed fresh ["AutoMoc error  ".toList, "x".toList, []]).2.scheduled
        = [⟨⟨false, .Error, "AutoMoc error".toList, ["x".toList], [], -1, 0⟩, 2, 1⟩] := by
  decide

/-- C6 (amended): for every header line `h` without trailing white space that
matches the error pattern (resp. the warning pattern and not the error
pattern), an optional following line of dashes only, and every list of
non-empty detail lines without trailing white space whose first line, when
there is no separator line, is not made of dashes only: feeding a fresh parser
`h`, the optional separator and the detail lines consumes every line
(InProgress) and schedules nothing yet; end of input (`flush`) then schedules
exactly one task, of severity Error (resp. Warning), with summary `h` and the
detail lines as details, without the separator; and so does an empty line
(returned Done) when there is a separator line or at least one detail line. -/
theorem autogen_task_block (h : QString) (sev : TaskType) (sep : Option QString)
    (ds : List QString) (hh : rightTrimmed h = h)
    (hsev : (COMMON_ERROR_PATTERN.hasMatch h = true ∧ sev = .Error)
      ∨ (COMMON_ERROR_PATTERN.hasMatch h = false ∧ COMMON_WARNING_PATTERN.hasMatch h = true
          ∧ sev = .Warning))
    (hsep : ∀ s, sep = some s → s ≠ [] ∧ ∀ c ∈ s, c = '-')
    (hds : ∀ d ∈ ds, d ≠ [] ∧ rightTrimmed d = d)
    (hfirst : sep = none → ∀ d rest, ds = d :: rest → ¬ ∀ c ∈ d, c = '-') :
    (∀ s ∈ (feed fresh (h :: (sep.toList ++ ds))).1, s = Status.InProgress)
    ∧ (feed fresh (h :: (sep.toList ++ ds))).2.scheduled = []
    ∧ (flush (feed fresh (h :: (sep.toList ++ ds))).2).scheduled
        = [⟨⟨false, sev, h, ds, [], -1, 0⟩, 1 + ds.length, 1⟩]
    ∧ ((sep ≠ none ∨ ds ≠ []) →
        (handleLine (feed fresh (h :: (sep.toList ++ ds))).2 [] .StdErrFormat).1.status = .Done
        ∧ (handleLine (feed fresh (h :: (sep.toList ++ ds))).2 [] .StdErrFormat).2.scheduled
            = [⟨⟨false, sev, h, ds, [], -1, 0⟩, 1 + ds.length, 1⟩]) := by
  obtain ⟨st, hfeed, hst⟩ := feed_block h sev sep ds hh hsev hsep hds hfirst
  have hne : h.isEmpty = false := by
    cases h with
    | nil =>
      rcases hsev with ⟨he, _⟩ | ⟨_, hw, _⟩
      · exact absurd he (by decide)
      · exact absurd hw (by decide)
    | cons _ _ => rfl
  have hflush : ∀ st2, (flush ⟨st2, ⟨false, sev, h, ds, [], -1, 0⟩, 1, []⟩).scheduled
      = [⟨⟨false, sev, h, ds, [], -1, 0⟩, 1 + ds.length, 1⟩] := by
    intro st2
    simp [flush, hne, scheduleTask, Task.clear]
  rw [hfeed]
  refine ⟨?_, rfl, hflush st, ?_⟩
  · intro s hs
    simp only [List.mem_map] at hs
    obtain ⟨_, _, rfl⟩ := hs
    rfl
  · intro hc
    have hst2 := hst hc
    subst hst2
    rw [handleLine_empty _ .StdErrFormat rfl rfl]
    exact ⟨rfl, hflush _⟩

theorem autogen_task_block_witness :
    (∀ s ∈ (feed fresh ("AutoMoc error".toList
        :: ((some "-------------".toList).toList ++ ["\"SRC:/main.cpp\"".toList]))).1,
        s = Status.InProgress)
    ∧ (handleLine (feed fresh ("AutoMoc error".toList
        :: ((some "-------------".toList).toList ++ ["\"SRC:/main.cpp\"".toList]))).2 []
          .StdErrFormat).2.scheduled
        = [⟨⟨false, .Error, "AutoMoc error".toList, ["\"SRC:/main.cpp\"".toList], [], -1, 0⟩,
            1 + ["\"SRC:/main.cpp\"".toList].length, 1⟩] :=
  have key := autogen_task_block "AutoMoc error".toList .Error (some "-------------".toList)
    ["\"SRC:/main.cpp\"".toList] (by decide) (Or.inl ⟨by decide, rfl⟩)
    (fun s hs => by cases hs; decide) (by decide) (fun hs => by cases hs)
  ⟨key.1, (key.2.2.2 (Or.inl (by simp))).2⟩

end CMakeAutogenParser

/-! ## `CMakeBuildConfiguration` -/

theorem valueOf_of_absent (c : CMakeConfig) (key : QString) (h : ∀ i ∈ c, i.key ≠ key) :
    c.valueOf key = [] := by
  unfold CMakeConfig.valueOf
  have : c.find? (fun i => i.key == key) = none := by
    rw [List.find?_eq_none]
    intro i hi
    simpa using h i hi
  rw [this]

/-- C9: for every configuration, `hasQmlDebugging` is true exactly when the
value of CMAKE_CXX_FLAGS_INIT and the value of CMAKE_CXX_FLAGS both contain
`-DQT_QML_DEBUG` as a substring, where the value of a key is that of the first
item with the key and a key without item has the empty value (so that the
result is false when one of the two keys is absent). -/
theorem hasQmlDebugging_iff (c : CMakeConfig) :
    (hasQmlDebugging c = true ↔
      "-DQT_QML_DEBUG".toList <:+: c.valueOf "CMAKE_CXX_FLAGS_INIT".toList
        ∧ "-DQT_QML_DEBUG".toList <:+: c.valueOf "CMAKE_CXX_FLAGS".toList)
    ∧ (∀ key, (∀ i ∈ c, i.key ≠ key) → c.valueOf key = [])
    ∧ (((∀ i ∈ c, i.key ≠ "CMAKE_CXX_FLAGS_INIT".toList)
        ∨ (∀ i ∈ c, i.key ≠ "CMAKE_CXX_FLAGS".toList)) → hasQmlDebugging c = false) := by
  have hiff : hasQmlDebugging c = true ↔
      "-DQT_QML_DEBUG".toList <:+: c.valueOf "CMAKE_CXX_FLAGS_INIT".toList
        ∧ "-DQT_QML_DEBUG".toList <:+: c.valueOf "CMAKE_CXX_FLAGS".toList := by
    simp only [hasQmlDebugging, CMakeConfig.stringValueOf, Bool.and_eq_true, contains_iff]
    rfl
  refine ⟨hiff, valueOf_of_absent c, ?_⟩
  intro h
  cases hq : hasQmlDebugging c with
  | false => rfl
  | true =>
    exfalso
    obtain ⟨h1, h2⟩ := hiff.1 hq
    rcases h with h | h
    · rw [valueOf_of_absent c _ h] at h1
      exact absurd (List.eq_nil_of_infix_nil h1) (by decide)
    · rw [valueOf_of_absent c _ h] at h2
      exact absurd (List.eq_nil_of_infix_nil h2) (by decide)

theorem hasQmlDebugging_iff_witness :
    hasQmlDebugging
      [CMakeConfigItem.create "CMAKE_CXX_FLAGS".toList .STRING "-O2 -DQT_QML_DEBUG".toList]
      = false :=
  (hasQmlDebugging_iff _).2.2 (Or.inl (by decide))

theorem filter_ne_idem (a : QString) (l : List QString) :
    (l.filter fun item => !(item == a)).filter (fun item => !(item == a))
      = l.filter fun item => !(item == a) := by
  rw [List.filter_filter]
  simp

theorem merge_without_additions (host : PresetHost) (args : List QString)
    (project : CMakeProject) (k : Kit) (env : Environment) (buildDirectory : QString)
    (hk : k.cmakePresetConfigItem.isNull = false)
    (hf : presetFlagArguments (namedConfigurePreset project k) = [])
    (hc : mergedCacheVariables host project k env buildDirectory = []) :
    addCMakeConfigurePresetToInitialArguments host args project k env buildDirectory
      = args.filter fun item => !(item == k.cmakePresetConfigItem.toArgument) := by
  unfold mergedCacheVariables namedConfigurePreset at hc
  unfold namedConfigurePreset at hf
  simp only [addCMakeConfigurePresetToInitialArguments, hk, Bool.false_eq_true, if_false, hf,
    List.append_nil, hc, List.foldl_nil]

open PresetsDetails

/-! ## The merge of a configure preset -/

theorem findIdx_first {α : Type} (p : α → Bool) (pre post : List α) (a : α)
    (hpre : ∀ x ∈ pre, p x = false) (ha : p a = true) :
    (pre ++ a :: post).findIdx? p = some pre.length := by
  have h0 : pre.findIdx? p = none := List.findIdx?_eq_none_iff.2 hpre
  rw [List.findIdx?_append, h0]
  simp [ha]

theorem findIdx_none {α : Type} (p : α → Bool) (l : List α) (h : ∀ x ∈ l, p x = false) :
    l.findIdx? p = none :=
  List.findIdx?_eq_none_iff.2 h

theorem getD_middle {α : Type} (pre post : List α) (a d : α) :
    (pre ++ a :: post).getD pre.length d = a := by
  rw [List.getD_append_right _ _ _ _ (Nat.le_refl _)]
  simp

theorem set_middle {α : Type} (pre post : List α) (a b : α) :
    (pre ++ a :: post).set pre.length b = pre ++ b :: post := by
  simp

theorem takeWhile_stop {α : Type} (p : α → Bool) (a b : List α) (c : α)
    (ha : ∀ x ∈ a, p x = true) (hc : p c = false) : (a ++ c :: b).takeWhile p = a := by
  induction a with
  | nil => simp [List.takeWhile_cons, hc]
  | cons x a ih =>
    have hx := ha x (List.mem_cons_self _ _)
    simp only [List.cons_append, List.takeWhile_cons, hx, if_true]
    rw [ih (fun y hy => ha y (List.mem_cons_of_mem _ hy))]

theorem dropWhile_stop {α : Type} (p : α → Bool) (a b : List α) (c : α)
    (ha : ∀ x ∈ a, p x = true) (hc : p c = false) : (a ++ c :: b).dropWhile p = c :: b := by
  induction a with
  | nil => simp [List.dropWhile_cons, hc]
  | cons x a ih =>
    have hx := ha x (List.mem_cons_self _ _)
    simp only [List.cons_append, List.dropWhile_cons, hx, if_true]
    exact ih (fun y hy => ha y (List.mem_cons_of_mem _ hy))

namespace CMakeConfigItem

theorem typeStringToType_typeToTypeString (t : ConfigType) :
    typeStringToType (typeToTypeString t) = t := by
  cases t <;> decide

theorem typeToTypeString_facts (t : ConfigType) :
    (typeToTypeString t).isEmpty = false ∧ (∀ c ∈ typeToTypeString t, c ≠ '=')
      ∧ (∀ c ∈ typeToTypeString t, c ≠ ':') := by
  cases t <;> decide

/-- A key as the arguments write it: not empty, without `:` and without `=`. -/
theorem toArgument_create (key : QString) (t : ConfigType) (value : QString) :
    (create key t value).toArgument
      = '-' :: 'D' :: (key ++ ':' :: (typeToTypeString t ++ '=' :: value)) := by
  simp [toArgument, toArgumentWith, create, null]

theorem toArgument_of_set (i : CMakeConfigItem) (h : i.isUnset = false) :
    i.toArgument = '-' :: 'D' :: (i.key ++ ':' :: (typeToTypeString i.type ++ '=' :: i.value)) := by
  simp [toArgument, toArgumentWith, h]

theorem fromString_parts (key : QString) (t : ConfigType) (value : QString)
    (hne : key ≠ []) (hc : ∀ c ∈ key, c ≠ ':') (he : ∀ c ∈ key, c ≠ '=') :
    fromString (key ++ ':' :: (typeToTypeString t ++ '=' :: value)) = create key t value := by
  obtain ⟨ht1, ht2, _⟩ := typeToTypeString_facts t
  have hs : key ++ ':' :: (typeToTypeString t ++ '=' :: value)
      = (key ++ ':' :: typeToTypeString t) ++ '=' :: value := by simp
  have hleft : ∀ x ∈ key ++ ':' :: typeToTypeString t, (decide (x ≠ '=')) = true := by
    intro x hx
    simp only [List.mem_append, List.mem_cons] at hx
    rcases hx with hx | rfl | hx
    · simpa using he x hx
    · decide
    · simpa using ht2 x hx
  have h1 : (key ++ ':' :: (typeToTypeString t ++ '=' :: value)).takeWhile (fun c => decide (c ≠ '='))
      = key ++ ':' :: typeToTypeString t := by
    rw [hs]; exact takeWhile_stop _ _ _ _ hleft (by decide)
  have h2 : (key ++ ':' :: (typeToTypeString t ++ '=' :: value)).dropWhile (fun c => decide (c ≠ '='))
      = '=' :: value := by
    rw [hs]; exact dropWhile_stop _ _ _ _ hleft (by decide)
  have hkey : ∀ x ∈ key, (decide (x ≠ ':')) = true := by
    intro x hx; simpa using hc x hx
  have h3 : (key ++ ':' :: typeToTypeString t).takeWhile (fun c => decide (c ≠ ':')) = key :=
    takeWhile_stop _ _ _ _ hkey (by decide)
  have h4 : (key ++ ':' :: typeToTypeString t).dropWhile (fun c => decide (c ≠ ':'))
      = ':' :: typeToTypeString t :=
    dropWhile_stop _ _ _ _ hkey (by decide)
  have hcont : (key ++ ':' :: (typeToTypeString t ++ '=' :: value)).contains '=' = true := by
    simp
  have hkne : key.isEmpty = false := by
    cases key with
    | nil => exact absurd rfl hne
    | cons _ _ => rfl
  unfold fromString
  simp only [hcont, if_true, h1, h2, h3, h4, List.drop_succ_cons, List.drop_zero, hkne, ht1,
    Bool.false_eq_true, if_false, typeStringToType_typeToTypeString]

theorem argNoType_of_set (i : CMakeConfigItem) (h : i.isUnset = false)
    (hc : ∀ c ∈ i.key, c ≠ ':') :
    i.toArgument.takeWhile (fun c => decide (c ≠ ':')) = '-' :: 'D' :: i.key := by
  rw [toArgument_of_set i h]
  have : '-' :: 'D' :: (i.key ++ ':' :: (typeToTypeString i.type ++ '=' :: i.value))
      = ('-' :: 'D' :: i.key) ++ ':' :: (typeToTypeString i.type ++ '=' :: i.value) := by simp
  rw [this]
  apply takeWhile_stop
  · intro x hx
    simp only [List.mem_cons] at hx
    rcases hx with rfl | rfl | hx
    · decide
    · decide
    · simpa using hc x hx
  · decide

end CMakeConfigItem

open CMakeConfigItem in
/-- What one round of the cache variable loop does when the first argument
that starts with `-D<key>` is the argument of an item with the preset key. -/
theorem merge_found (pre post : List QString) (t : ConfigType)
    (value : QString) (presetItem : CMakeConfigItem) (hset : presetItem.isUnset = false)
    (hne : presetItem.key ≠ []) (hc : ∀ c ∈ presetItem.key, c ≠ ':')
    (he : ∀ c ∈ presetItem.key, c ≠ '=')
    (hpre : ∀ a ∈ pre, ('-' :: 'D' :: presetItem.key).isPrefixOf a = false) :
    (pre ++ (create presetItem.key t value).toArgument :: post).findIdx?
        (fun arg => (presetItem.toArgument.takeWhile (fun c => decide (c ≠ ':'))).isPrefixOf arg)
      = some pre.length
    ∧ fromString (((pre ++ (create presetItem.key t value).toArgument :: post).getD
        pre.length []).drop 2) = create presetItem.key t value := by
  have hnt := argNoType_of_set presetItem hset hc
  have harg : ('-' :: 'D' :: presetItem.key).isPrefixOf
      (create presetItem.key t value).toArgument = true := by
    rw [toArgument_create]
    simp [List.isPrefixOf_iff_prefix]
  constructor
  · rw [hnt]
    exact findIdx_first _ pre post _ hpre harg
  · rw [getD_middle, toArgument_create]
    simp only [List.drop_succ_cons, List.drop_zero]
    exact fromString_parts _ t value hne hc he

theorem foldl_append_paths (paths : List QString) (value : QString) :
    paths.foldl (fun v presetPath => v ++ [';'] ++ presetPath) value
      = value ++ (paths.map fun p => ';' :: p).flatten := by
  induction paths generalizing value with
  | nil => simp
  | cons p paths ih =>
    simp only [List.foldl_cons, ih, List.map_cons, List.flatten_cons]
    simp

open CMakeConfigItem in
/-- The branch of the path list keys CMAKE_PREFIX_PATH and CMAKE_FIND_ROOT_PATH
when the first argument that starts with `-D<key>` is an argument
`-D<key>:<type>=<value>` of the key itself: this argument becomes
`-D<key>:<type>=<value>` followed by `;p` for each path `p` of the preset's
`;`-separated value, in order, that is as a file path equal to no path of the
existing `;`-separated value; the other arguments stay.  So
`-DCMAKE_PREFIX_PATH:STRING=/qt;/extra` merged with the preset value
`/qt;/vendor` is `-DCMAKE_PREFIX_PATH:STRING=/qt;/extra;/vendor`. -/
theorem merge_path_list_found (host : PresetHost) (k : Kit) (pre post : List QString)
    (t : ConfigType) (value : QString) (presetItem : CMakeConfigItem)
    (hkey : presetItem.key = "CMAKE_PREFIX_PATH".toList
      ∨ presetItem.key = "CMAKE_FIND_ROOT_PATH".toList)
    (hset : presetItem.isUnset = false)
    (hpre : ∀ a ∈ pre, ('-' :: 'D' :: presetItem.key).isPrefixOf a = false) :
    mergePresetCacheVariable host k
        (pre ++ (create presetItem.key t value).toArgument :: post) presetItem
      = pre ++ ('-' :: 'D' :: (presetItem.key ++ ':' :: (typeToTypeString t ++ '=' :: (value
          ++ (((split ';' (k.macroExpand presetItem.value)).filter fun p =>
                (split ';' (k.macroExpand value)).all fun a =>
                  host.fromString a != host.fromUserInput p).map fun p => ';' :: p).flatten))))
          :: post
    ∧ addCMakeConfigurePresetToInitialArguments plainPresetHost
        ["-DCMAKE_PREFIX_PATH:STRING=/qt;/extra".toList]
        ⟨[{ PresetsDetails.ConfigurePreset.default with
              name := "p1".toList,
              cacheVariables := some
                [create "CMAKE_PREFIX_PATH".toList .STRING "/qt;/vendor".toList] }], []⟩
        (presetKit "p1".toList) [] []
      = ["-DCMAKE_PREFIX_PATH:STRING=/qt;/extra;/vendor".toList] := by
  refine ⟨?_, by decide⟩
  have hfacts : presetItem.key ≠ [] ∧ (∀ c ∈ presetItem.key, c ≠ ':')
      ∧ (∀ c ∈ presetItem.key, c ≠ '=')
      ∧ defaultKitMacroValues.contains presetItem.key = false := by
    rcases hkey with h | h <;> rw [h] <;> decide
  obtain ⟨hne, hc, he, hdef⟩ := hfacts
  obtain ⟨hidx, hitem⟩ := merge_found pre post t value presetItem hset hne hc he hpre
  have hkey2 : (create presetItem.key t value).key = "CMAKE_PREFIX_PATH".toList
      ∨ (create presetItem.key t value).key = "CMAKE_FIND_ROOT_PATH".toList := hkey
  have hdef2 : defaultKitMacroValues.contains (create presetItem.key t value).key = false :=
    hdef
  unfold mergePresetCacheVariable
  simp only [hidx, hitem, hdef2, Bool.false_and, Bool.false_eq_true, if_false, hkey2, if_true,
    set_middle, foldl_append_paths, expandedValue]
  simp [toArgument, toArgumentWith, create, null, List.all_eq_not_any_not, bne]

theorem merge_path_list_found_example :
    mergePresetCacheVariable plainPresetHost plainKit
        (["-GNinja".toList] ++ (CMakeConfigItem.create
            (CMakeConfigItem.create "CMAKE_FIND_ROOT_PATH".toList .PATH "/b;/c".toList).key
            .PATH "/a;/b".toList).toArgument :: [])
        (CMakeConfigItem.create "CMAKE_FIND_ROOT_PATH".toList .PATH "/b;/c".toList)
      = ["-GNinja".toList] ++ "-DCMAKE_FIND_ROOT_PATH:PATH=/a;/b;/c".toList :: [] :=
  (merge_path_list_found plainPresetHost plainKit ["-GNinja".toList] [] .PATH "/a;/b".toList
    (CMakeConfigItem.create "CMAKE_FIND_ROOT_PATH".toList .PATH "/b;/c".toList)
    (Or.inr rfl) rfl (by decide)).1

open CMakeConfigItem in
/-- The branch of the key CMAKE_TOOLCHAIN_FILE when the first argument that
starts with `-DCMAKE_TOOLCHAIN_FILE` is an argument
`-DCMAKE_TOOLCHAIN_FILE:<type>=<value>` of the key itself: if the expanded
existing path and the preset path differ as file paths, the argument is
replaced in place by the argument of the preset variable, and if they are equal
the arguments are left as they are.  So
`-DCMAKE_TOOLCHAIN_FILE:FILEPATH=/a/tc.cmake` merged with the preset value
`/b/tc.cmake` carries `/b/tc.cmake`, at the same place, and there is no second
such argument. -/
theorem merge_toolchain_file_found (host : PresetHost) (k : Kit) (pre post : List QString)
    (t : ConfigType) (value : QString) (presetItem : CMakeConfigItem)
    (hkey : presetItem.key = "CMAKE_TOOLCHAIN_FILE".toList)
    (hset : presetItem.isUnset = false)
    (hpre : ∀ a ∈ pre, ('-' :: 'D' :: presetItem.key).isPrefixOf a = false) :
    (host.fromString (k.macroExpand value) ≠ host.fromUserInput presetItem.value →
      mergePresetCacheVariable host k
          (pre ++ (create presetItem.key t value).toArgument :: post) presetItem
        = pre ++ presetItem.toArgument :: post)
    ∧ (host.fromString (k.macroExpand value) = host.fromUserInput presetItem.value →
      mergePresetCacheVariable host k
          (pre ++ (create presetItem.key t value).toArgument :: post) presetItem
        = pre ++ (create presetItem.key t value).toArgument :: post)
    ∧ addCMakeConfigurePresetToInitialArguments plainPresetHost
        ["-GNinja".toList, "-DCMAKE_TOOLCHAIN_FILE:FILEPATH=/a/tc.cmake".toList,
          "-DCMAKE_BUILD_TYPE:STRING=Debug".toList]
        ⟨[{ PresetsDetails.ConfigurePreset.default with
              name := "p1".toList,
              cacheVariables := some
                [create "CMAKE_TOOLCHAIN_FILE".toList .FILEPATH "/b/tc.cmake".toList] }], []⟩
        (presetKit "p1".toList) [] []
      = ["-GNinja".toList, "-DCMAKE_TOOLCHAIN_FILE:FILEPATH=/b/tc.cmake".toList,
          "-DCMAKE_BUILD_TYPE:STRING=Debug".toList] := by
  have hfacts : presetItem.key ≠ [] ∧ (∀ c ∈ presetItem.key, c ≠ ':')
      ∧ (∀ c ∈ presetItem.key, c ≠ '=')
      ∧ defaultKitMacroValues.contains presetItem.key = false
      ∧ ¬ (presetItem.key = "CMAKE_PREFIX_PATH".toList
          ∨ presetItem.key = "CMAKE_FIND_ROOT_PATH".toList)
      ∧ presetItem.key = CMAKE_TOOLCHAIN_FILE := by
    rw [hkey]; decide
  obtain ⟨hne, hc, he, hdef, hnp, htc⟩ := hfacts
  obtain ⟨hidx, hitem⟩ := merge_found pre post t value presetItem hset hne hc he hpre
  have hdef2 : defaultKitMacroValues.contains (create presetItem.key t value).key = false :=
    hdef
  have hnp2 : ¬ ((create presetItem.key t value).key = "CMAKE_PREFIX_PATH".toList
      ∨ (create presetItem.key t value).key = "CMAKE_FIND_ROOT_PATH".toList) := hnp
  have htc2 : (create presetItem.key t value).key = CMAKE_TOOLCHAIN_FILE := htc
  have hval : (create presetItem.key t value).value = value := rfl
  have hdef3 : defaultKitMacroValues.contains CMAKE_TOOLCHAIN_FILE = false := by decide
  have hnp3 : ¬ (CMAKE_TOOLCHAIN_FILE = "CMAKE_PREFIX_PATH".toList
      ∨ CMAKE_TOOLCHAIN_FILE = "CMAKE_FIND_ROOT_PATH".toList) := by decide
  refine ⟨?_, ?_, by decide⟩
  · intro hdiff
    unfold mergePresetCacheVariable
    simp only [hidx, hitem, hdef2, hdef3, hnp3, Bool.false_and, Bool.false_eq_true, if_false,
      hnp2, htc2, if_true, set_middle, expandedValue, hval, hdiff, ne_eq, not_false_eq_true]
  · intro hsame
    unfold mergePresetCacheVariable
    simp only [hidx, hitem, hdef2, hdef3, hnp3, Bool.false_and, Bool.false_eq_true, if_false,
      hnp2, htc2, if_true, expandedValue, hval, hsame, ne_eq, not_true_eq_false]

theorem merge_toolchain_file_found_example :
    mergePresetCacheVariable plainPresetHost plainKit
        ([] ++ (CMakeConfigItem.create
            (CMakeConfigItem.create "CMAKE_TOOLCHAIN_FILE".toList .FILEPATH
              "/b/tc.cmake".toList).key .FILEPATH "/a/tc.cmake".toList).toArgument
          :: ["--trace".toList])
        (CMakeConfigItem.create "CMAKE_TOOLCHAIN_FILE".toList .FILEPATH "/b/tc.cmake".toList)
      = [] ++ (CMakeConfigItem.create "CMAKE_TOOLCHAIN_FILE".toList .FILEPATH
            "/b/tc.cmake".toList).toArgument :: ["--trace".toList] :=
  (merge_toolchain_file_found plainPresetHost plainKit [] ["--trace".toList] .FILEPATH
    "/a/tc.cmake".toList
    (CMakeConfigItem.create "CMAKE_TOOLCHAIN_FILE".toList .FILEPATH "/b/tc.cmake".toList)
    rfl rfl (by decide)).1 (by decide)

/-- C11 (what the code does): the existing argument is looked for as the
first argument that starts with `-D<key>`, so an argument of a longer key that
stands before the argument of the key is taken for it.  With the arguments
`-DCMAKE_FIND_ROOT_PATH_MODE_PROGRAM:STRING=NEVER`,
`-DCMAKE_FIND_ROOT_PATH:PATH=/sysroot` and the preset value `/vendor` of
CMAKE_FIND_ROOT_PATH, the first argument is replaced by
`-DCMAKE_FIND_ROOT_PATH:PATH=/vendor` and the existing argument of the key
stays `/sysroot`: no path is appended to it.  Likewise
`-DCMAKE_PREFIX_PATH_EXTRA:STRING=x`, `-DCMAKE_PREFIX_PATH:STRING=/qt;/extra`
with the preset value `/qt;/vendor` leave `/qt;/extra` as it is.  With the
argument of the key alone, `/qt;/extra` becomes `/qt;/extra;/vendor`. -/
theorem mergePreset_path_list_collision :
    addCMakeConfigurePresetToInitialArguments plainPresetHost
        ["-DQTC_CMAKE_PRESET:STRING=p1".toList,
          "-DCMAKE_FIND_ROOT_PATH_MODE_PROGRAM:STRING=NEVER".toList,
          "-DCMAKE_FIND_ROOT_PATH:PATH=/sysroot".toList]
        ⟨[{ PresetsDetails.ConfigurePreset.default with
              name := "p1".toList,
              cacheVariables := some
                [CMakeConfigItem.create "CMAKE_FIND_ROOT_PATH".toList .PATH "/vendor".toList] }],
          []⟩
        (presetKit "p1".toList) [] []
      = ["-DCMAKE_FIND_ROOT_PATH:PATH=/vendor".toList,
          "-DCMAKE_FIND_ROOT_PATH:PATH=/sysroot".toList]
    ∧ addCMakeConfigurePresetToInitialArguments plainPresetHost
        ["-DQTC_CMAKE_PRESET:STRING=p1".toList, "-DCMAKE_PREFIX_PATH_EXTRA:STRING=x".toList,
          "-DCMAKE_PREFIX_PATH:STRING=/qt;/extra".toList]
        ⟨[{ PresetsDetails.ConfigurePreset.default with
              name := "p1".toList,
              cacheVariables := some
                [CMakeConfigItem.create "CMAKE_PREFIX_PATH".toList .STRING
                  "/qt;/vendor".toList] }], []⟩
        (presetKit "p1".toList) [] []
      = ["-DCMAKE_PREFIX_PATH:STRING=/qt;/vendor".toList,
          "-DCMAKE_PREFIX_PATH:STRING=/qt;/extra".toList]
    ∧ addCMakeConfigurePresetToInitialArguments plainPresetHost
        ["-DQTC_CMAKE_PRESET:STRING=p1".toList, "-DCMAKE_PREFIX_PATH:STRING=/qt;/extra".toList]
        ⟨[{ PresetsDetails.ConfigurePreset.default with
              name := "p1".toList,
              cacheVariables := some
                [CMakeConfigItem.create "CMAKE_PREFIX_PATH".toList .STRING
                  "/qt;/vendor".toList] }], []⟩
        (presetKit "p1".toList) [] []
      = ["-DCMAKE_PREFIX_PATH:STRING=/qt;/extra;/vendor".toList] := by
  decide

/-- C12 (what the code does): the existing argument is looked for as the
first argument that starts with `-DCMAKE_TOOLCHAIN_FILE`, so an argument of a
longer key that stands before the argument of the key is taken for it.  With
the arguments `-DCMAKE_TOOLCHAIN_FILE_X:STRING=1`,
`-DCMAKE_TOOLCHAIN_FILE:FILEPATH=/a/tc.cmake` and the preset value
`/b/tc.cmake`, the first argument is replaced by
`-DCMAKE_TOOLCHAIN_FILE:FILEPATH=/b/tc.cmake` and the existing argument still
carries `/a/tc.cmake`: it is not replaced, and there are two
CMAKE_TOOLCHAIN_FILE arguments.  With the argument of the key alone,
`/a/tc.cmake` is replaced in place by `/b/tc.cmake`. -/
theorem mergePreset_toolchain_file_collision :
    addCMakeConfigurePresetToInitialArguments plainPresetHost
        ["-DQTC_CMAKE_PRESET:STRING=p1".toList, "-DCMAKE_TOOLCHAIN_FILE_X:STRING=1".toList,
          "-DCMAKE_TOOLCHAIN_FILE:FILEPATH=/a/tc.cmake".toList]
        ⟨[{ PresetsDetails.ConfigurePreset.default with
              name := "p1".toList,
              cacheVariables := some
                [CMakeConfigItem.create "CMAKE_TOOLCHAIN_FILE".toList .FILEPATH
                  "/b/tc.cmake".toList] }], []⟩
        (presetKit "p1".toList) [] []
      = ["-DCMAKE_TOOLCHAIN_FILE:FILEPATH=/b/tc.cmake".toList,
          "-DCMAKE_TOOLCHAIN_FILE:FILEPATH=/a/tc.cmake".toList]
    ∧ addCMakeConfigurePresetToInitialArguments plainPresetHost
        ["-DQTC_CMAKE_PRESET:STRING=p1".toList, "-GNinja".toList,
          "-DCMAKE_TOOLCHAIN_FILE:FILEPATH=/a/tc.cmake".toList]
        ⟨[{ PresetsDetails.ConfigurePreset.default with
              name := "p1".toList,
              cacheVariables := some
                [CMakeConfigItem.create "CMAKE_TOOLCHAIN_FILE".toList .FILEPATH
                  "/b/tc.cmake".toList] }], []⟩
        (presetKit "p1".toList) [] []
      = ["-GNinja".toList, "-DCMAKE_TOOLCHAIN_FILE:FILEPATH=/b/tc.cmake".toList] := by
  decide

/-- C13 (what the code does): an existing argument whose key only starts with
the key of the preset variable is taken for the argument of the variable.  With
the arguments `-DFOOBAR:STRING=2` and the preset cache variable `FOO` = `1` the
merge gives `-DFOO:STRING=1` alone: the `FOOBAR` argument is replaced and no
argument is appended. -/
theorem mergePreset_key_collision :
    mergePresetCacheVariable plainPresetHost (presetKit "p1".toList)
        ["-DFOOBAR:STRING=2".toList]
        (CMakeConfigItem.create "FOO".toList .STRING "1".toList)
      = ["-DFOO:STRING=1".toList]
    ∧ addCMakeConfigurePresetToInitialArguments plainPresetHost
        ["-DQTC_CMAKE_PRESET:STRING=p1".toList, "-DFOOBAR:STRING=2".toList]
        ⟨[{ PresetsDetails.ConfigurePreset.default with
              name := "p1".toList,
              cacheVariables := some
                [CMakeConfigItem.create "FOO".toList .STRING "1".toList] }], []⟩
        (presetKit "p1".toList) [] []
      = ["-DFOO:STRING=1".toList] := by
  decide

/-- When no argument starts with `-D<key>` the argument of the preset variable
is appended and the arguments before it are left as they are. -/
theorem merge_appends (host : PresetHost) (k : Kit) (args : List QString)
    (presetItem : CMakeConfigItem) (hset : presetItem.isUnset = false)
    (hc : ∀ c ∈ presetItem.key, c ≠ ':')
    (hno : ∀ a ∈ args, ('-' :: 'D' :: presetItem.key).isPrefixOf a = false) :
    mergePresetCacheVariable host k args presetItem = args ++ [presetItem.toArgument] := by
  have hnt := CMakeConfigItem.argNoType_of_set presetItem hset hc
  unfold mergePresetCacheVariable
  simp only [hnt, findIdx_none _ args hno]

/-- What one round of the cache variable loop can do to the arguments: change
the first argument that starts with the searched text, leave them, or append
one argument when none starts with it. -/
theorem merge_step_shape (host : PresetHost) (k : Kit) (l : List QString)
    (presetItem : CMakeConfigItem) :
    (∃ i x, l.findIdx? (fun arg =>
          (presetItem.toArgument.takeWhile (fun c => decide (c ≠ ':'))).isPrefixOf arg) = some i
        ∧ mergePresetCacheVariable host k l presetItem = l.set i x)
    ∨ mergePresetCacheVariable host k l presetItem = l
    ∨ (l.findIdx? (fun arg =>
          (presetItem.toArgument.takeWhile (fun c => decide (c ≠ ':'))).isPrefixOf arg) = none
        ∧ mergePresetCacheVariable host k l presetItem = l ++ [presetItem.toArgument]) := by
  unfold mergePresetCacheVariable
  dsimp only
  cases hidx : l.findIdx? (fun arg =>
      (presetItem.toArgument.takeWhile (fun c => decide (c ≠ ':'))).isPrefixOf arg) with
  | none => exact Or.inr (Or.inr ⟨rfl, rfl⟩)
  | some i =>
    dsimp only
    split
    · exact Or.inr (Or.inl rfl)
    · split
      · exact Or.inl ⟨i, _, rfl, rfl⟩
      · split
        · split
          · exact Or.inl ⟨i, _, rfl, rfl⟩
          · exact Or.inr (Or.inl rfl)
        · split
          · split
            · exact Or.inl ⟨i, _, rfl, rfl⟩
            · exact Or.inr (Or.inl rfl)
          · split
            · exact Or.inl ⟨i, _, rfl, rfl⟩
            · exact Or.inr (Or.inl rfl)

/-- The text before the first `:` of an argument starts with `-D` or `-U`. -/
theorem argNoType_head (i : CMakeConfigItem) :
    ∃ x rest, (x = 'D' ∨ x = 'U')
      ∧ i.toArgument.takeWhile (fun c => decide (c ≠ ':')) = '-' :: x :: rest := by
  cases h : i.isUnset with
  | true =>
    refine ⟨'U', i.key.takeWhile (fun c => decide (c ≠ ':')), Or.inr rfl, ?_⟩
    simp [CMakeConfigItem.toArgument, CMakeConfigItem.toArgumentWith, h, List.takeWhile_cons]
  | false =>
    refine ⟨'D', (i.key ++ ':' :: (CMakeConfigItem.typeToTypeString i.type ++ '=' :: i.value)).takeWhile
      (fun c => decide (c ≠ ':')), Or.inl rfl, ?_⟩
    simp [CMakeConfigItem.toArgument, CMakeConfigItem.toArgumentWith, h, List.takeWhile_cons]

theorem getElem?_middle {α : Type} (front F back : List α) (i : Nat)
    (h1 : front.length ≤ i) (h2 : i < front.length + F.length) :
    ∃ f ∈ F, (front ++ F ++ back)[i]? = some f := by
  have h3 : i - front.length < F.length := by omega
  refine ⟨F[i - front.length], List.getElem_mem _, ?_⟩
  rw [List.append_assoc, List.getElem?_append_right h1, List.getElem?_append_left h3,
    List.getElem?_eq_getElem h3]

theorem not_prefix_of_flagLike (P f : QString) (x : Char) (rest : QString)
    (hx : x = 'D' ∨ x = 'U') (hP : P = '-' :: x :: rest) (hf : isFlagLike f = true) :
    P.isPrefixOf f = false := by
  subst hP
  cases f with
  | nil => rfl
  | cons a f =>
    cases f with
    | nil => simp [List.isPrefixOf]
    | cons b f =>
      by_cases ha : a = '-'
      · subst ha
        rcases hx with rfl | rfl
        · by_cases hb : b = 'D'
          · subst hb; simp [isFlagLike, List.isPrefixOf] at hf
          · simp [List.isPrefixOf]
            intro h; exact absurd h.symm hb
        · by_cases hb : b = 'U'
          · subst hb; simp [isFlagLike, List.isPrefixOf] at hf
          · simp [List.isPrefixOf]
            intro h; exact absurd h.symm hb
      · simp [List.isPrefixOf]
        intro h; exact absurd h.symm ha

/-- One round of the cache variable loop leaves a block of flag arguments
where it is. -/
theorem merge_step_keeps (host : PresetHost) (k : Kit) (front F back : List QString)
    (presetItem : CMakeConfigItem) (hF : ∀ f ∈ F, isFlagLike f = true) :
    ∃ front2 back2,
      mergePresetCacheVariable host k (front ++ F ++ back) presetItem = front2 ++ F ++ back2
        ∧ front2.length = front.length := by
  obtain ⟨x, rest, hx, hP⟩ := argNoType_head presetItem
  rcases merge_step_shape host k (front ++ F ++ back) presetItem with
    ⟨i, y, hidx, hres⟩ | hres | ⟨_, hres⟩
  · have hi := List.findIdx?_of_eq_some hidx
    by_cases h1 : i < front.length
    · refine ⟨front.set i y, back, ?_, by simp⟩
      rw [hres, List.append_assoc, List.set_append_left _ _ h1, List.append_assoc]
    · by_cases h2 : i < front.length + F.length
      · exfalso
        obtain ⟨f, hfF, hget⟩ := getElem?_middle front F back i (by omega) h2
        rw [hget] at hi
        have := not_prefix_of_flagLike _ f x rest hx hP (hF f hfF)
        simp only at hi
        rw [this] at hi
        exact absurd hi (by decide)
      · refine ⟨front, back.set (i - (front ++ F).length) y, ?_, rfl⟩
        rw [hres, List.set_append_right _ _ (by simp; omega)]
  · exact ⟨front, back, hres, rfl⟩
  · exact ⟨front, back ++ [presetItem.toArgument], by rw [hres, List.append_assoc], rfl⟩

theorem merge_fold_keeps (host : PresetHost) (k : Kit) (f : CMakeConfigItem → CMakeConfigItem)
    (cache : CMakeConfig) (front F back : List QString) (hF : ∀ f ∈ F, isFlagLike f = true) :
    ∃ front2 back2,
      cache.foldl (fun args presetItemRaw => mergePresetCacheVariable host k args
          (f presetItemRaw)) (front ++ F ++ back) = front2 ++ F ++ back2
        ∧ front2.length = front.length := by
  induction cache generalizing front back with
  | nil => exact ⟨front, back, rfl, rfl⟩
  | cons c cache ih =>
    obtain ⟨f1, b1, h1, hl1⟩ := merge_step_keeps host k front F back (f c) hF
    obtain ⟨f2, b2, h2, hl2⟩ := ih f1 b1
    refine ⟨f2, b2, ?_, by rw [hl2, hl1]⟩
    rw [List.foldl_cons, h1, h2]

theorem presetFlagArguments_eq (p : ConfigurePreset) :
    presetFlagArguments p
      = ((((flagArgument (p.warnings.bind (·.dev)) "-Wdev".toList "-Wno-dev".toList
          ++ flagArgument (p.warnings.bind (·.deprecated)) "-Wdeprecated".toList
              "-Wno-deprecated".toList)
          ++ flagArgumentWhen (p.warnings.bind (·.uninitialized)) true
              "--warn-uninitialized".toList)
          ++ flagArgumentWhen (p.warnings.bind (·.unusedCli)) false
              " --no-warn-unused-cli".toList)
          ++ flagArgumentWhen (p.warnings.bind (·.systemVars)) true "--check-system-vars".toList)
        ++ (flagArgument (p.errors.bind (·.dev)) "-Werror=dev".toList "-Wno-error=dev".toList
          ++ flagArgument (p.errors.bind (·.deprecated)) "-Werror=deprecated".toList
              "-Wno-error=deprecated".toList)
        ++ ((flagArgumentWhen (p.debug.bind (·.find)) true "--debug-find".toList
          ++ flagArgumentWhen (p.debug.bind (·.tryCompile)) true "--debug-trycompile".toList)
          ++ flagArgumentWhen (p.debug.bind (·.output)) true "--debug-output".toList) := by
  obtain ⟨name, tf, idir, cv, w, e, d⟩ := p
  rcases w with _ | ⟨(_ | _ | _), (_ | _ | _), wu, wc, ws⟩ <;>
    rcases e with _ | ⟨(_ | _ | _), (_ | _ | _)⟩ <;>
    rcases d with _ | ⟨dout, dtry, dfind⟩ <;> rfl

theorem mem_flagArgument (o : Option Bool) (a b f : QString) (h : f ∈ flagArgument o a b) :
    f = a ∨ f = b := by
  rcases o with _ | _ | _ <;> simp [flagArgument] at h <;> simp [h]

theorem mem_flagArgumentWhen (o : Option Bool) (w : Bool) (a f : QString)
    (h : f ∈ flagArgumentWhen o w a) : f = a := by
  unfold flagArgumentWhen at h
  split at h
  · simpa using h
  · simp at h

theorem presetFlagArguments_flagLike (p : ConfigurePreset) :
    ∀ f ∈ presetFlagArguments p, isFlagLike f = true := by
  intro f hf
  rw [presetFlagArguments_eq] at hf
  simp only [List.mem_append, or_assoc] at hf
  rcases hf with h | h | h | h | h | h | h | h | h | h
  · rcases mem_flagArgument _ _ _ _ h with rfl | rfl <;> decide
  · rcases mem_flagArgument _ _ _ _ h with rfl | rfl <;> decide
  · rw [mem_flagArgumentWhen _ _ _ _ h]; decide
  · rw [mem_flagArgumentWhen _ _ _ _ h]; decide
  · rw [mem_flagArgumentWhen _ _ _ _ h]; decide
  · rcases mem_flagArgument _ _ _ _ h with rfl | rfl <;> decide
  · rcases mem_flagArgument _ _ _ _ h with rfl | rfl <;> decide
  · rw [mem_flagArgumentWhen _ _ _ _ h]; decide
  · rw [mem_flagArgumentWhen _ _ _ _ h]; decide
  · rw [mem_flagArgumentWhen _ _ _ _ h]; decide

/-- C14: the arguments of the flags of a configure preset are, in this order,
one argument for each set flag: `-Wdev` or `-Wno-dev` for warnings.dev true or
false, `-Wdeprecated` or `-Wno-deprecated` for warnings.deprecated, (the
arguments of warnings.uninitialized, unusedCli and systemVars,) `-Werror=dev`
or `-Wno-error=dev` for errors.dev, `-Werror=deprecated` or
`-Wno-error=deprecated` for errors.deprecated, and `--debug-find`,
`--debug-trycompile`, `--debug-output` for debug.find, debug.tryCompile and
debug.output true; an absent flag gives no argument.  For a preset found by
name the merge appends exactly these arguments to the arguments without the
marker, and the merge of the cache variables leaves them where they are. -/
theorem mergePreset_flag_arguments (host : PresetHost) (args : List QString)
    (project : CMakeProject) (k : Kit) (env : Environment) (buildDirectory : QString)
    (preset : ConfigurePreset) (hk : k.cmakePresetConfigItem.isNull = false)
    (hfound : project.configurePresets.find?
        (fun p => p.name == k.cmakePresetConfigItem.expandedValue k) = some preset) :
    presetFlagArguments preset
      = ((((flagArgument (preset.warnings.bind (·.dev)) "-Wdev".toList "-Wno-dev".toList
          ++ flagArgument (preset.warnings.bind (·.deprecated)) "-Wdeprecated".toList
              "-Wno-deprecated".toList)
          ++ flagArgumentWhen (preset.warnings.bind (·.uninitialized)) true
              "--warn-uninitialized".toList)
          ++ flagArgumentWhen (preset.warnings.bind (·.unusedCli)) false
              " --no-warn-unused-cli".toList)
          ++ flagArgumentWhen (preset.warnings.bind (·.systemVars)) true
              "--check-system-vars".toList)
        ++ (flagArgument (preset.errors.bind (·.dev)) "-Werror=dev".toList
              "-Wno-error=dev".toList
          ++ flagArgument (preset.errors.bind (·.deprecated)) "-Werror=deprecated".toList
              "-Wno-error=deprecated".toList)
        ++ ((flagArgumentWhen (preset.debug.bind (·.find)) true "--debug-find".toList
          ++ flagArgumentWhen (preset.debug.bind (·.tryCompile)) true
              "--debug-trycompile".toList)
          ++ flagArgumentWhen (preset.debug.bind (·.output)) true "--debug-output".toList)
    ∧ (∃ front back,
        addCMakeConfigurePresetToInitialArguments host args project k env buildDirectory
          = front ++ presetFlagArguments preset ++ back
        ∧ front.length
          = (args.filter fun item => !(item == k.cmakePresetConfigItem.toArgument)).length)
    ∧ (mergedCacheVariables host project k env buildDirectory = [] →
        addCMakeConfigurePresetToInitialArguments host args project k env buildDirectory
          = (args.filter fun item => !(item == k.cmakePresetConfigItem.toArgument))
            ++ presetFlagArguments preset) := by
  refine ⟨presetFlagArguments_eq preset, ?_, ?_⟩
  · have key := merge_fold_keeps host k
      (fun presetItemRaw => { presetItemRaw with
        value := host.expand
          (host.updateInstallDir
            (host.updateToolchainFile preset env project.projectDirectory buildDirectory)
            env project.projectDirectory)
          env project.projectDirectory presetItemRaw.value })
      ((host.updateInstallDir
          (host.updateToolchainFile preset env project.projectDirectory buildDirectory)
          env project.projectDirectory).cacheVariables.getD [])
      (args.filter fun item => !(item == k.cmakePresetConfigItem.toArgument))
      (presetFlagArguments preset) [] (presetFlagArguments_flagLike preset)
    obtain ⟨front, back, h1, h2⟩ := key
    refine ⟨front, back, ?_, h2⟩
    simp only [List.append_nil] at h1
    simp only [addCMakeConfigurePresetToInitialArguments, hk, Bool.false_eq_true, if_false,
      hfound, Option.getD_some]
    exact h1
  · intro hc
    unfold mergedCacheVariables namedConfigurePreset at hc
    rw [hfound] at hc
    simp only [Option.getD_some] at hc
    simp only [addCMakeConfigurePresetToInitialArguments, hk, Bool.false_eq_true, if_false,
      hfound, Option.getD_some, hc, List.foldl_nil]

theorem mergePreset_flag_arguments_witness :
    addCMakeConfigurePresetToInitialArguments plainPresetHost
        ["-DQTC_CMAKE_PRESET:STRING=p1".toList, "-GNinja".toList]
        ⟨[⟨"p1".toList, none, none, none, some ⟨some false, none, none, none, none⟩,
            some ⟨none, some true⟩, some ⟨none, some true, some false⟩⟩], []⟩
        (presetKit "p1".toList) [] []
      = (["-DQTC_CMAKE_PRESET:STRING=p1".toList, "-GNinja".toList].filter fun item =>
            !(item == (presetKit "p1".toList).cmakePresetConfigItem.toArgument))
          ++ presetFlagArguments
            ⟨"p1".toList, none, none, none, some ⟨some false, none, none, none, none⟩,
              some ⟨none, some true⟩, some ⟨none, some true, some false⟩⟩ :=
  (mergePreset_flag_arguments plainPresetHost _ _ (presetKit "p1".toList) [] [] _ rfl
    (by decide)).2.2 (by decide)

/-- C15: when the kit carries the marker but the project has no configure
preset with the name of the marker, the result of the merge is the argument
list without the occurrences of the marker argument, everything else as it was
and in the same order; when the kit carries no marker the argument list is
returned as it is.  (The host leaves a preset without toolchain file and
without install directory as it is.) -/
theorem mergePreset_without_preset (host : PresetHost) (args : List QString)
    (project : CMakeProject) (k : Kit) (env : Environment) (buildDirectory : QString)
    (hT : ∀ p e s b, p.toolchainFile = none → host.updateToolchainFile p e s b = p)
    (hI : ∀ p e s, p.installDir = none → host.updateInstallDir p e s = p) :
    (k.cmakePresetConfigItem.isNull = true →
      addCMakeConfigurePresetToInitialArguments host args project k env buildDirectory = args)
    ∧ (k.cmakePresetConfigItem.isNull = false →
        (∀ preset ∈ project.configurePresets,
          preset.name ≠ k.cmakePresetConfigItem.expandedValue k) →
      addCMakeConfigurePresetToInitialArguments host args project k env buildDirectory
        = args.filter fun item => !(item == k.cmakePresetConfigItem.toArgument)) := by
  constructor
  · intro hk
    simp only [addCMakeConfigurePresetToInitialArguments, hk, if_true]
  · intro hk hno
    have hfind : project.configurePresets.find?
        (fun p => p.name == k.cmakePresetConfigItem.expandedValue k) = none := by
      rw [List.find?_eq_none]
      intro p hp
      simpa using hno p hp
    have hnamed : namedConfigurePreset project k = ConfigurePreset.default := by
      unfold namedConfigurePreset
      rw [hfind]; rfl
    apply merge_without_additions host args project k env buildDirectory hk
    · rw [hnamed]; decide
    · unfold mergedCacheVariables
      rw [hnamed, hT _ _ _ _ rfl, hI _ _ _ rfl]
      rfl

theorem mergePreset_without_preset_witness :
    addCMakeConfigurePresetToInitialArguments plainPresetHost
        ["-GNinja".toList, "-DQTC_CMAKE_PRESET:STRING=gone".toList, "--trace".toList,
          "-DQTC_CMAKE_PRESET:STRING=gone".toList]
        ⟨[⟨"p1".toList, none, none, none, some ⟨some true, none, none, none, none⟩, none,
            none⟩], []⟩
        (presetKit "gone".toList) [] []
      = ["-GNinja".toList, "-DQTC_CMAKE_PRESET:STRING=gone".toList, "--trace".toList,
          "-DQTC_CMAKE_PRESET:STRING=gone".toList].filter fun item =>
            !(item == (presetKit "gone".toList).cmakePresetConfigItem.toArgument) :=
  (mergePreset_without_preset plainPresetHost _ _ (presetKit "gone".toList) [] []
    (fun _ _ _ _ _ => rfl) (fun _ _ _ _ => rfl)).2 (by decide) (by decide)

/-! ## The default initial command -/

/-- The command is the generator arguments, the optional build type argument
and a rest that does not depend on the build type. -/
theorem defaultInitialCMakeCommand_eq (k : CommandKit) (settings : CommandSettings)
    (buildType : QString) (hk : k.hasCMakeTool = true) :
    defaultInitialCMakeCommand k settings buildType
      = k.generatorArguments
        ++ (if buildType ≠ [] ∧ k.isMultiConfigGenerator = false then
              ["-DCMAKE_BUILD_TYPE:STRING=".toList ++ buildType] else [])
        ++ (if settings.packageManagerAutoSetup then
              [getPackageManagerAutoSetupParameter.toArgument] else [])
        ++ (if k.sysRoot ≠ [] ∧ k.isIos = false then
              ["-DCMAKE_SYSROOT:PATH=".toList ++ k.sysRoot]
                ++ (match k.cxxToolchainTargetTriple with
                    | some targetTriple =>
                        ["-DCMAKE_C_COMPILER_TARGET:STRING=".toList ++ targetTriple,
                         "-DCMAKE_CXX_COMPILER_TARGET:STRING=".toList ++ targetTriple]
                    | none => [])
            else [])
        ++ ["-DCMAKE_COLOR_DIAGNOSTICS:BOOL=ON".toList]
        ++ (match settings.maintenanceTool with
            | some tool => ["-DQT_MAINTENANCE_TOOL:FILEPATH=".toList ++ tool]
            | none => [])
        ++ toArgumentsList k
        ++ k.additionalConfiguration := by
  unfold defaultInitialCMakeCommand
  simp only [hk, Bool.not_true, Bool.false_eq_true, if_false]
  cases hb : buildType.isEmpty <;> cases hm : k.isMultiConfigGenerator <;>
    cases hp : settings.packageManagerAutoSetup <;> cases hi : k.isIos <;>
    cases hs : k.sysRoot.isEmpty <;> cases ht : k.cxxToolchainTargetTriple <;>
    cases hmt : settings.maintenanceTool <;>
    simp_all [List.isEmpty_iff]

/-- C16: for every kit that has a CMake tool, every settings and every build
type `b`: when `b` is not empty and the generator of the kit is not
multi-config, the command is the command for the empty build type with the
one argument `-DCMAKE_BUILD_TYPE:STRING=<b>` put in directly after the
generator arguments; otherwise the command is the command for the empty build
type, so nothing is added.  The command always starts with the generator
arguments. -/
theorem initialCommand_build_type (k : CommandKit) (settings : CommandSettings)
    (b : QString) (hk : k.hasCMakeTool = true) :
    ((b ≠ [] ∧ k.isMultiConfigGenerator = false) →
      defaultInitialCMakeCommand k settings b
        = k.generatorArguments ++ ["-DCMAKE_BUILD_TYPE:STRING=".toList ++ b]
          ++ (defaultInitialCMakeCommand k settings []).drop k.generatorArguments.length)
    ∧ (¬ (b ≠ [] ∧ k.isMultiConfigGenerator = false) →
      defaultInitialCMakeCommand k settings b = defaultInitialCMakeCommand k settings [])
    ∧ k.generatorArguments <+: defaultInitialCMakeCommand k settings [] := by
  have h0 := defaultInitialCMakeCommand_eq k settings [] hk
  have hb := defaultInitialCMakeCommand_eq k settings b hk
  simp only [ne_eq, not_true_eq_false, false_and, if_false, List.append_nil] at h0
  refine ⟨?_, ?_, ?_⟩
  · intro hc
    rw [hb, h0, if_pos hc]
    simp only [List.append_assoc, List.drop_left]
  · intro hc
    rw [hb, h0, if_neg hc, List.append_nil]
  · rw [h0]
    simp only [List.append_assoc]
    exact List.prefix_append _ _

theorem initialCommand_build_type_witness :
    defaultInitialCMakeCommand
        ⟨true, ["-GNinja".toList], false, false, [], none, [], ["--trace".toList]⟩
        ⟨false, none⟩ "Debug".toList
      = ["-GNinja".toList] ++ ["-DCMAKE_BUILD_TYPE:STRING=".toList ++ "Debug".toList]
        ++ (defaultInitialCMakeCommand
            ⟨true, ["-GNinja".toList], false, false, [], none, [], ["--trace".toList]⟩
            ⟨false, none⟩ []).drop ["-GNinja".toList].length :=
  (initialCommand_build_type
    ⟨true, ["-GNinja".toList], false, false, [], none, [], ["--trace".toList]⟩
    ⟨false, none⟩ "Debug".toList rfl).1 (by decide)

/-- C17 (as the code has it): the command has more than the listed parts when
the maintenance tool is set in the settings (one more argument after the colour
diagnostics), and less when the sysroot is set but the kit has no C++
toolchain (the sysroot argument comes without the two compiler target
arguments). -/
theorem initialCommand_other_parts :
    (defaultInitialCMakeCommand
        ⟨true, ["-GNinja".toList], false, false, [], some "arm".toList, [], []⟩
        ⟨false, some "/opt/MaintenanceTool".toList⟩ "Debug".toList
      = ["-GNinja".toList, "-DCMAKE_BUILD_TYPE:STRING=Debug".toList,
          "-DCMAKE_COLOR_DIAGNOSTICS:BOOL=ON".toList,
          "-DQT_MAINTENANCE_TOOL:FILEPATH=/opt/MaintenanceTool".toList]
      ∧ specInitialCommand
        ⟨true, ["-GNinja".toList], false, false, [], some "arm".toList, [], []⟩
        ⟨false, some "/opt/MaintenanceTool".toList⟩ "Debug".toList "arm".toList
      = ["-GNinja".toList, "-DCMAKE_BUILD_TYPE:STRING=Debug".toList,
          "-DCMAKE_COLOR_DIAGNOSTICS:BOOL=ON".toList])
    ∧ defaultInitialCMakeCommand
        ⟨true, ["-GNinja".toList], false, false, "/sys".toList, none, [], []⟩
        ⟨false, none⟩ []
      = ["-GNinja".toList, "-DCMAKE_SYSROOT:PATH=/sys".toList,
          "-DCMAKE_COLOR_DIAGNOSTICS:BOOL=ON".toList] := by
  decide

/-- C17 (amended): for every kit that has a CMake tool, the argument list of
the command is exactly the concatenation, in this order, of: the generator
arguments of the kit; the CMAKE_BUILD_TYPE argument when the build type is not
empty and the generator is not multi-config; the package manager auto setup
argument when enabled in the settings; when the sysroot is not empty and the
kit is not iOS, the CMAKE_SYSROOT argument, followed by the
CMAKE_C_COMPILER_TARGET and CMAKE_CXX_COMPILER_TARGET arguments when the kit
has a C++ toolchain; `-DCMAKE_COLOR_DIAGNOSTICS:BOOL=ON`; the
QT_MAINTENANCE_TOOL argument when the maintenance tool is set in the settings;
the kit configuration as arguments; the additional arguments of the kit.  When
no maintenance tool is set and the kit has a C++ toolchain this is the list of
the spec. -/
theorem initialCommand_parts (k : CommandKit) (settings : CommandSettings)
    (buildType : QString) (hk : k.hasCMakeTool = true) :
    defaultInitialCMakeCommand k settings buildType
      = k.generatorArguments
        ++ (if buildType ≠ [] ∧ k.isMultiConfigGenerator = false then
              ["-DCMAKE_BUILD_TYPE:STRING=".toList ++ buildType] else [])
        ++ (if settings.packageManagerAutoSetup then
              [getPackageManagerAutoSetupParameter.toArgument] else [])
        ++ (if k.sysRoot ≠ [] ∧ k.isIos = false then
              ["-DCMAKE_SYSROOT:PATH=".toList ++ k.sysRoot]
                ++ (match k.cxxToolchainTargetTriple with
                    | some targetTriple =>
                        ["-DCMAKE_C_COMPILER_TARGET:STRING=".toList ++ targetTriple,
                         "-DCMAKE_CXX_COMPILER_TARGET:STRING=".toList ++ targetTriple]
                    | none => [])
            else [])
        ++ ["-DCMAKE_COLOR_DIAGNOSTICS:BOOL=ON".toList]
        ++ (match settings.maintenanceTool with
            | some tool => ["-DQT_MAINTENANCE_TOOL:FILEPATH=".toList ++ tool]
            | none => [])
        ++ toArgumentsList k
        ++ k.additionalConfiguration
    ∧ (∀ targetTriple, settings.maintenanceTool = none →
        k.cxxToolchainTargetTriple = some targetTriple →
        defaultInitialCMakeCommand k settings buildType
          = specInitialCommand k settings buildType targetTriple) := by
  refine ⟨defaultInitialCMakeCommand_eq k settings buildType hk, ?_⟩
  intro targetTriple hm ht
  rw [defaultInitialCMakeCommand_eq k settings buildType hk, hm, ht]
  simp only [specInitialCommand, List.append_nil]
  rfl

theorem initialCommand_parts_witness :
    defaultInitialCMakeCommand
        ⟨true, ["-GNinja".toList], false, false, "/sys".toList, some "arm".toList,
          [CMakeConfigItem.create "QT_HOST_PATH".toList .PATH "/qt".toList],
          ["--trace".toList]⟩
        ⟨true, none⟩ "Debug".toList
      = specInitialCommand
        ⟨true, ["-GNinja".toList], false, false, "/sys".toList, some "arm".toList,
          [CMakeConfigItem.create "QT_HOST_PATH".toList .PATH "/qt".toList],
          ["--trace".toList]⟩
        ⟨true, none⟩ "Debug".toList "arm".toList :=
  (initialCommand_parts
    ⟨true, ["-GNinja".toList], false, false, "/sys".toList, some "arm".toList,
      [CMakeConfigItem.create "QT_HOST_PATH".toList .PATH "/qt".toList], ["--trace".toList]⟩
    ⟨true, none⟩ "Debug".toList rfl).2 "arm".toList rfl rfl

/-! ## Errors and configuration changes of the build system -/

namespace CMakeBuildSystem

/-- What `setError` emits for a message that is not empty: `enabledChanged`
exactly when an error was already stored. -/
theorem setError_emitted (bs : CMakeBuildSystem) (message : QString) (hm : message ≠ []) :
    setError bs message
      = ⟨message,
         bs.emitted ++ (if bs.m_error ≠ [] then [Signal.enabledChanged] else [])
          ++ [Signal.taskAdded .Error message, Signal.errorOccurred message],
         bs.m_configurationChanges⟩ := by
  have hme : message.isEmpty = false := by
    cases message with
    | nil => exact absurd rfl hm
    | cons _ _ => rfl
  unfold setError
  simp only [hme, Bool.false_eq_true, if_false, Bool.not_false]
  by_cases h1 : bs.m_error = message
  · have h2 : bs.m_error ≠ [] := by rw [h1]; exact hm
    have h3 : bs.m_error.isEmpty = false := by rw [h1]; exact hme
    simp [h1, hm, hme]
  · by_cases h2 : bs.m_error = []
    · have h4 : ¬ ([] : QString) = message := fun h => hm h.symm
      simp [h2, hm, h4]
    · have h3 : bs.m_error.isEmpty = false := by
        cases hb : bs.m_error with
        | nil => exact absurd hb h2
        | cons _ _ => rfl
      simp [h1, h2, h3, hm]

/-- C18 (what the code does): with no error stored, `setError` with a message
that is not empty stores it and emits no `enabledChanged`; with an error
already stored, it emits `enabledChanged` although the build system was
disabled before and after.  `clearError` on a stored error emits
`enabledChanged`. -/
theorem setError_enabledChanged_inverted :
    setError ⟨[], [], []⟩ "boom".toList
      = ⟨"boom".toList,
         [Signal.taskAdded .Error "boom".toList, Signal.errorOccurred "boom".toList], []⟩
    ∧ setError ⟨"boom".toList, [], []⟩ "boom".toList
      = ⟨"boom".toList,
         [Signal.enabledChanged, Signal.taskAdded .Error "boom".toList,
          Signal.errorOccurred "boom".toList], []⟩
    ∧ clearError ⟨"boom".toList, [], []⟩ .False = ⟨[], [Signal.enabledChanged], []⟩ := by
  decide

/-- C20: for every list of configuration changes, the arguments for the
current configuration are exactly the arguments of the changes that are not
marked initial, in their order, and the arguments for the initial configuration
exactly those of the changes marked initial; a change marked initial is in the
first selection only and any other change in the second only, and the lengths
of the two argument lists add up to the number of changes. -/
theorem configurationChangesArguments_split (bs : CMakeBuildSystem) :
    bs.configurationChangesArguments false
      = (bs.m_configurationChanges.filter fun ci => ci.isInitial = false).map
          CMakeConfigItem.toArgument
    ∧ bs.configurationChangesArguments true
      = (bs.m_configurationChanges.filter fun ci => ci.isInitial = true).map
          CMakeConfigItem.toArgument
    ∧ (∀ ci ∈ bs.m_configurationChanges,
        (ci.isInitial = true
          ∧ ci ∈ bs.m_configurationChanges.filter (fun ci => ci.isInitial = true)
          ∧ ci ∉ bs.m_configurationChanges.filter (fun ci => ci.isInitial = false))
        ∨ (ci.isInitial = false
          ∧ ci ∈ bs.m_configurationChanges.filter (fun ci => ci.isInitial = false)
          ∧ ci ∉ bs.m_configurationChanges.filter (fun ci => ci.isInitial = true)))
    ∧ (bs.configurationChangesArguments false).length
        + (bs.configurationChangesArguments true).length
      = bs.m_configurationChanges.length := by
  have h1 : bs.configurationChangesArguments false
      = (bs.m_configurationChanges.filter fun ci => ci.isInitial = false).map
          CMakeConfigItem.toArgument := by
    simp [configurationChangesArguments]
  have h2 : bs.configurationChangesArguments true
      = (bs.m_configurationChanges.filter fun ci => ci.isInitial = true).map
          CMakeConfigItem.toArgument := by
    simp [configurationChangesArguments]
  refine ⟨h1, h2, ?_, ?_⟩
  · intro ci hci
    cases h : ci.isInitial with
    | true => left; simp [List.mem_filter, hci, h]
    | false => right; simp [List.mem_filter, hci, h]
  · rw [h1, h2, List.length_map, List.length_map]
    generalize bs.m_configurationChanges = l
    induction l with
    | nil => rfl
    | cons c l ih =>
      cases h : c.isInitial <;> simp [List.filter_cons, h] at ih ⊢ <;> omega

theorem configurationChangesArguments_split_witness :
    (configurationChangesArguments
        ⟨[], [], [{ CMakeConfigItem.create "A".toList .STRING "1".toList with isInitial := true },
          CMakeConfigItem.create "B".toList .BOOL "ON".toList]⟩ false).length
      + (configurationChangesArguments
        ⟨[], [], [{ CMakeConfigItem.create "A".toList .STRING "1".toList with isInitial := true },
          CMakeConfigItem.create "B".toList .BOOL "ON".toList]⟩ true).length
      = [{ CMakeConfigItem.create "A".toList .STRING "1".toList with isInitial := true },
          CMakeConfigItem.create "B".toList .BOOL "ON".toList].length :=
  (configurationChangesArguments_split
    ⟨[], [], [{ CMakeConfigItem.create "A".toList .STRING "1".toList with isInitial := true },
      CMakeConfigItem.create "B".toList .BOOL "ON".toList]⟩).2.2.2

end CMakeBuildSystem

/-! ## QML debugging flags -/

/-- C19 (what the code does): with QML debugging disabled only the first
`-DQT_QML_DEBUG` of a value is removed: for CMAKE_CXX_FLAGS =
`-O2 -DQT_QML_DEBUG -DQT_QML_DEBUG` the item of the delta has the value
`-O2  -DQT_QML_DEBUG`, which still contains the flag, so that
`hasQmlDebugging` can stay true on the changed configuration. -/
theorem getQmlDebugCxxFlags_keeps_second_flag :
    getQmlDebugCxxFlags .Disabled
        [CMakeConfigItem.create "CMAKE_CXX_FLAGS".toList .STRING
          "-O2 -DQT_QML_DEBUG -DQT_QML_DEBUG".toList] false
      = [CMakeConfigItem.create "CMAKE_CXX_FLAGS".toList .STRING "-O2  -DQT_QML_DEBUG".toList]
    ∧ contains QT_QML_DEBUG_PARAM "-O2  -DQT_QML_DEBUG".toList = true
    ∧ hasQmlDebugging
        (getQmlDebugCxxFlags .Disabled
          [CMakeConfigItem.create "CMAKE_CXX_FLAGS_INIT".toList .STRING
            "-DQT_QML_DEBUG -DQT_QML_DEBUG".toList,
           CMakeConfigItem.create "CMAKE_CXX_FLAGS".toList .STRING
            "-O2 -DQT_QML_DEBUG -DQT_QML_DEBUG".toList] true) = true := by
  decide

/-! ## `XcodebuildParser`: lines that are not on stdout -/

namespace XcodebuildParser
open XcodebuildStatus

end XcodebuildParser

/-! ## The remaining warning flags of a preset -/

/-- C27 (what the code does): for warnings.unusedCli = false the merge appends
the text ` --no-warn-unused-cli` with a blank in front, not the CMake flag
`--no-warn-unused-cli`; warnings.uninitialized = true and warnings.systemVars =
true append `--warn-uninitialized` and `--check-system-vars` as they are. -/
theorem mergePreset_unusedCli_text :
    presetFlagArguments ⟨"p1".toList, none, none, none,
        some ⟨none, none, some true, some false, some true⟩, none, none⟩
      = ["--warn-uninitialized".toList, ' ' :: "--no-warn-unused-cli".toList,
          "--check-system-vars".toList]
    ∧ addCMakeConfigurePresetToInitialArguments plainPresetHost
        ["-DQTC_CMAKE_PRESET:STRING=p1".toList, "-GNinja".toList]
        ⟨[⟨"p1".toList, none, none, none, some ⟨none, none, none, some false, none⟩, none,
            none⟩], []⟩
        (presetKit "p1".toList) [] []
      = ["-GNinja".toList, ' ' :: "--no-warn-unused-cli".toList]
    ∧ isSpace ' ' = true := by
  decide

/-! ## `CMakeAutogenParser` after `flush` -/

namespace CMakeAutogenParser

/-- C29 (what the code does): `flush` does not set the expected state back.  A
fresh parser that has read the header `AutoMoc error` and is flushed has
scheduled the task, has no task pending and still expects LINE_SEPARATOR; the
following line `Sometext` is then not returned NotHandled but taken in
(InProgress), and a following header with its detail line, an empty line and a
`flush` schedule no second task. -/
theorem autogen_not_idle_after_flush :
    (flush (handleLine fresh "AutoMoc error".toList .StdErrFormat).2).m_expectedState
      = .LINE_SEPARATOR
    ∧ (flush (handleLine fresh "AutoMoc error".toList .StdErrFormat).2).m_lastTask.isNull = true
    ∧ (flush (handleLine fresh "AutoMoc error".toList .StdErrFormat).2).scheduled
      = [⟨⟨false, .Error, "AutoMoc error".toList, [], [], -1, 0⟩, 1, 1⟩]
    ∧ (handleLine (flush (handleLine fresh "AutoMoc error".toList .StdErrFormat).2)
        "Sometext".toList .StdErrFormat).1.status = .InProgress
    ∧ (handleLine fresh "Sometext".toList .StdErrFormat).1.status = .NotHandled
    ∧ (flush (feed (flush (handleLine fresh "AutoMoc error".toList .StdErrFormat).2)
        ["Sometext".toList, "AutoUic error".toList, "detail".toList, []]).2).scheduled
      = [⟨⟨false, .Error, "AutoMoc error".toList, [], [], -1, 0⟩, 1, 1⟩] := by
  decide

end CMakeAutogenParser

/-! ## Build types -/

namespace CMakeBuildConfigurationFactory

/-- C30: for each of the build types None, Debug, Release, RelWithDebInfo,
MinSizeRel and Profile, `buildTypeFromByteArray` gives the type back from the
type name of `createBuildInfo`; the lookup only depends on the text in lower
case, so it does not tell letter cases apart; a text that in lower case is
none of debug, release, relwithdebinfo, minsizerel, profile is None; and
`cmakeBuildTypeToBuildType` maps None to Unknown, Debug to Debug, Release and
MinSizeRel to Release, RelWithDebInfo and Profile to Profile. -/
theorem buildType_names_roundtrip :
    (∀ t, t ≠ BuildType.BuildTypeLast →
      buildTypeFromByteArray (createBuildInfo t).typeName = t)
    ∧ (∀ s s', toLower s = toLower s' → buildTypeFromByteArray s = buildTypeFromByteArray s')
    ∧ (buildTypeFromByteArray "DEBUG".toList = .BuildTypeDebug
        ∧ buildTypeFromByteArray "relWithDebInfo".toList = .BuildTypeRelWithDebInfo
        ∧ buildTypeFromByteArray "MINSIZEREL".toList = .BuildTypeMinSizeRel)
    ∧ (∀ s, toLower s ∉ ["debug".toList, "release".toList, "relwithdebinfo".toList,
          "minsizerel".toList, "profile".toList] →
        buildTypeFromByteArray s = .BuildTypeNone)
    ∧ (cmakeBuildTypeToBuildType .BuildTypeNone = .Unknown
        ∧ cmakeBuildTypeToBuildType .BuildTypeDebug = .Debug
        ∧ cmakeBuildTypeToBuildType .BuildTypeRelease = .Release
        ∧ cmakeBuildTypeToBuildType .BuildTypeMinSizeRel = .Release
        ∧ cmakeBuildTypeToBuildType .BuildTypeRelWithDebInfo = .Profile
        ∧ cmakeBuildTypeToBuildType .BuildTypeProfile = .Profile) := by
  refine ⟨?_, ?_, by decide, ?_, by decide⟩
  · intro t ht
    cases t <;> first | rfl | exact absurd rfl ht
  · intro s s' h
    simp only [buildTypeFromByteArray, h]
  · intro s hs
    simp only [List.mem_cons, List.mem_singleton, not_or, List.not_mem_nil, or_false] at hs
    obtain ⟨h1, h2, h3, h4, h5⟩ := hs
    simp only [buildTypeFromByteArray, h1, h2, h3, h4, h5, if_false]

theorem buildType_names_roundtrip_witness :
    buildTypeFromByteArray (createBuildInfo .BuildTypeProfile).typeName = .BuildTypeProfile
    ∧ buildTypeFromByteArray "Build".toList = .BuildTypeNone :=
  ⟨buildType_names_roundtrip.1 .BuildTypeProfile (by decide),
   buildType_names_roundtrip.2.2.2.1 "Build".toList (by decide)⟩

end CMakeBuildConfigurationFactory

/-! ## QML debugging: the delta for Enabled -/

theorem suffix_dropWhile (sp : Char → Bool) (a b : QString) (c : Char) (hb : b.head? = some c)
    (hc : sp c = false) : b <:+ (a ++ b).dropWhile sp := by
  induction a with
  | nil =>
    cases b with
    | nil => simp at hb
    | cons x b =>
      simp only [List.head?_cons, Option.some.injEq] at hb
      subst hb
      simp [List.dropWhile_cons, hc]
  | cons x a ih =>
    simp only [List.cons_append, List.dropWhile_cons]
    split
    · exact ih
    · exact List.suffix_cons_iff.2 (Or.inr (List.suffix_append a b))

theorem reverse_dropWhile_of_getLast (sp : Char → Bool) (s : QString) (c : Char)
    (h : s.getLast? = some c) (hc : sp c = false) : (s.reverse.dropWhile sp).reverse = s := by
  induction s using List.reverseRecOn with
  | nil => simp at h
  | append_singleton s d _ =>
    simp at h
    subst h
    simp [List.dropWhile_cons, hc]

theorem contains_trimmed_append_flag (value : QString) :
    contains QT_QML_DEBUG_PARAM (trimmed (value ++ [' '] ++ QT_QML_DEBUG_PARAM)) = true := by
  rw [contains_iff]
  have h1 : QT_QML_DEBUG_PARAM <:+ (value ++ [' '] ++ QT_QML_DEBUG_PARAM).dropWhile isAsciiSpace :=
    suffix_dropWhile isAsciiSpace _ _ '-' (by decide) (by decide)
  have h2 := getLast_of_suffix _ _ 'G' (by decide) h1
  unfold trimmed
  rw [reverse_dropWhile_of_getLast isAsciiSpace _ 'G' h2 (by decide)]
  exact h1.isInfix

theorem mem_enabledDelta (config : CMakeConfig) (d : CMakeConfigItem) :
    d ∈ getQmlDebugCxxFlags .Enabled config true ↔
      ∃ item ∈ config, [CMAKE_CXX_FLAGS_INIT, CMAKE_CXX_FLAGS].contains item.key = true
        ∧ contains QT_QML_DEBUG_PARAM item.value = false
        ∧ d = { item with value := trimmed (item.value ++ [' '] ++ QT_QML_DEBUG_PARAM) } := by
  simp only [getQmlDebugCxxFlags, reduceCtorEq, if_false, if_true, decide_True,
    List.mem_filterMap]
  constructor
  · rintro ⟨item, hitem, h⟩
    refine ⟨item, hitem, ?_⟩
    revert h
    cases [CMAKE_CXX_FLAGS_INIT, CMAKE_CXX_FLAGS].contains item.key <;>
      cases contains QT_QML_DEBUG_PARAM item.value <;>
      simp only [Bool.not_true, Bool.not_false, Bool.false_eq_true, if_false, if_true,
        Option.some.injEq, reduceCtorEq, false_implies, true_and, and_self]
    intro h
    exact h.symm
  · rintro ⟨item, hitem, hk, hc, rfl⟩
    refine ⟨item, hitem, ?_⟩
    rw [hk, hc]
    rfl

theorem enabledDelta_eq_nil (config : CMakeConfig)
    (h : ∀ item ∈ config, [CMAKE_CXX_FLAGS_INIT, CMAKE_CXX_FLAGS].contains item.key = true →
      contains QT_QML_DEBUG_PARAM item.value = true) :
    getQmlDebugCxxFlags .Enabled config true = [] := by
  apply List.eq_nil_iff_forall_not_mem.2
  intro d hd
  obtain ⟨item, hitem, hk, hc, _⟩ := (mem_enabledDelta config d).1 hd
  rw [h item hitem hk] at hc
  cases hc

theorem replaced_key (delta : CMakeConfig) (item : CMakeConfigItem) :
    ((delta.find? fun d => d.key == item.key).getD item).key = item.key := by
  cases h : delta.find? (fun d => d.key == item.key) with
  | none => rfl
  | some d => simpa using List.find?_some h

theorem replaced_contains (config : CMakeConfig) (item : CMakeConfigItem) (hitem : item ∈ config)
    (hk : [CMAKE_CXX_FLAGS_INIT, CMAKE_CXX_FLAGS].contains item.key = true) :
    contains QT_QML_DEBUG_PARAM
      (((getQmlDebugCxxFlags .Enabled config true).find? fun d => d.key == item.key).getD
        item).value = true := by
  cases h : (getQmlDebugCxxFlags .Enabled config true).find? (fun d => d.key == item.key) with
  | some d =>
    obtain ⟨src, _, _, _, rfl⟩ := (mem_enabledDelta config d).1 (List.mem_of_find?_eq_some h)
    exact contains_trimmed_append_flag src.value
  | none =>
    cases hc : contains QT_QML_DEBUG_PARAM item.value with
    | true => simpa using hc
    | false =>
      exfalso
      have hmem := (mem_enabledDelta config _).2 ⟨item, hitem, hk, hc, rfl⟩
      have := List.find?_eq_none.1 h _ hmem
      simp at this

theorem valueOf_replaced_contains (config : CMakeConfig) (key : QString)
    (hk : [CMAKE_CXX_FLAGS_INIT, CMAKE_CXX_FLAGS].contains key = true)
    (hex : ∃ i ∈ config, i.key = key) :
    contains QT_QML_DEBUG_PARAM
      ((replaceByKey config (getQmlDebugCxxFlags .Enabled config true)).valueOf key) = true := by
  obtain ⟨i, hi, hik⟩ := hex
  unfold CMakeConfig.valueOf
  cases h : (replaceByKey config (getQmlDebugCxxFlags .Enabled config true)).find?
      (fun x => x.key == key) with
  | none =>
    exfalso
    have hmem : ((getQmlDebugCxxFlags .Enabled config true).find?
        (fun d => d.key == i.key)).getD i
        ∈ replaceByKey config (getQmlDebugCxxFlags .Enabled config true) :=
      List.mem_map.2 ⟨i, hi, rfl⟩
    have := List.find?_eq_none.1 h _ hmem
    rw [replaced_key] at this
    simp [hik] at this
  | some x =>
    have hx := List.mem_of_find?_eq_some h
    have hxk : x.key = key := by simpa using List.find?_some h
    obtain ⟨item, hitem, rfl⟩ := List.mem_map.1 hx
    rw [replaced_key] at hxk
    exact replaced_contains config item hitem (by rw [hxk]; exact hk)

/-- C28: for every configuration with pairwise distinct keys that has an item
for CMAKE_CXX_FLAGS_INIT and one for CMAKE_CXX_FLAGS: with QML debugging
Enabled and the cache file there, the configuration with the items of the
delta in the place of the items of the same key has `hasQmlDebugging` true,
and the Enabled delta of that configuration is empty; every item of the
Enabled delta has the key CMAKE_CXX_FLAGS_INIT or CMAKE_CXX_FLAGS; and the
delta is empty when the cache file does not exist or the setting is Default. -/
theorem qmlDebug_enabled_delta (config : CMakeConfig)
    (_hdistinct : (config.map fun i => i.key).Nodup)
    (hinit : ∃ i ∈ config, i.key = CMAKE_CXX_FLAGS_INIT)
    (hflags : ∃ i ∈ config, i.key = CMAKE_CXX_FLAGS) :
    hasQmlDebugging (replaceByKey config (getQmlDebugCxxFlags .Enabled config true)) = true
    ∧ getQmlDebugCxxFlags .Enabled
        (replaceByKey config (getQmlDebugCxxFlags .Enabled config true)) true = []
    ∧ (∀ d ∈ getQmlDebugCxxFlags .Enabled config true,
        d.key = CMAKE_CXX_FLAGS_INIT ∨ d.key = CMAKE_CXX_FLAGS)
    ∧ getQmlDebugCxxFlags .Enabled config false = []
    ∧ (∀ cacheExists, getQmlDebugCxxFlags .Default config cacheExists = []) := by
  refine ⟨?_, ?_, ?_, ?_, ?_⟩
  · simp only [hasQmlDebugging, CMakeConfig.stringValueOf, Bool.and_eq_true]
    exact ⟨valueOf_replaced_contains config _ (by decide) hinit,
      valueOf_replaced_contains config _ (by decide) hflags⟩
  · apply enabledDelta_eq_nil
    intro x hx hk
    obtain ⟨item, hitem, rfl⟩ := List.mem_map.1 hx
    rw [replaced_key] at hk
    exact replaced_contains config item hitem hk
  · intro d hd
    obtain ⟨item, _, hk, _, rfl⟩ := (mem_enabledDelta config d).1 hd
    simpa [List.contains_cons] using hk
  · simp [getQmlDebugCxxFlags]
  · intro cacheExists
    simp [getQmlDebugCxxFlags]

theorem qmlDebug_enabled_delta_witness :
    hasQmlDebugging
      (replaceByKey
        [CMakeConfigItem.create "CMAKE_CXX_FLAGS_INIT".toList .STRING "-DQT_QML_DEBUG".toList,
          CMakeConfigItem.create "CMAKE_CXX_FLAGS".toList .STRING "-O2".toList]
        (getQmlDebugCxxFlags .Enabled
          [CMakeConfigItem.create "CMAKE_CXX_FLAGS_INIT".toList .STRING "-DQT_QML_DEBUG".toList,
            CMakeConfigItem.create "CMAKE_CXX_FLAGS".toList .STRING "-O2".toList] true))
      = true :=
  (qmlDebug_enabled_delta
    [CMakeConfigItem.create "CMAKE_CXX_FLAGS_INIT".toList .STRING "-DQT_QML_DEBUG".toList,
      CMakeConfigItem.create "CMAKE_CXX_FLAGS".toList .STRING "-O2".toList]
    (by decide) ⟨_, List.mem_cons_self _ _, rfl⟩
    ⟨_, List.mem_cons_of_mem _ (List.mem_cons_self _ _), rfl⟩).1

/-! ## The initial arguments -/

theorem firstOccurrences_mem (ks : List QString) (k : QString) :
    k ∈ firstOccurrences ks ↔ k ∈ ks := by
  induction ks with
  | nil => simp [firstOccurrences]
  | cons a ks ih =>
    simp only [firstOccurrences, List.mem_cons, List.mem_filter, ih]
    constructor
    · rintro (h | ⟨h, _⟩)
      · exact Or.inl h
      · exact Or.inr h
    · intro h
      by_cases hka : k = a
      · exact Or.inl hka
      · rcases h with h | h
        · exact Or.inl h
        · exact Or.inr ⟨h, by simpa using hka⟩

theorem firstOccurrences_nodup (ks : List QString) : (firstOccurrences ks).Nodup := by
  induction ks with
  | nil => simp [firstOccurrences]
  | cons a ks ih =>
    rw [firstOccurrences, List.nodup_cons]
    refine ⟨?_, ih.filter _⟩
    simp [List.mem_filter]

theorem uniqueConfigInsert_keys (acc : List CMakeConfigItem) (ci : CMakeConfigItem) :
    (uniqueConfigInsert acc ci).map (fun i => i.key)
      = if ci.key ∈ acc.map (fun i => i.key) then acc.map (fun i => i.key)
        else acc.map (fun i => i.key) ++ [ci.key] := by
  unfold uniqueConfigInsert
  by_cases h : ci.key ∈ acc.map (fun i => i.key)
  · have hany : (acc.any fun u => u.key == ci.key) = true := by
      obtain ⟨u, hu, huk⟩ := List.mem_map.1 h
      exact List.any_eq_true.2 ⟨u, hu, by simpa using huk⟩
    simp only [hany, if_true, h, List.map_map]
    apply List.map_congr_left
    intro u _
    simp only [Function.comp]
    split
    · split <;> rfl
    · rfl
  · have hany : (acc.any fun u => u.key == ci.key) = false := by
      rw [Bool.eq_false_iff]
      intro hc
      obtain ⟨u, hu, huk⟩ := List.any_eq_true.1 hc
      exact h (List.mem_map.2 ⟨u, hu, by simpa using huk⟩)
    simp only [hany, Bool.false_eq_true, if_false, h, List.map_append, List.map_cons,
      List.map_nil]

theorem uniqueConfig_keys (items acc : List CMakeConfigItem) :
    (items.foldl uniqueConfigInsert acc).map (fun i => i.key)
      = acc.map (fun i => i.key)
        ++ (firstOccurrences (items.map fun i => i.key)).filter
            (fun k => !(acc.map fun i => i.key).contains k) := by
  induction items generalizing acc with
  | nil => simp [firstOccurrences]
  | cons c items ih =>
    rw [List.foldl_cons, ih, uniqueConfigInsert_keys]
    simp only [List.map_cons, firstOccurrences]
    by_cases h : c.key ∈ acc.map (fun i => i.key)
    · have hc : (acc.map fun i => i.key).contains c.key = true := List.elem_iff.2 h
      simp only [h, if_true, List.filter_cons, hc, Bool.not_true, Bool.false_eq_true, if_false,
        List.filter_filter]
      congr 1
      apply List.filter_congr
      intro k _
      by_cases hk : k = c.key
      · subst hk; simpa using h
      · simp [hk]
    · have hc : (acc.map fun i => i.key).contains c.key = false := by
        rw [Bool.eq_false_iff]; intro hc; exact h (List.elem_iff.1 hc)
      simp only [h, if_false, List.filter_cons, hc, Bool.not_false, if_true, List.append_assoc,
        List.singleton_append, List.filter_filter]
      congr 2
      apply List.filter_congr
      intro k _
      by_cases hk : k = c.key
      · subst hk; simp
      · simp [hk]

theorem uniqueConfig_keys_nil (items : List CMakeConfigItem) :
    (items.foldl uniqueConfigInsert []).map (fun i => i.key)
      = firstOccurrences (items.map fun i => i.key) := by
  rw [uniqueConfig_keys]
  simp

/-! ## The keys of the initial configuration -/

theorem findIdx_split {α : Type} (p : α → Bool) (l : List α) (it : Nat)
    (h : l.findIdx? p = some it) :
    ∃ pre a post, l = pre ++ a :: post ∧ pre.length = it ∧ p a = true
      ∧ ∀ x ∈ pre, p x = false := by
  induction l generalizing it with
  | nil => simp at h
  | cons x xs ih =>
    rw [List.findIdx?_cons] at h
    by_cases hx : p x = true
    · simp only [hx, if_true, Option.some.injEq] at h
      exact ⟨[], x, xs, rfl, by simpa using h, hx, by simp⟩
    · simp only [hx, Bool.false_eq_true, if_false] at h
      rw [List.findIdx?_succ] at h
      obtain ⟨it', hit', rfl⟩ := Option.map_eq_some'.1 h
      obtain ⟨pre, a, post, rfl, hlen, ha, hpre⟩ := ih it' hit'
      refine ⟨x :: pre, a, post, rfl, by simp [hlen], ha, ?_⟩
      intro y hy
      rcases List.mem_cons.1 hy with rfl | hy
      · simpa using hx
      · exact hpre y hy

theorem eraseIdx_middle {α : Type} (pre post : List α) (a : α) :
    (pre ++ a :: post).eraseIdx pre.length = pre ++ post := by
  induction pre with
  | nil => rfl
  | cons x pre ih => simp [List.eraseIdx_cons_succ, ih]

theorem keys_append_new (l : CMakeConfig) (ci : CMakeConfigItem)
    (hn : (l.map fun i => i.key).Nodup) (hnew : ∀ x ∈ l, (x.key == ci.key) = false) :
    ((l ++ [ci]).map fun i => i.key).Nodup := by
  rw [List.map_append, List.nodup_append]
  refine ⟨hn, by simp, ?_⟩
  intro k hk hk'
  simp only [List.map_cons, List.map_nil, List.mem_singleton] at hk'
  obtain ⟨x, hx, rfl⟩ := List.mem_map.1 hk
  have := hnew x hx
  simp [hk'] at this

theorem applyInitialChange_eq (initialList : CMakeConfig) (ci : CMakeConfigItem) (it : Nat)
    (hci : ci.isInitial = true)
    (h : initialList.findIdx? (fun item => item.key == ci.key) = some it) :
    ∃ pre old post, initialList = pre ++ old :: post ∧ pre.length = it ∧ old.key = ci.key
      ∧ (∀ x ∈ pre, x.key ≠ ci.key)
      ∧ applyInitialChange initialList ci
        = if ci.isUnset then pre ++ post else pre ++ ci :: post := by
  obtain ⟨pre, old, post, rfl, hlen, hold, hpre⟩ := findIdx_split _ _ _ h
  refine ⟨pre, old, post, rfl, hlen, by simpa using hold, ?_, ?_⟩
  · intro x hx
    simpa using hpre x hx
  · subst hlen
    simp only [applyInitialChange, hci, Bool.not_true, Bool.false_eq_true, if_false, h,
      set_middle]
    split
    · exact eraseIdx_middle pre post ci
    · rfl

theorem applyInitialChange_nodup (initialList : CMakeConfig) (ci : CMakeConfigItem)
    (hn : (initialList.map fun i => i.key).Nodup) :
    ((applyInitialChange initialList ci).map fun i => i.key).Nodup := by
  by_cases hci : ci.isInitial = true
  · cases h : initialList.findIdx? (fun item => item.key == ci.key) with
    | some it =>
      obtain ⟨pre, old, post, rfl, _, hold, _, heq⟩ := applyInitialChange_eq _ _ _ hci h
      rw [heq]
      split
      · refine hn.sublist (List.Sublist.map _ ?_)
        exact List.Sublist.append (List.Sublist.refl _) (List.sublist_cons_self _ _)
      · simpa [hold] using hn
    | none =>
      simp only [applyInitialChange, hci, Bool.not_true, Bool.false_eq_true, if_false, h]
      split
      · exact keys_append_new _ _ hn (List.findIdx?_eq_none_iff.1 h)
      · exact hn
  · simp only [applyInitialChange]
    simp [hci, hn]

theorem foldl_applyInitialChange_nodup (changes initialList : CMakeConfig)
    (hn : (initialList.map fun i => i.key).Nodup) :
    ((changes.foldl applyInitialChange initialList).map fun i => i.key).Nodup := by
  induction changes generalizing initialList with
  | nil => exact hn
  | cons c changes ih => exact ih _ (applyInitialChange_nodup _ c hn)

theorem updatePackageManagerAutoSetup_nodup (use : Bool) (initialList : CMakeConfig)
    (hn : (initialList.map fun i => i.key).Nodup) :
    ((updatePackageManagerAutoSetup use initialList).map fun i => i.key).Nodup := by
  unfold updatePackageManagerAutoSetup
  dsimp only
  split
  · split
    · exact hn.sublist (List.Sublist.map _ (List.eraseIdx_sublist _ _))
    · exact hn
  · rename_i h
    split
    · exact keys_append_new _ _ hn (List.findIdx?_eq_none_iff.1 h)
    · exact hn

theorem keys_append_if_new (l : CMakeConfig) (key : QString) (item : CMakeConfigItem)
    (hk : item.key = key) (hn : (l.map fun i => i.key).Nodup) :
    ((if l.all (fun x => !(x.key == key)) then l ++ [item] else l).map fun i => i.key).Nodup := by
  split
  · rename_i hc
    simp only [List.all_eq_true] at hc
    exact keys_append_new _ _ hn (fun x hx => by simpa [hk] using hc x hx)
  · exact hn

theorem updateInitialCMakeArguments_nodup (initialList : CMakeConfig) (qmlls : Bool)
    (tool : Option QString) (changes : CMakeConfig) (use : Bool)
    (hn : (initialList.map fun i => i.key).Nodup) :
    ((updateInitialCMakeArguments initialList qmlls tool changes use).map fun i => i.key).Nodup := by
  unfold updateInitialCMakeArguments
  dsimp only
  apply updatePackageManagerAutoSetup_nodup
  apply foldl_applyInitialChange_nodup
  have h1 : ((if (qmlls
        && initialList.all (fun item => !(item.key == "QT_QML_GENERATE_QMLLS_INI".toList)))
        = true then
      initialList ++ [CMakeConfigItem.create "QT_QML_GENERATE_QMLLS_INI".toList .BOOL "ON".toList]
    else initialList).map fun i => i.key).Nodup := by
    cases qmlls
    · simpa using hn
    · exact keys_append_if_new initialList "QT_QML_GENERATE_QMLLS_INI".toList
        (CMakeConfigItem.create "QT_QML_GENERATE_QMLLS_INI".toList .BOOL "ON".toList) rfl hn
  cases tool with
  | none => exact h1
  | some t => exact keys_append_if_new _ _ _ rfl h1

theorem setAllArguments_keys_perm (host : ArgsHost) (arguments : List QString)
    (hperm : ∀ l, (host.hashValues l).Perm l) :
    ((InitialCMakeArgumentsAspect.setAllArguments host arguments).1.cmakeConfiguration.map
        fun i => i.key).Perm
      (firstOccurrences
        ((CMakeConfig.fromArguments (arguments.map rewriteGeneratorArgument)).1.map
          fun i => i.key)) := by
  simp only [InitialCMakeArgumentsAspect.setAllArguments,
    InitialCMakeArgumentsAspect.cmakeConfiguration]
  rw [← uniqueConfig_keys_nil]
  exact (hperm _).map _

theorem setAllArguments_keys_eq (host : ArgsHost) (arguments : List QString)
    (hid : ∀ l, host.hashValues l = l) :
    ((InitialCMakeArgumentsAspect.setAllArguments host arguments).1.cmakeConfiguration.map
        fun i => i.key)
      = firstOccurrences
        ((CMakeConfig.fromArguments (arguments.map rewriteGeneratorArgument)).1.map
          fun i => i.key) := by
  simp only [InitialCMakeArgumentsAspect.setAllArguments,
    InitialCMakeArgumentsAspect.cmakeConfiguration, hid]
  exact uniqueConfig_keys_nil _

/-! ## `InitialCMakeArgumentsAspect::setAllValues` -/

/-- C21 (what the code does): `setAllValues` compares the value of a further
item with the value joined so far, not with the values joined into it.  For
the values a, a of one key the stored value is `a` and for a, b it is `a b`,
but for a, b, b it is `a b b` and for a, b, a it is `a b a`: a value occurs
twice in the joined result. -/
theorem setAllValues_repeated_value :
    ((InitialCMakeArgumentsAspect.setAllValues plainArgsHost
        "-DK=a\n-DK=a".toList).1.cmakeConfiguration.map fun i => (i.key, i.value))
      = [("K".toList, "a".toList)]
    ∧ ((InitialCMakeArgumentsAspect.setAllValues plainArgsHost
        "-DK=a\n-DK=b".toList).1.cmakeConfiguration.map fun i => (i.key, i.value))
      = [("K".toList, "a b".toList)]
    ∧ ((InitialCMakeArgumentsAspect.setAllValues plainArgsHost
        "-DK=a\n-DK=b\n-DK=b".toList).1.cmakeConfiguration.map fun i => (i.key, i.value))
      = [("K".toList, "a b b".toList)]
    ∧ ((InitialCMakeArgumentsAspect.setAllValues plainArgsHost
        "-DK=a\n-DK=b\n-DK=a".toList).1.cmakeConfiguration.map fun i => (i.key, i.value))
      = [("K".toList, "a b a".toList)] := by
  decide

/-- C23 (what the code does): `QString::replace` replaces every occurrence of
`-G` in an argument that starts with `-G`, not only the one in front:
`-GNinja` becomes `-DCMAKE_GENERATOR:STRING=Ninja`, but `-Gmy-Generator`
becomes `-DCMAKE_GENERATOR:STRING=my-DCMAKE_GENERATOR:STRING=enerator`, and
the stored item CMAKE_GENERATOR has the value
`my-DCMAKE_GENERATOR:STRING=enerator`; likewise for `-A` and `-T`.  An
argument that starts with none of the three is left as it is. -/
theorem setAllValues_generator_rewrite :
    rewriteGeneratorArgument "-GNinja".toList = "-DCMAKE_GENERATOR:STRING=Ninja".toList
    ∧ rewriteGeneratorArgument "-Gmy-Generator".toList
      = "-DCMAKE_GENERATOR:STRING=my-DCMAKE_GENERATOR:STRING=enerator".toList
    ∧ ((InitialCMakeArgumentsAspect.setAllValues plainArgsHost
        "-Gmy-Generator".toList).1.cmakeConfiguration.map fun i => (i.key, i.value))
      = [("CMAKE_GENERATOR".toList, "my-DCMAKE_GENERATOR:STRING=enerator".toList)]
    ∧ rewriteGeneratorArgument "-Ax64-ARM".toList
      = "-DCMAKE_GENERATOR_PLATFORM:STRING=x64-DCMAKE_GENERATOR_PLATFORM:STRING=RM".toList
    ∧ rewriteGeneratorArgument "-Tv143-Test".toList
      = "-DCMAKE_GENERATOR_TOOLSET:STRING=v143-DCMAKE_GENERATOR_TOOLSET:STRING=est".toList
    ∧ rewriteGeneratorArgument "--trace".toList = "--trace".toList := by
  decide

/-! ## The order of the initial configuration -/

/-- C22 (as the code has it): the items of `setAllValues` are listed in the order
of `QHash::values()`, which need not be the order of insertion.  On a host
whose hash table lists its items in the opposite order, the arguments
`-DK=a`, `-DL=b`, `--trace` give the keys L, K, and `allValues` emits
`-DL:UNINITIALIZED=b` before `-DK:UNINITIALIZED=a`. -/
theorem setAllValues_hash_order :
    ((InitialCMakeArgumentsAspect.setAllValues reversingArgsHost
        "-DK=a\n-DL=b\n--trace".toList).1.cmakeConfiguration.map fun i => i.key)
      = ["L".toList, "K".toList]
    ∧ (InitialCMakeArgumentsAspect.setAllValues reversingArgsHost
        "-DK=a\n-DL=b\n--trace".toList).1.allValues reversingArgsHost
      = ["-DL:UNINITIALIZED=b".toList, "-DK:UNINITIALIZED=a".toList, "--trace".toList]
    ∧ firstOccurrences
        ((CMakeConfig.fromArguments
          ["-DK=a".toList, "-DL=b".toList, "--trace".toList]).1.map fun i => i.key)
      = ["K".toList, "L".toList] := by
  decide

/-- C22 (amended): when `QHash::values()` lists what the hash table holds in
some order, the keys of `cmakeConfiguration()` after `setAllValues` are the
keys of the recognized items, each once, in the order of `QHash::values()`:
a permutation of the keys in the order of their first occurrence, and that
very order when the hash table keeps the order of insertion.  `allValues()`
emits the arguments of the items in the order of `cmakeConfiguration()`,
followed by what `splitArgs` makes of the joined unrecognized arguments: the
unrecognized arguments in their original order when `splitArgs` gives back
what `joinArgs` was given. -/
theorem setAllValues_order (host : ArgsHost) (values : QString)
    (hperm : ∀ l, (host.hashValues l).Perm l) :
    ((InitialCMakeArgumentsAspect.setAllValues host values).1.cmakeConfiguration.map
        fun i => i.key).Perm
      (firstOccurrences
        ((CMakeConfig.fromArguments
          (((split '\n' values).filter fun arg => !arg.isEmpty).map
            rewriteGeneratorArgument)).1.map fun i => i.key))
    ∧ ((∀ l, host.hashValues l = l) →
      ((InitialCMakeArgumentsAspect.setAllValues host values).1.cmakeConfiguration.map
          fun i => i.key)
        = firstOccurrences
          ((CMakeConfig.fromArguments
            (((split '\n' values).filter fun arg => !arg.isEmpty).map
              rewriteGeneratorArgument)).1.map fun i => i.key))
    ∧ (InitialCMakeArgumentsAspect.setAllValues host values).1.allValues host
      = (InitialCMakeArgumentsAspect.setAllValues host values).1.cmakeConfiguration.map
          (CMakeConfigItem.toArgumentWith none)
        ++ host.splitArgs (host.joinArgs
          (((split '\n' values).filter fun arg => !arg.isEmpty).map
            rewriteGeneratorArgument |>.filter fun arg => (parseArgument arg).isNone))
    ∧ (host.splitArgs (host.joinArgs (InitialCMakeArgumentsAspect.setAllValues host values).2)
        = (InitialCMakeArgumentsAspect.setAllValues host values).2 →
      (InitialCMakeArgumentsAspect.setAllValues host values).1.allValues host
        = (InitialCMakeArgumentsAspect.setAllValues host values).1.cmakeConfiguration.map
            (CMakeConfigItem.toArgumentWith none)
          ++ (((split '\n' values).filter fun arg => !arg.isEmpty).map
            rewriteGeneratorArgument |>.filter fun arg => (parseArgument arg).isNone)) := by
  refine ⟨setAllArguments_keys_perm host _ hperm,
    fun hid => setAllArguments_keys_eq host _ hid, rfl, ?_⟩
  intro hround
  simp only [InitialCMakeArgumentsAspect.allValues, InitialCMakeArgumentsAspect.setAllValues,
    InitialCMakeArgumentsAspect.setAllArguments,
    InitialCMakeArgumentsAspect.cmakeConfiguration, CMakeConfig.fromArguments] at hround ⊢
  rw [hround]

theorem setAllValues_order_witness :
    ((InitialCMakeArgumentsAspect.setAllValues plainArgsHost
        "-DK=a\n--trace\n-DL=b\n-DK=c\n--fresh".toList).1.cmakeConfiguration.map
        fun i => i.key)
      = firstOccurrences
        ((CMakeConfig.fromArguments
          (((split '\n' "-DK=a\n--trace\n-DL=b\n-DK=c\n--fresh".toList).filter
            fun arg => !arg.isEmpty).map rewriteGeneratorArgument)).1.map fun i => i.key) :=
  (setAllValues_order plainArgsHost "-DK=a\n--trace\n-DL=b\n-DK=c\n--fresh".toList
    (fun l => List.Perm.refl l)).2.1 (fun _ => rfl)

/-! ## The additional options -/

namespace CMakeBuildConfiguration

/-- C24 (as the code has it): with the additional options `-DFOO=1 --trace -UBAR`
and an empty initial configuration, the function leaves `--trace` as the
additional options and the initial configuration empty: the items FOO and BAR
that were taken out are in no store. -/
theorem filterConfigArguments_drops_items :
    filterConfigArgumentsFromAdditionalCMakeArguments plainArgsHost
        ⟨⟨[], []⟩, "-DFOO=1 --trace -UBAR".toList⟩
      = ⟨⟨[], []⟩, "--trace".toList⟩
    ∧ (CMakeConfig.fromArguments
        (plainArgsHost.splitArgs "-DFOO=1 --trace -UBAR".toList)).1.map (fun i => i.key)
      = ["FOO".toList, "BAR".toList] := by
  decide

/-- C24 (amended): `filterConfigArgumentsFromAdditionalCMakeArguments` parses
the additional options again and keeps, joined, exactly the arguments that are
not recognized as `-D`/`-U` items, in their original order (read back with
`splitArgs`, when that gives back what `joinArgs` was given); the recognized
items are dropped and the initial configuration is left as it was. -/
theorem filterConfigArguments_unrecognized (host : ArgsHost) (bc : CMakeBuildConfiguration)
    (hround : host.splitArgs (host.joinArgs
        ((host.splitArgs bc.additionalCMakeOptions).filter
          fun arg => (parseArgument arg).isNone))
      = (host.splitArgs bc.additionalCMakeOptions).filter
          fun arg => (parseArgument arg).isNone) :
    (filterConfigArgumentsFromAdditionalCMakeArguments host bc).additionalCMakeOptions
      = host.joinArgs ((additionalCMakeArguments host bc).filter
          fun arg => (parseArgument arg).isNone)
    ∧ additionalCMakeArguments host (filterConfigArgumentsFromAdditionalCMakeArguments host bc)
      = ((additionalCMakeArguments host bc).filter fun arg => (parseArgument arg).isNone)
    ∧ (filterConfigArgumentsFromAdditionalCMakeArguments host bc).initialCMakeArguments
      = bc.initialCMakeArguments :=
  ⟨rfl, hround, rfl⟩

theorem filterConfigArguments_unrecognized_witness :
    additionalCMakeArguments plainArgsHost
        (filterConfigArgumentsFromAdditionalCMakeArguments plainArgsHost
          ⟨⟨[], []⟩, "--fresh -DFOO=1 --trace -UBAR".toList⟩)
      = (additionalCMakeArguments plainArgsHost
          ⟨⟨[], []⟩, "--fresh -DFOO=1 --trace -UBAR".toList⟩).filter
          fun arg => (parseArgument arg).isNone :=
  (filterConfigArguments_unrecognized plainArgsHost
    ⟨⟨[], []⟩, "--fresh -DFOO=1 --trace -UBAR".toList⟩ (by decide)).2.1

end CMakeBuildConfiguration

/-! ## Key uniqueness of the initial configuration -/

/-- C25 (as the code has it): a change that is an unset item does not replace the
item of its key in place: the item is taken out of the list.  The initial
list with the one item K and the pending change `-UK` give the empty list. -/
theorem updateInitialCMakeArguments_unset_removes :
    updateInitialCMakeArguments
        [{ CMakeConfigItem.create "K".toList .STRING "a".toList with isInitial := true }]
        false none
        [{ CMakeConfigItem.null with
            key := "K".toList, type := .STATIC, isUnset := true, isInitial := true }]
        false
      = []
    ∧ applyInitialChange
        [{ CMakeConfigItem.create "K".toList .STRING "a".toList with isInitial := true }]
        { CMakeConfigItem.null with
            key := "K".toList, type := .STATIC, isUnset := true, isInitial := true }
      = [] := by
  decide

/-- C25 (amended): when `QHash::values()` lists what the hash table holds in
some order, the keys of `cmakeConfiguration()` after `setAllValues` are
pairwise distinct; `updateInitialCMakeArguments` maps an initial list with
pairwise distinct keys to a list with pairwise distinct keys; and a change
marked isInitial whose key the list has at position `it` puts the change in
the place of that item when it is not an unset item, and takes that item out
of the list when it is. -/
theorem initial_keys_distinct (host : ArgsHost)
    (hperm : ∀ l, (host.hashValues l).Perm l) :
    (∀ values,
      ((InitialCMakeArgumentsAspect.setAllValues host values).1.cmakeConfiguration.map
        fun i => i.key).Nodup)
    ∧ (∀ initialList isGenerateQmllsSettingsEnabled maintenanceTool configurationChanges
        usePackageManagerAutoSetup,
      (initialList.map fun i => i.key).Nodup →
      ((updateInitialCMakeArguments initialList isGenerateQmllsSettingsEnabled maintenanceTool
        configurationChanges usePackageManagerAutoSetup).map fun i => i.key).Nodup)
    ∧ (∀ (initialList : CMakeConfig) (ci : CMakeConfigItem) (it : Nat),
      ci.isInitial = true →
      initialList.findIdx? (fun item => item.key == ci.key) = some it →
      ∃ pre old post, initialList = pre ++ old :: post ∧ pre.length = it ∧ old.key = ci.key
        ∧ (∀ x ∈ pre, x.key ≠ ci.key)
        ∧ applyInitialChange initialList ci
          = if ci.isUnset then pre ++ post else pre ++ ci :: post) := by
  refine ⟨?_, ?_, ?_⟩
  · intro values
    exact (setAllArguments_keys_perm host _ hperm).nodup_iff.2 (firstOccurrences_nodup _)
  · intro initialList qmlls tool changes use hn
    exact updateInitialCMakeArguments_nodup initialList qmlls tool changes use hn
  · intro initialList ci it hci h
    exact applyInitialChange_eq initialList ci it hci h

theorem initial_keys_distinct_witness :
    ((InitialCMakeArgumentsAspect.setAllValues reversingArgsHost
        "-DK=a\n-DL=b\n-DK=c".toList).1.cmakeConfiguration.map fun i => i.key).Nodup
    ∧ ((updateInitialCMakeArguments
        [{ CMakeConfigItem.create "K".toList .STRING "a".toList with isInitial := true },
          { CMakeConfigItem.create "L".toList .STRING "b".toList with isInitial := true }]
        true none
        [{ CMakeConfigItem.create "K".toList .STRING "c".toList with isInitial := true }]
        true).map fun i => i.key).Nodup :=
  ⟨(initial_keys_distinct reversingArgsHost (fun l => List.reverse_perm l)).1
      "-DK=a\n-DL=b\n-DK=c".toList,
   (initial_keys_distinct reversingArgsHost (fun l => List.reverse_perm l)).2.1 _ _ _ _ _
      (by decide)⟩

/-! ## The merge of a configure preset, done twice -/

section MergeTwice

open CMakeConfigItem

theorem set_getD_self {α : Type} (l : List α) (i : Nat) (d : α) :
    l.set i (l.getD i d) = l := by
  induction l generalizing i with
  | nil => rfl
  | cons x xs ih =>
    cases i with
    | zero => rfl
    | succ i =>
      have := ih i
      simp only [List.getD_eq_getElem?_getD] at this
      simp [this]

theorem findIdx_set_same {α : Type} (p : α → Bool) (l : List α) (j : Nat) (y : α)
    (h : ∀ x, l[j]? = some x → p x = p y) : (l.set j y).findIdx? p = l.findIdx? p := by
  induction l generalizing j with
  | nil => rfl
  | cons x xs ih =>
    cases j with
    | zero =>
      have := h x (by simp)
      simp [List.findIdx?_cons, this]
    | succ j =>
      have := ih j (fun z hz => h z (by simpa using hz))
      simp only [List.set_cons_succ, List.findIdx?_cons, List.findIdx?_succ, this]

theorem merge_step_eq (host : PresetHost) (k : Kit) (X : List QString) (c : CMakeConfigItem) :
    mergePresetCacheVariable host k X c
      = match X.findIdx? (fun arg =>
          (c.toArgument.takeWhile (fun ch => decide (ch ≠ ':'))).isPrefixOf arg) with
        | some it => X.set it (mergedArgument host k c (X.getD it []))
        | none => X ++ [c.toArgument] := by
  unfold mergePresetCacheVariable mergedArgument
  dsimp only
  cases hidx : X.findIdx? (fun arg =>
      (c.toArgument.takeWhile (fun ch => decide (ch ≠ ':'))).isPrefixOf arg) with
  | none => rfl
  | some i =>
    dsimp only
    split_ifs <;> first | rfl | exact (set_getD_self _ _ _).symm

theorem isPlainVariable_iff (c : CMakeConfigItem) :
    c.isPlainVariable = true
      ↔ c.isUnset = false ∧ c.key ≠ [] ∧ (∀ x ∈ c.key, x ≠ ':') ∧ (∀ x ∈ c.key, x ≠ '=') := by
  unfold CMakeConfigItem.isPlainVariable
  simp only [Bool.and_eq_true, Bool.not_eq_true', List.all_eq_true, bne_iff_ne, ne_eq,
    List.isEmpty_eq_false]
  constructor
  · rintro ⟨⟨h1, h2⟩, h3⟩
    exact ⟨h1, h2, fun x hx => (h3 x hx).1, fun x hx => (h3 x hx).2⟩
  · rintro ⟨h1, h2, h3, h4⟩
    exact ⟨⟨h1, h2⟩, fun x hx => ⟨h3 x hx, h4 x hx⟩⟩

theorem merge_step_plain (host : PresetHost) (k : Kit) (X : List QString) (c : CMakeConfigItem)
    (hc : c.isPlainVariable = true) :
    mergePresetCacheVariable host k X c
      = match X.findIdx? (fun arg => ('-' :: 'D' :: c.key).isPrefixOf arg) with
        | some it => X.set it (mergedArgument host k c (X.getD it []))
        | none => X ++ [c.toArgument] := by
  obtain ⟨hset, _, hcol, _⟩ := (isPlainVariable_iff c).1 hc
  rw [merge_step_eq, argNoType_of_set c hset hcol]

theorem toArgument_key (c : CMakeConfigItem) (hc : c.isPlainVariable = true) :
    (fromString (c.toArgument.drop 2)).key = c.key := by
  obtain ⟨hset, hne, hcol, heq⟩ := (isPlainVariable_iff c).1 hc
  rw [toArgument_of_set c hset]
  simp only [List.drop_succ_cons, List.drop_zero]
  rw [fromString_parts _ _ _ hne hcol heq]
  rfl

theorem toArgument_starts (c : CMakeConfigItem) (hc : c.isPlainVariable = true) :
    ('-' :: 'D' :: c.key).isPrefixOf c.toArgument = true := by
  obtain ⟨hset, _, _, _⟩ := (isPlainVariable_iff c).1 hc
  rw [toArgument_of_set c hset]
  simp [List.isPrefixOf_iff_prefix]

theorem mergedArgument_cases (host : PresetHost) (k : Kit) (c : CMakeConfigItem)
    (arg : QString) (h : (fromString (arg.drop 2)).key ∉ accumulatingKeys) :
    mergedArgument host k c arg = arg ∨ mergedArgument host k c arg = c.toArgument := by
  simp only [accumulatingKeys, List.mem_cons, List.mem_singleton, List.not_mem_nil, or_false,
    not_or] at h
  obtain ⟨h1, h2, h3, h4⟩ := h
  unfold mergedArgument
  dsimp only
  simp only [h1, h2, h3, h4, or_self, if_false]
  split_ifs <;> simp

theorem mergedArgument_self (host : PresetHost) (k : Kit) (c : CMakeConfigItem)
    (hc : c.isPlainVariable = true) (hk : c.key ∉ accumulatingKeys) :
    mergedArgument host k c c.toArgument = c.toArgument := by
  rcases mergedArgument_cases host k c c.toArgument
    (by rw [toArgument_key c hc]; exact hk) with h | h <;> exact h

theorem prefix_of_prefix_sep (key other rest : QString) (s : Char) (hs : ∀ x ∈ key, x ≠ s)
    (h : key <+: other ++ s :: rest) : key <+: other := by
  rcases List.prefix_or_prefix_of_prefix h (List.prefix_append other (s :: rest)) with h1 | h1
  · exact h1
  · obtain ⟨t, rfl⟩ := h1
    rw [List.prefix_append_right_inj] at h
    cases t with
    | nil => simp
    | cons x t =>
      rw [List.cons_prefix_cons] at h
      exact absurd h.1 (hs x (by simp))

theorem keysApart_iff (a b : QString) :
    keysApart a b = true ↔ ¬ a <+: b ∧ ¬ b <+: a := by
  simp only [keysApart, Bool.and_eq_true, Bool.not_eq_true', ← Bool.not_eq_true,
    List.isPrefixOf_iff_prefix]

theorem not_prefix_toArgument (c d : CMakeConfigItem) (hc : c.isPlainVariable = true)
    (hd : d.isPlainVariable = true) (h : keysApart c.key d.key = true) :
    ('-' :: 'D' :: c.key).isPrefixOf d.toArgument = false := by
  obtain ⟨_, _, hcol, _⟩ := (isPlainVariable_iff c).1 hc
  obtain ⟨hset, _, _, _⟩ := (isPlainVariable_iff d).1 hd
  rw [toArgument_of_set d hset]
  cases hp : ('-' :: 'D' :: c.key).isPrefixOf
      ('-' :: 'D' :: (d.key ++ ':' :: (typeToTypeString d.type ++ '=' :: d.value))) with
  | false => rfl
  | true =>
    rw [List.isPrefixOf_iff_prefix, List.prefix_cons_inj, List.prefix_cons_inj] at hp
    have := prefix_of_prefix_sep _ _ _ ':' hcol hp
    exact absurd this ((keysApart_iff _ _).1 h).1

theorem not_both_prefixes (c d : CMakeConfigItem) (a : QString)
    (h : keysApart c.key d.key = true) (hd : ('-' :: 'D' :: d.key).isPrefixOf a = true) :
    ('-' :: 'D' :: c.key).isPrefixOf a = false := by
  cases hp : ('-' :: 'D' :: c.key).isPrefixOf a with
  | false => rfl
  | true =>
    rw [List.isPrefixOf_iff_prefix] at hp hd
    have := List.prefix_or_prefix_of_prefix hp hd
    rw [List.prefix_cons_inj, List.prefix_cons_inj, List.prefix_cons_inj,
      List.prefix_cons_inj] at this
    obtain ⟨h1, h2⟩ := (keysApart_iff _ _).1 h
    rcases this with h3 | h3
    · exact absurd h3 h1
    · exact absurd h3 h2

theorem keysApart_symm (a b : QString) (h : keysApart a b = true) : keysApart b a = true := by
  rw [keysApart_iff] at h ⊢
  exact ⟨h.2, h.1⟩

/-- One round of the loop only leaves arguments that were there and the
argument of the variable, when the argument it finds is of no accumulating
key. -/
theorem mem_merge_step (host : PresetHost) (k : Kit) (X : List QString) (d : CMakeConfigItem)
    (hd : d.isPlainVariable = true)
    (hX : ∀ a ∈ X, ('-' :: 'D' :: d.key).isPrefixOf a = true →
      (fromString (a.drop 2)).key ∉ accumulatingKeys)
    (a : QString) (ha : a ∈ mergePresetCacheVariable host k X d) :
    a ∈ X ∨ a = d.toArgument := by
  rw [merge_step_plain host k X d hd] at ha
  cases hidx : X.findIdx? (fun arg => ('-' :: 'D' :: d.key).isPrefixOf arg) with
  | none =>
    rw [hidx] at ha
    simpa using ha
  | some j =>
    rw [hidx] at ha
    dsimp only at ha
    obtain ⟨pre, x, post, rfl, hlen, hx, _⟩ := findIdx_split _ _ _ hidx
    subst hlen
    rw [getD_middle, set_middle] at ha
    have hxk := hX x (by simp) hx
    rcases mergedArgument_cases host k d x hxk with h | h
    · rw [h] at ha; exact Or.inl ha
    · rw [h] at ha
      simp only [List.mem_append, List.mem_cons] at ha ⊢
      rcases ha with ha | ha | ha
      · exact Or.inl (Or.inl ha)
      · exact Or.inr ha
      · exact Or.inl (Or.inr (Or.inr ha))

/-- A second round for the same variable changes nothing. -/
theorem merge_step_idem (host : PresetHost) (k : Kit) (X : List QString) (c : CMakeConfigItem)
    (hc : c.isPlainVariable = true) (hk : c.key ∉ accumulatingKeys)
    (hX : ∀ a ∈ X, ('-' :: 'D' :: c.key).isPrefixOf a = true →
      (fromString (a.drop 2)).key ∉ accumulatingKeys) :
    mergePresetCacheVariable host k (mergePresetCacheVariable host k X c) c
      = mergePresetCacheVariable host k X c := by
  rw [merge_step_plain host k X c hc]
  cases hidx : X.findIdx? (fun arg => ('-' :: 'D' :: c.key).isPrefixOf arg) with
  | none =>
    dsimp only
    have hno := List.findIdx?_eq_none_iff.1 hidx
    have h1 : (X ++ [c.toArgument]).findIdx? (fun arg => ('-' :: 'D' :: c.key).isPrefixOf arg)
        = some X.length :=
      findIdx_first _ X [] _ (fun x hx => by simpa using hno x hx) (toArgument_starts c hc)
    rw [merge_step_plain host k _ c hc, h1]
    dsimp only
    rw [getD_middle, set_middle, mergedArgument_self host k c hc hk]
  | some i =>
    dsimp only
    obtain ⟨pre, x, post, rfl, hlen, hx, hpre⟩ := findIdx_split _ _ _ hidx
    subst hlen
    rw [getD_middle, set_middle]
    have hxk := hX x (by simp) hx
    have hy : ('-' :: 'D' :: c.key).isPrefixOf (mergedArgument host k c x) = true
        ∧ mergedArgument host k c (mergedArgument host k c x) = mergedArgument host k c x := by
      rcases mergedArgument_cases host k c x hxk with h | h
      · rw [h]; exact ⟨hx, h⟩
      · rw [h]; exact ⟨toArgument_starts c hc, mergedArgument_self host k c hc hk⟩
    have h1 : (pre ++ mergedArgument host k c x :: post).findIdx?
        (fun arg => ('-' :: 'D' :: c.key).isPrefixOf arg) = some pre.length :=
      findIdx_first _ pre post _ hpre hy.1
    rw [merge_step_plain host k _ c hc, h1]
    dsimp only
    rw [getD_middle, set_middle, hy.2]

/-- A round for another variable, whose key is apart, leaves a variable
settled that was settled. -/
theorem merge_step_keeps_fixed (host : PresetHost) (k : Kit) (X : List QString)
    (c d : CMakeConfigItem) (hc : c.isPlainVariable = true) (hd : d.isPlainVariable = true)
    (hcd : keysApart c.key d.key = true)
    (hX : ∀ a ∈ X, ('-' :: 'D' :: d.key).isPrefixOf a = true →
      (fromString (a.drop 2)).key ∉ accumulatingKeys)
    (hfix : mergePresetCacheVariable host k X c = X) :
    mergePresetCacheVariable host k (mergePresetCacheVariable host k X d) c
      = mergePresetCacheVariable host k X d := by
  rw [merge_step_plain host k X c hc] at hfix
  cases hidx : X.findIdx? (fun arg => ('-' :: 'D' :: c.key).isPrefixOf arg) with
  | none =>
    rw [hidx] at hfix
    have := congrArg List.length hfix
    simp at this
  | some i =>
    rw [hidx] at hfix
    dsimp only at hfix
    have hi := List.findIdx?_of_eq_some hidx
    rw [merge_step_plain host k X d hd]
    cases hjdx : X.findIdx? (fun arg => ('-' :: 'D' :: d.key).isPrefixOf arg) with
    | none =>
      dsimp only
      obtain ⟨pre, x, post, rfl, hlen, hx, hpre⟩ := findIdx_split _ _ _ hidx
      subst hlen
      have h1 : (pre ++ x :: post ++ [d.toArgument]).findIdx?
          (fun arg => ('-' :: 'D' :: c.key).isPrefixOf arg) = some pre.length := by
        rw [List.append_assoc, List.cons_append]
        exact findIdx_first _ pre _ _ hpre hx
      rw [merge_step_plain host k _ c hc, h1]
      dsimp only
      rw [getD_middle, set_middle] at hfix
      have hx2 : mergedArgument host k c x = x := by
        have := List.append_cancel_left hfix
        exact (List.cons.inj this).1
      rw [List.append_assoc, List.cons_append, getD_middle, set_middle, hx2]
    | some j =>
      dsimp only
      obtain ⟨pre, x, post, rfl, hlen, hx, hpre⟩ := findIdx_split _ _ _ hjdx
      subst hlen
      rw [getD_middle, set_middle]
      have hxk := hX x (by simp) hx
      rcases mergedArgument_cases host k d x hxk with h | h
      · rw [h, merge_step_plain host k _ c hc, hidx]
        exact hfix
      · rw [h]
        have hsame : (pre ++ d.toArgument :: post).findIdx?
            (fun arg => ('-' :: 'D' :: c.key).isPrefixOf arg) = some i := by
          have := findIdx_set_same (fun arg => ('-' :: 'D' :: c.key).isPrefixOf arg)
            (pre ++ x :: post) pre.length d.toArgument (by
              intro z hz
              have hget : (pre ++ x :: post)[pre.length]? = some x := by
                rw [List.getElem?_append_right (Nat.le_refl _), Nat.sub_self]
                exact List.getElem?_cons_zero
              rw [hget] at hz
              have hz2 : x = z := Option.some.inj hz
              subst hz2
              dsimp only
              rw [not_both_prefixes c d x hcd hx, not_prefix_toArgument c d hc hd hcd])
          rw [set_middle] at this
          rw [this, hidx]
        have hne : i ≠ pre.length := by
          intro heq
          subst heq
          simp only [List.getElem?_append_right (Nat.le_refl _), Nat.sub_self,
            List.getElem?_cons_zero] at hi
          rw [not_both_prefixes c d x hcd hx] at hi
          exact absurd hi (by decide)
        rw [merge_step_plain host k _ c hc, hsame]
        dsimp only
        have hget : (pre ++ d.toArgument :: post).getD i [] = (pre ++ x :: post).getD i [] := by
          have : pre ++ d.toArgument :: post = (pre ++ x :: post).set pre.length d.toArgument :=
            (set_middle pre post x _).symm
          rw [this]
          simp only [List.getD_eq_getElem?_getD]
          rw [List.getElem?_set_ne (Ne.symm hne)]
        rw [hget]
        have : pre ++ d.toArgument :: post = (pre ++ x :: post).set pre.length d.toArgument :=
          (set_middle pre post x _).symm
        rw [this, List.set_comm _ _ _ (Ne.symm hne), hfix]

theorem merge_step_keeps_condition (host : PresetHost) (k : Kit) (X : List QString)
    (d : CMakeConfigItem) (rest : CMakeConfig) (hd : d.isPlainVariable = true)
    (hrest : ∀ c ∈ rest, c.isPlainVariable = true ∧ keysApart d.key c.key = true)
    (hX : ∀ a ∈ X, ∀ c ∈ d :: rest, ('-' :: 'D' :: c.key).isPrefixOf a = true →
      (fromString (a.drop 2)).key ∉ accumulatingKeys) :
    ∀ a ∈ mergePresetCacheVariable host k X d, ∀ c ∈ rest,
      ('-' :: 'D' :: c.key).isPrefixOf a = true →
      (fromString (a.drop 2)).key ∉ accumulatingKeys := by
  intro a ha c hc hp
  rcases mem_merge_step host k X d hd (fun a ha => hX a ha d (List.mem_cons_self _ _)) a ha
    with h | h
  · exact hX a h c (List.mem_cons_of_mem _ hc) hp
  · subst h
    obtain ⟨hcp, hdc⟩ := hrest c hc
    rw [not_prefix_toArgument c d hcp hd (keysApart_symm _ _ hdc)] at hp
    exact absurd hp (by decide)

theorem merge_fold_keeps_fixed (host : PresetHost) (k : Kit) (items : CMakeConfig)
    (X : List QString) (c : CMakeConfigItem) (hc : c.isPlainVariable = true)
    (hitems : ∀ d ∈ items, d.isPlainVariable = true ∧ keysApart c.key d.key = true)
    (hpair : items.Pairwise fun a b => keysApart a.key b.key = true)
    (hX : ∀ a ∈ X, ∀ d ∈ items, ('-' :: 'D' :: d.key).isPrefixOf a = true →
      (fromString (a.drop 2)).key ∉ accumulatingKeys)
    (hfix : mergePresetCacheVariable host k X c = X) :
    mergePresetCacheVariable host k (items.foldl (mergePresetCacheVariable host k) X) c
      = items.foldl (mergePresetCacheVariable host k) X := by
  induction items generalizing X with
  | nil => exact hfix
  | cons d rest ih =>
    rw [List.foldl_cons]
    obtain ⟨hdp, hcd⟩ := hitems d (List.mem_cons_self _ _)
    rw [List.pairwise_cons] at hpair
    apply ih
    · intro e he
      exact hitems e (List.mem_cons_of_mem _ he)
    · exact hpair.2
    · exact merge_step_keeps_condition host k X d rest hdp
        (fun e he => ⟨(hitems e (List.mem_cons_of_mem _ he)).1, hpair.1 e he⟩) hX
    · exact merge_step_keeps_fixed host k X c d hc hdp hcd
        (fun a ha => hX a ha d (List.mem_cons_self _ _)) hfix

theorem merge_fold_all_fixed (host : PresetHost) (k : Kit) (items : CMakeConfig)
    (X : List QString)
    (hitems : ∀ d ∈ items, d.isPlainVariable = true ∧ d.key ∉ accumulatingKeys)
    (hpair : items.Pairwise fun a b => keysApart a.key b.key = true)
    (hX : ∀ a ∈ X, ∀ d ∈ items, ('-' :: 'D' :: d.key).isPrefixOf a = true →
      (fromString (a.drop 2)).key ∉ accumulatingKeys) :
    ∀ c ∈ items,
      mergePresetCacheVariable host k (items.foldl (mergePresetCacheVariable host k) X) c
        = items.foldl (mergePresetCacheVariable host k) X := by
  induction items generalizing X with
  | nil => intro c hc; cases hc
  | cons d rest ih =>
    intro c hc
    rw [List.foldl_cons]
    obtain ⟨hdp, hdk⟩ := hitems d (List.mem_cons_self _ _)
    rw [List.pairwise_cons] at hpair
    have hcond := merge_step_keeps_condition host k X d rest hdp
      (fun e he => ⟨(hitems e (List.mem_cons_of_mem _ he)).1, hpair.1 e he⟩) hX
    rcases List.mem_cons.1 hc with rfl | hc
    · apply merge_fold_keeps_fixed host k rest _ c hdp
          (fun e he => ⟨(hitems e (List.mem_cons_of_mem _ he)).1, hpair.1 e he⟩) hpair.2 hcond
      exact merge_step_idem host k X c hdp hdk
        (fun a ha => hX a ha c (List.mem_cons_self _ _))
    · exact ih _ (fun e he => hitems e (List.mem_cons_of_mem _ he)) hpair.2 hcond c hc

theorem merge_fold_fixed (host : PresetHost) (k : Kit) (items : CMakeConfig)
    (B : List QString) (h : ∀ c ∈ items, mergePresetCacheVariable host k B c = B) :
    items.foldl (mergePresetCacheVariable host k) B = B := by
  induction items with
  | nil => rfl
  | cons d rest ih =>
    rw [List.foldl_cons, h d (List.mem_cons_self _ _)]
    exact ih (fun c hc => h c (List.mem_cons_of_mem _ hc))

theorem mem_merge_fold (host : PresetHost) (k : Kit) (items : CMakeConfig)
    (X : List QString)
    (hitems : ∀ d ∈ items, d.isPlainVariable = true)
    (hpair : items.Pairwise fun a b => keysApart a.key b.key = true)
    (hX : ∀ a ∈ X, ∀ d ∈ items, ('-' :: 'D' :: d.key).isPrefixOf a = true →
      (fromString (a.drop 2)).key ∉ accumulatingKeys) :
    ∀ a ∈ items.foldl (mergePresetCacheVariable host k) X,
      a ∈ X ∨ ∃ c ∈ items, a = c.toArgument := by
  induction items generalizing X with
  | nil => intro a ha; exact Or.inl ha
  | cons d rest ih =>
    intro a ha
    rw [List.foldl_cons] at ha
    have hdp := hitems d (List.mem_cons_self _ _)
    rw [List.pairwise_cons] at hpair
    have hcond := merge_step_keeps_condition host k X d rest hdp
      (fun e he => ⟨hitems e (List.mem_cons_of_mem _ he), hpair.1 e he⟩) hX
    rcases ih _ (fun e he => hitems e (List.mem_cons_of_mem _ he)) hpair.2 hcond a ha
      with h | ⟨c, hc, h⟩
    · rcases mem_merge_step host k X d hdp
        (fun a ha => hX a ha d (List.mem_cons_self _ _)) a h with h | h
      · exact Or.inl h
      · exact Or.inr ⟨d, List.mem_cons_self _ _, h⟩
    · exact Or.inr ⟨c, List.mem_cons_of_mem _ hc, h⟩

/-- The merge as a fold over the cache variables with their values expanded,
when the preset sets no flag. -/
theorem merge_eq_fold (host : PresetHost) (args : List QString) (project : CMakeProject)
    (k : Kit) (env : Environment) (buildDirectory : QString)
    (hk : k.cmakePresetConfigItem.isNull = false)
    (hf : presetFlagArguments (namedConfigurePreset project k) = []) :
    addCMakeConfigurePresetToInitialArguments host args project k env buildDirectory
      = ((mergedCacheVariables host project k env buildDirectory).map fun raw =>
          { raw with
            value := host.expand
              (host.updateInstallDir
                (host.updateToolchainFile (namedConfigurePreset project k) env
                  project.projectDirectory buildDirectory) env project.projectDirectory)
              env project.projectDirectory raw.value }).foldl
          (mergePresetCacheVariable host k)
          (args.filter fun item => !(item == k.cmakePresetConfigItem.toArgument)) := by
  unfold namedConfigurePreset at hf
  simp only [addCMakeConfigurePresetToInitialArguments, hk, Bool.false_eq_true, if_false, hf,
    List.append_nil, mergedCacheVariables, namedConfigurePreset, List.foldl_map]

/-- C10 (as the code has it): merging twice is not merging once.  The flag
arguments are appended again: with a preset that sets `warnings.dev`, the
arguments `-DQTC_CMAKE_PRESET:STRING=p1`, `-GNinja` become `-GNinja`, `-Wdev`
and, merged again, `-GNinja`, `-Wdev`, `-Wdev`.  The value of a
CMAKE_CXX_FLAGS_INIT cache variable is appended again: `-g` becomes `-g -O2`
and then `-g -O2 -O2`.  A path of a CMAKE_PREFIX_PATH cache variable is
appended again when `FilePath::fromUserInput` does not give the path that
`FilePath::fromString` gives: `/qt` becomes `/qt;/vendor/` and then
`/qt;/vendor/;/vendor/`.  And with the cache variables FOOBAR and FOO, in this
order, the first merge leaves `-DFOO:STRING=1` alone, the argument of FOOBAR
having been taken for the one of FOO, and the second merge appends
`-DFOOBAR:STRING=2` again. -/
theorem mergePreset_not_idempotent :
    (addCMakeConfigurePresetToInitialArguments plainPresetHost
        ["-DQTC_CMAKE_PRESET:STRING=p1".toList, "-GNinja".toList]
        ⟨[{ PresetsDetails.ConfigurePreset.default with
              name := "p1".toList, warnings := some ⟨some true, none, none, none, none⟩ }], []⟩
        (presetKit "p1".toList) [] []
        = ["-GNinja".toList, "-Wdev".toList]
      ∧ addCMakeConfigurePresetToInitialArguments plainPresetHost
        ["-GNinja".toList, "-Wdev".toList]
        ⟨[{ PresetsDetails.ConfigurePreset.default with
              name := "p1".toList, warnings := some ⟨some true, none, none, none, none⟩ }], []⟩
        (presetKit "p1".toList) [] []
        = ["-GNinja".toList, "-Wdev".toList, "-Wdev".toList])
    ∧ (addCMakeConfigurePresetToInitialArguments plainPresetHost
        ["-DCMAKE_CXX_FLAGS_INIT:STRING=-g".toList]
        ⟨[{ PresetsDetails.ConfigurePreset.default with
              name := "p1".toList,
              cacheVariables := some
                [CMakeConfigItem.create "CMAKE_CXX_FLAGS_INIT".toList .STRING "-O2".toList] }],
          []⟩
        (presetKit "p1".toList) [] []
        = ["-DCMAKE_CXX_FLAGS_INIT:STRING=-g -O2".toList]
      ∧ addCMakeConfigurePresetToInitialArguments plainPresetHost
        ["-DCMAKE_CXX_FLAGS_INIT:STRING=-g -O2".toList]
        ⟨[{ PresetsDetails.ConfigurePreset.default with
              name := "p1".toList,
              cacheVariables := some
                [CMakeConfigItem.create "CMAKE_CXX_FLAGS_INIT".toList .STRING "-O2".toList] }],
          []⟩
        (presetKit "p1".toList) [] []
        = ["-DCMAKE_CXX_FLAGS_INIT:STRING=-g -O2 -O2".toList])
    ∧ (addCMakeConfigurePresetToInitialArguments cleaningPresetHost
        ["-DCMAKE_PREFIX_PATH:PATH=/qt".toList]
        ⟨[{ PresetsDetails.ConfigurePreset.default with
              name := "p1".toList,
              cacheVariables := some
                [CMakeConfigItem.create "CMAKE_PREFIX_PATH".toList .PATH "/vendor/".toList] }],
          []⟩
        (presetKit "p1".toList) [] []
        = ["-DCMAKE_PREFIX_PATH:PATH=/qt;/vendor/".toList]
      ∧ addCMakeConfigurePresetToInitialArguments cleaningPresetHost
        ["-DCMAKE_PREFIX_PATH:PATH=/qt;/vendor/".toList]
        ⟨[{ PresetsDetails.ConfigurePreset.default with
              name := "p1".toList,
              cacheVariables := some
                [CMakeConfigItem.create "CMAKE_PREFIX_PATH".toList .PATH "/vendor/".toList] }],
          []⟩
        (presetKit "p1".toList) [] []
        = ["-DCMAKE_PREFIX_PATH:PATH=/qt;/vendor/;/vendor/".toList])
    ∧ (addCMakeConfigurePresetToInitialArguments plainPresetHost
        ["-DQTC_CMAKE_PRESET:STRING=p1".toList]
        ⟨[{ PresetsDetails.ConfigurePreset.default with
              name := "p1".toList,
              cacheVariables := some
                [CMakeConfigItem.create "FOOBAR".toList .STRING "2".toList,
                  CMakeConfigItem.create "FOO".toList .STRING "1".toList] }], []⟩
        (presetKit "p1".toList) [] []
        = ["-DFOO:STRING=1".toList]
      ∧ addCMakeConfigurePresetToInitialArguments plainPresetHost
        ["-DFOO:STRING=1".toList]
        ⟨[{ PresetsDetails.ConfigurePreset.default with
              name := "p1".toList,
              cacheVariables := some
                [CMakeConfigItem.create "FOOBAR".toList .STRING "2".toList,
                  CMakeConfigItem.create "FOO".toList .STRING "1".toList] }], []⟩
        (presetKit "p1".toList) [] []
        = ["-DFOO:STRING=1".toList, "-DFOOBAR:STRING=2".toList]) := by
  decide

/-- C10 (amended): the merge is idempotent for a fixed kit, preset data,
environment and argument list when the kit carries no preset marker, or when
the preset named by the marker sets no warnings, errors or debug flag and its
cache variables are replaced or kept, never added to: each cache variable is a
plain variable (no unset item, its key not empty and without `:` and `=`) of
none of the keys CMAKE_PREFIX_PATH, CMAKE_FIND_ROOT_PATH, CMAKE_C_FLAGS_INIT,
CMAKE_CXX_FLAGS_INIT, no key of a cache variable starts with the key of
another, the marker argument does not start with `-D<key>` of a cache
variable, and no argument that starts with `-D<key>` of a cache variable is an
argument of one of the four keys. -/
theorem mergePreset_idempotent (host : PresetHost) (args : List QString)
    (project : CMakeProject) (k : Kit) (env : Environment) (buildDirectory : QString)
    (h : k.cmakePresetConfigItem.isNull = true
      ∨ (presetFlagArguments (namedConfigurePreset project k) = []
        ∧ (∀ c ∈ mergedCacheVariables host project k env buildDirectory,
            c.isPlainVariable = true ∧ c.key ∉ accumulatingKeys
              ∧ ('-' :: 'D' :: c.key).isPrefixOf k.cmakePresetConfigItem.toArgument = false)
        ∧ (mergedCacheVariables host project k env buildDirectory).Pairwise
            (fun a b => keysApart a.key b.key = true)
        ∧ (∀ a ∈ args, ∀ c ∈ mergedCacheVariables host project k env buildDirectory,
            ('-' :: 'D' :: c.key).isPrefixOf a = true →
            (fromString (a.drop 2)).key ∉ accumulatingKeys))) :
    addCMakeConfigurePresetToInitialArguments host
        (addCMakeConfigurePresetToInitialArguments host args project k env buildDirectory)
        project k env buildDirectory
      = addCMakeConfigurePresetToInitialArguments host args project k env buildDirectory := by
  cases hk : k.cmakePresetConfigItem.isNull with
  | true => simp only [addCMakeConfigurePresetToInitialArguments, hk, if_true]
  | false =>
    rcases h with h | ⟨hf, hvars, hpair, hargs⟩
    · rw [hk] at h; cases h
    · rw [merge_eq_fold host _ project k env buildDirectory hk hf,
        merge_eq_fold host args project k env buildDirectory hk hf]
      generalize hitems : ((mergedCacheVariables host project k env buildDirectory).map fun raw =>
          { raw with
            value := host.expand
              (host.updateInstallDir
                (host.updateToolchainFile (namedConfigurePreset project k) env
                  project.projectDirectory buildDirectory) env project.projectDirectory)
              env project.projectDirectory raw.value }) = items
      have hmem : ∀ c ∈ items, ∃ raw ∈ mergedCacheVariables host project k env buildDirectory,
          c.key = raw.key ∧ c.isPlainVariable = raw.isPlainVariable := by
        intro c hc
        rw [← hitems] at hc
        obtain ⟨raw, hraw, rfl⟩ := List.mem_map.1 hc
        exact ⟨raw, hraw, rfl, rfl⟩
      have hplain : ∀ c ∈ items, c.isPlainVariable = true ∧ c.key ∉ accumulatingKeys := by
        intro c hc
        obtain ⟨raw, hraw, hkey, hp⟩ := hmem c hc
        rw [hkey, hp]
        exact ⟨(hvars raw hraw).1, (hvars raw hraw).2.1⟩
      have hpair2 : items.Pairwise fun a b => keysApart a.key b.key = true := by
        rw [← hitems, List.pairwise_map]
        exact hpair
      have hcond : ∀ a ∈ args.filter (fun item => !(item == k.cmakePresetConfigItem.toArgument)),
          ∀ c ∈ items, ('-' :: 'D' :: c.key).isPrefixOf a = true →
          (fromString (a.drop 2)).key ∉ accumulatingKeys := by
        intro a ha c hc hp
        obtain ⟨raw, hraw, hkey, _⟩ := hmem c hc
        rw [hkey] at hp
        exact hargs a (List.mem_of_mem_filter ha) raw hraw hp
      have hclean : (items.foldl (mergePresetCacheVariable host k)
            (args.filter fun item => !(item == k.cmakePresetConfigItem.toArgument))).filter
            (fun item => !(item == k.cmakePresetConfigItem.toArgument))
          = items.foldl (mergePresetCacheVariable host k)
            (args.filter fun item => !(item == k.cmakePresetConfigItem.toArgument)) := by
        rw [List.filter_eq_self]
        intro a ha
        rcases mem_merge_fold host k items _ (fun c hc => (hplain c hc).1) hpair2 hcond a ha
          with h1 | ⟨c, hc, rfl⟩
        · exact (List.mem_filter.1 h1).2
        · obtain ⟨raw, hraw, hkey, _⟩ := hmem c hc
          have h2 := (hvars raw hraw).2.2
          have h3 := toArgument_starts c (hplain c hc).1
          rw [← hkey] at h2
          cases hm : c.toArgument == k.cmakePresetConfigItem.toArgument with
          | false => rfl
          | true =>
            rw [beq_iff_eq] at hm
            rw [hm, h2] at h3
            exact absurd h3 (by decide)
      rw [hclean]
      exact merge_fold_fixed host k items _
        (merge_fold_all_fixed host k items _ hplain hpair2 hcond)

theorem mergePreset_idempotent_witness :
    addCMakeConfigurePresetToInitialArguments plainPresetHost
        (addCMakeConfigurePresetToInitialArguments plainPresetHost
          ["-DQTC_CMAKE_PRESET:STRING=p1".toList, "-GNinja".toList, "-DFOO:STRING=0".toList,
            "-DCMAKE_PREFIX_PATH:PATH=/qt".toList]
          ⟨[{ PresetsDetails.ConfigurePreset.default with
                name := "p1".toList,
                cacheVariables := some
                  [CMakeConfigItem.create "FOO".toList .STRING "1".toList,
                    CMakeConfigItem.create "BAR".toList .BOOL "ON".toList,
                    CMakeConfigItem.create "CMAKE_TOOLCHAIN_FILE".toList .FILEPATH
                      "/b/tc.cmake".toList] }], []⟩
          (presetKit "p1".toList) [] [])
        ⟨[{ PresetsDetails.ConfigurePreset.default with
              name := "p1".toList,
              cacheVariables := some
                [CMakeConfigItem.create "FOO".toList .STRING "1".toList,
                  CMakeConfigItem.create "BAR".toList .BOOL "ON".toList,
                  CMakeConfigItem.create "CMAKE_TOOLCHAIN_FILE".toList .FILEPATH
                    "/b/tc.cmake".toList] }], []⟩
        (presetKit "p1".toList) [] []
      = addCMakeConfigurePresetToInitialArguments plainPresetHost
          ["-DQTC_CMAKE_PRESET:STRING=p1".toList, "-GNinja".toList, "-DFOO:STRING=0".toList,
            "-DCMAKE_PREFIX_PATH:PATH=/qt".toList]
          ⟨[{ PresetsDetails.ConfigurePreset.default with
                name := "p1".toList,
                cacheVariables := some
                  [CMakeConfigItem.create "FOO".toList .STRING "1".toList,
                    CMakeConfigItem.create "BAR".toList .BOOL "ON".toList,
                    CMakeConfigItem.create "CMAKE_TOOLCHAIN_FILE".toList .FILEPATH
                      "/b/tc.cmake".toList] }], []⟩
          (presetKit "p1".toList) [] [] :=
  mergePreset_idempotent plainPresetHost _ _ (presetKit "p1".toList) [] []
    (Or.inr ⟨by decide, by decide, by decide, by decide⟩)

end MergeTwice

end QtCreator
